import Mathlib

/-!
# VexConnect: packet codec, seen cache, relay and fan-out

A shallow embedding of `packet.c`, `seen.c`, `mesh.c` and `transport_unix.c`.
Bytes, lengths and counters are natural numbers (with explicit reduction modulo
`2^w` where the C code narrows or may wrap), `int` and `time_t` values are
integers, C arrays are lists, and the clock and the outcome of `write` are
explicit arguments.
-/

namespace Vex

/-! ## Protocol constants (`vex.h`) -/

def VEX_VERSION : Nat := 0x01
def VEX_MAX_PACKET : Nat := 512
def VEX_HEADER_SIZE : Nat := 11
def VEX_MAX_PAYLOAD : Nat := VEX_MAX_PACKET - VEX_HEADER_SIZE
def VEX_DEFAULT_TTL : Nat := 7
def VEX_SEEN_CAPACITY : Nat := 1000
def VEX_SEEN_TTL_SEC : Int := 60
def VEX_MAX_PEERS : Nat := 32

/-! ## Byte buffers -/

/-- The C call `memcpy(dst + off, src, n)`: bytes `off .. off+n-1` of `dst` are
replaced by the first `n` bytes of `src` (both regions are assumed to exist). -/
def memcpy (dst : List Nat) (off : Nat) (src : List Nat) (n : Nat) : List Nat :=
  dst.take off ++ src.take n ++ dst.drop (off + n)

/-- The C call `memcmp(a, b, n)`, reduced to the only thing the code tests:
`0` when the first `n` bytes agree, non-zero otherwise. -/
def memcmp (a b : List Nat) (n : Nat) : Int :=
  if a.take n = b.take n then 0 else 1

/-! ## Packet (`vex_packet_t`) and codec (`packet.c`) -/

/-- The struct `vex_packet_t`: `packet_id` is an 8-byte array, `payload` a
`VEX_MAX_PAYLOAD`-byte array, `payload_len` a `uint16_t`. -/
structure vex_packet_t where
  version : Nat
  packet_id : List Nat
  ttl : Nat
  flags : Nat
  payload : List Nat
  payload_len : Nat
deriving DecidableEq, Repr

/-- The function `vex_packet_encode(pkt, buf, buf_len)`: the `int` result and
the buffer afterwards. -/
def vex_packet_encode (pkt : vex_packet_t) (buf : List Nat) (buf_len : Nat) :
    Int × List Nat :=
  let total := VEX_HEADER_SIZE + pkt.payload_len
  if total > buf_len ∨ total > VEX_MAX_PACKET then (-1, buf)
  else if pkt.version ≠ VEX_VERSION then (-1, buf)
  else
    let buf := buf.set 0 pkt.version
    let buf := memcpy buf 1 pkt.packet_id 8
    let buf := buf.set 9 pkt.ttl
    let buf := buf.set 10 pkt.flags
    let buf :=
      if pkt.payload_len > 0 then memcpy buf VEX_HEADER_SIZE pkt.payload pkt.payload_len
      else buf
    ((total : Int), buf)

/-- The function `vex_packet_decode(buf, len, pkt)`: the `int` result and the
packet struct afterwards (fields written before a failing check stay written).
`len` is a `size_t`; the cast to `uint16_t` is the reduction modulo `2^16`. -/
def vex_packet_decode (buf : List Nat) (len : Nat) (pkt : vex_packet_t) :
    Int × vex_packet_t :=
  if len < VEX_HEADER_SIZE then (-1, pkt)
  else
    let pkt := { pkt with version := buf.getD 0 0 }
    if pkt.version ≠ VEX_VERSION then (-1, pkt)
    else
      let pkt := { pkt with packet_id := memcpy pkt.packet_id 0 (buf.drop 1) 8 }
      let pkt := { pkt with ttl := buf.getD 9 0 }
      let pkt := { pkt with flags := buf.getD 10 0 }
      let pkt := { pkt with payload_len := (len - VEX_HEADER_SIZE) % 65536 }
      if pkt.payload_len > VEX_MAX_PAYLOAD then (-1, pkt)
      else
        let pkt :=
          if pkt.payload_len > 0 then
            { pkt with
              payload := memcpy pkt.payload 0 (buf.drop VEX_HEADER_SIZE) pkt.payload_len }
          else pkt
        (0, pkt)

/-- What a successful encode leaves in the buffer, as one list. -/
def encoded (pkt : vex_packet_t) (buf : List Nat) : List Nat :=
  pkt.version :: (pkt.packet_id.take 8 ++ pkt.ttl :: pkt.flags ::
    (pkt.payload.take pkt.payload_len ++ buf.drop (VEX_HEADER_SIZE + pkt.payload_len)))

/-- What a successful decode leaves in the packet struct. -/
def decoded (buf : List Nat) (len : Nat) (pkt : vex_packet_t) : vex_packet_t :=
  { version := buf.getD 0 0
    packet_id := (buf.drop 1).take 8 ++ pkt.packet_id.drop 8
    ttl := buf.getD 9 0
    flags := buf.getD 10 0
    payload := (buf.drop VEX_HEADER_SIZE).take ((len - VEX_HEADER_SIZE) % 65536) ++
      pkt.payload.drop ((len - VEX_HEADER_SIZE) % 65536)
    payload_len := (len - VEX_HEADER_SIZE) % 65536 }

/-! ## Seen cache (`seen.c`) -/

/-- The struct `vex_seen_entry_t`; `timestamp` is a `time_t` clock reading and
`active` a C `int` used as a truth value. -/
structure vex_seen_entry_t where
  packet_id : List Nat
  timestamp : Int
  active : Int
deriving DecidableEq, Repr

/-- The struct `vex_seen_cache_t`: an array of `VEX_SEEN_CAPACITY` entries and
the `int` high-water mark `count`. -/
structure vex_seen_cache_t where
  entries : List vex_seen_entry_t
  count : Int
deriving DecidableEq, Repr

/-- An all-zero entry, as `memset` leaves it. -/
def zero_entry : vex_seen_entry_t :=
  { packet_id := List.replicate 8 0, timestamp := 0, active := 0 }

/-- The function `vex_seen_init`: `memset` to zero, then `count = 0`. The old
contents of the cache do not matter. -/
def vex_seen_init (_cache : vex_seen_cache_t) : vex_seen_cache_t :=
  { entries := List.replicate VEX_SEEN_CAPACITY zero_entry, count := 0 }

/-- The loop of `vex_seen_check`, walking the array from the current entry on:
`n` is the number of iterations left (`count - i`), the list holds
`entries[i], entries[i+1], ...`. The result is the return value (`1` on the
early return, `0` when the loop runs out) and the entries as the loop leaves
them. -/
def vex_seen_check_loop (packet_id : List Nat) (now : Int) :
    Nat → List vex_seen_entry_t → Int × List vex_seen_entry_t
  | 0, es => (0, es)
  | _ + 1, [] => (0, [])
  | n + 1, e :: es =>
    if e.active = 0 then
      ((vex_seen_check_loop packet_id now n es).1,
        e :: (vex_seen_check_loop packet_id now n es).2)
    else if now - e.timestamp > VEX_SEEN_TTL_SEC then
      ((vex_seen_check_loop packet_id now n es).1,
        { e with active := 0 } :: (vex_seen_check_loop packet_id now n es).2)
    else if memcmp e.packet_id packet_id 8 = 0 then (1, e :: es)
    else
      ((vex_seen_check_loop packet_id now n es).1,
        e :: (vex_seen_check_loop packet_id now n es).2)

/-- The function `vex_seen_check(cache, packet_id)` with `time(NULL) = now`:
the return value and the cache afterwards. -/
def vex_seen_check (cache : vex_seen_cache_t) (packet_id : List Nat) (now : Int) :
    Int × vex_seen_cache_t :=
  let r := vex_seen_check_loop packet_id now cache.count.toNat cache.entries
  (r.1, { cache with entries := r.2 })

/-- The first loop of `vex_seen_add`: `n` iterations are left, the list holds
`entries[i], entries[i+1], ...`. On the first inactive or expired entry it
overwrites that entry and reports its index; `none` when the loop runs out. -/
def vex_seen_add_first (packet_id : List Nat) (now : Int) :
    Nat → Nat → List vex_seen_entry_t → Option (Nat × List vex_seen_entry_t)
  | 0, _, _ => none
  | _ + 1, _, [] => none
  | n + 1, i, e :: es =>
    if e.active = 0 ∨ now - e.timestamp > VEX_SEEN_TTL_SEC then
      some (i, { packet_id := memcpy e.packet_id 0 packet_id 8,
                 timestamp := now, active := 1 } :: es)
    else
      match vex_seen_add_first packet_id now n (i + 1) es with
      | none => none
      | some r => some (r.1, e :: r.2)

/-- The second loop of `vex_seen_add` (the search for the oldest timestamp):
`n` iterations are left, the list holds `entries[i], entries[i+1], ...`, and
`oldest_idx`, `oldest_time` are the loop variables. -/
def vex_seen_add_oldest :
    Nat → Nat → List vex_seen_entry_t → Nat → Int → Nat
  | 0, _, _, oldest_idx, _ => oldest_idx
  | _ + 1, _, [], oldest_idx, _ => oldest_idx
  | n + 1, i, e :: es, oldest_idx, oldest_time =>
    if e.timestamp < oldest_time then vex_seen_add_oldest n (i + 1) es i e.timestamp
    else vex_seen_add_oldest n (i + 1) es oldest_idx oldest_time

/-- The function `vex_seen_add(cache, packet_id)` with `time(NULL) = now`. -/
def vex_seen_add (cache : vex_seen_cache_t) (packet_id : List Nat) (now : Int) :
    vex_seen_cache_t :=
  match vex_seen_add_first packet_id now VEX_SEEN_CAPACITY 0 cache.entries with
  | some r =>
    { entries := r.2
      count := if (r.1 : Int) ≥ cache.count then (r.1 : Int) + 1 else cache.count }
  | none =>
    let oldest_idx :=
      vex_seen_add_oldest (VEX_SEEN_CAPACITY - 1) 1 (cache.entries.drop 1) 0
        (cache.entries.getD 0 zero_entry).timestamp
    let old := cache.entries.getD oldest_idx zero_entry
    { cache with
      entries := cache.entries.set oldest_idx
        { packet_id := memcpy old.packet_id 0 packet_id 8, timestamp := now, active := 1 } }

/-- The loop of `vex_seen_prune`: `n` iterations are left, the list holds
`entries[i], entries[i+1], ...`. -/
def vex_seen_prune_loop (now : Int) : Nat → List vex_seen_entry_t → List vex_seen_entry_t
  | 0, es => es
  | _ + 1, [] => []
  | n + 1, e :: es =>
    (if e.active ≠ 0 ∧ now - e.timestamp > VEX_SEEN_TTL_SEC then { e with active := 0 }
     else e) :: vex_seen_prune_loop now n es

/-- The function `vex_seen_prune(cache)` with `time(NULL) = now`. -/
def vex_seen_prune (cache : vex_seen_cache_t) (now : Int) : vex_seen_cache_t :=
  { cache with entries := vex_seen_prune_loop now cache.count.toNat cache.entries }

/-- One call on the seen cache, with the clock reading it is made at. -/
inductive seen_op where
  | add (packet_id : List Nat) (now : Int)
  | check (packet_id : List Nat) (now : Int)
  | prune (now : Int)
deriving DecidableEq, Repr

/-- The clock reading of a call. -/
def seen_op.clock : seen_op → Int
  | .add _ now => now
  | .check _ now => now
  | .prune now => now

/-- The cache after one call. -/
def seen_step (cache : vex_seen_cache_t) : seen_op → vex_seen_cache_t
  | .add packet_id now => vex_seen_add cache packet_id now
  | .check packet_id now => (vex_seen_check cache packet_id now).2
  | .prune now => vex_seen_prune cache now

/-- The cache after a sequence of calls, first call first. -/
def seen_run (cache : vex_seen_cache_t) (ops : List seen_op) : vex_seen_cache_t :=
  ops.foldl seen_step cache

/-- An entry that is live at clock `now`: active and not expired. These are
the entries `vex_seen_check` compares ids with and `vex_seen_add` does not
reuse in its first loop. -/
def entry_live (e : vex_seen_entry_t) (now : Int) : Prop :=
  e.active ≠ 0 ∧ ¬ (now - e.timestamp > VEX_SEEN_TTL_SEC)

instance (e : vex_seen_entry_t) (now : Int) : Decidable (entry_live e now) := by
  unfold entry_live; infer_instance

/-- Some slot among the `VEX_SEEN_CAPACITY` is inactive or expired at `now`, so
that `vex_seen_add` does not have to evict. -/
def seen_has_free (cache : vex_seen_cache_t) (now : Int) : Prop :=
  ∃ e ∈ cache.entries.take VEX_SEEN_CAPACITY, ¬ entry_live e now

instance (cache : vex_seen_cache_t) (now : Int) : Decidable (seen_has_free cache now) := by
  unfold seen_has_free; infer_instance

/-- The representation invariant of the seen cache: the array has
`VEX_SEEN_CAPACITY` entries, `count` lies in `0 .. VEX_SEEN_CAPACITY`, and every
active entry sits at an index below `count`. -/
def seen_inv (cache : vex_seen_cache_t) : Prop :=
  cache.entries.length = VEX_SEEN_CAPACITY ∧ 0 ≤ cache.count ∧
  cache.count ≤ (VEX_SEEN_CAPACITY : Int) ∧
  ∀ (i : Nat) (e : vex_seen_entry_t), cache.entries[i]? = some e → e.active ≠ 0 →
    (i : Int) < cache.count

/-- The cache `c2` is `c1` with some entries deactivated, each of them expired
at clock `t2`; `count` and the array size are the same. -/
def seen_weaker (t2 : Int) (c1 c2 : vex_seen_cache_t) : Prop :=
  c2.count = c1.count ∧ c2.entries.length = c1.entries.length ∧
  ∀ (i : Nat) (e : vex_seen_entry_t), c1.entries[i]? = some e →
    c2.entries[i]? = some e ∨
    (e.active ≠ 0 ∧ t2 - e.timestamp > VEX_SEEN_TTL_SEC ∧
      c2.entries[i]? = some { e with active := 0 })

/-- Every `vex_seen_add` of the sequence, run from `cache`, is made in a state
that has an inactive or expired slot. -/
def adds_find_free : vex_seen_cache_t → List seen_op → Prop
  | _, [] => True
  | cache, op :: ops =>
    (∀ (packet_id : List Nat) (now : Int), op = .add packet_id now →
      seen_has_free cache now) ∧
    adds_find_free (seen_step cache op) ops

/-- A packet id. -/
def sample_id_a : List Nat := [1, 2, 3, 4, 5, 6, 7, 8]

/-- A second packet id. -/
def sample_id_b : List Nat := [9, 9, 9, 9, 9, 9, 9, 9]

/-- The entry `vex_seen_add` writes for `sample_id_a` at clock 0. -/
def sample_entry_a : vex_seen_entry_t := { packet_id := sample_id_a, timestamp := 0, active := 1 }

/-- The entry `vex_seen_add` writes for `sample_id_b` at clock 0. -/
def sample_entry_b : vex_seen_entry_t := { packet_id := sample_id_b, timestamp := 0, active := 1 }

/-! ## Peers and fan-out (`transport_unix.c`) -/

/-- The struct `vex_peer_t`. -/
structure vex_peer_t where
  fd : Int
  name : List Nat
  pubkey : List Nat
  active : Int
  rssi : Int
  last_seen : Int
deriving DecidableEq, Repr

/-- A system call made on a peer descriptor: `write(fd, bytes, |bytes|)` with
the value it returned, or `close(fd)`. -/
inductive io_event where
  | write (fd : Int) (bytes : List Nat) (ret : Int)
  | close (fd : Int)
deriving DecidableEq, Repr

/-- The descriptor a system call is made on. -/
def io_event.fd : io_event → Int
  | .write fd _ _ => fd
  | .close fd => fd

/-- What the two `write` calls of one `vex_transport_send_to_peer` return (the
second is only consulted when the first returned 2). -/
structure write_outcome where
  header_n : Int
  data_n : Int
deriving DecidableEq, Repr

/-- The result of one `vex_transport_send_to_peer`: return value, the peer slot
afterwards and the system calls made, in order. -/
structure send_to_peer_result where
  ret : Int
  peer : vex_peer_t
  io : List io_event
deriving DecidableEq, Repr

/-- The cast `(ssize_t)len` of a `size_t`. -/
def ssize_of_size (len : Nat) : Int :=
  if len % 2 ^ 64 < 2 ^ 63 then ((len % 2 ^ 64 : Nat) : Int)
  else ((len % 2 ^ 64 : Nat) : Int) - 2 ^ 64

/-- The function `vex_transport_send_to_peer(peer, data, len)`, the results of
its `write` calls being given by `w`. -/
def vex_transport_send_to_peer (peer : vex_peer_t) (data : List Nat) (len : Nat)
    (w : write_outcome) : send_to_peer_result :=
  if peer.active = 0 ∨ peer.fd < 0 then { ret := -1, peer := peer, io := [] }
  else
    let header := [(len >>> 8) % 256, (len &&& 0xFF) % 256]
    let n := w.header_n
    if n ≠ 2 then
      { ret := -1, peer := { peer with active := 0 },
        io := [.write peer.fd header n, .close peer.fd] }
    else
      let n := w.data_n
      if n ≠ ssize_of_size len then
        { ret := -1, peer := { peer with active := 0 },
          io := [.write peer.fd header 2, .write peer.fd (data.take len) n,
                 .close peer.fd] }
      else
        { ret := 0, peer := peer,
          io := [.write peer.fd header 2, .write peer.fd (data.take len) n] }

/-- One invocation of `vex_transport_send_to_peer` made by
`vex_transport_send_to_all`: the slot index it was made on, what it returned
and the system calls it made. -/
structure peer_call where
  slot : Nat
  ret : Int
  io : List io_event
deriving DecidableEq, Repr

/-- The result of `vex_transport_send_to_all`: the count returned, the peer
table afterwards and the per-peer invocations made, in order. -/
structure send_to_all_result where
  sent : Int
  peers : List vex_peer_t
  calls : List peer_call
deriving DecidableEq, Repr

/-- The loop of `vex_transport_send_to_all`: `n` iterations are left, the list
holds `peers[i], peers[i+1], ...`, and `W i` gives the outcome of the writes
to slot `i`. The `sent` of the result is the number of increments made from
here on. -/
def vex_transport_send_to_all_loop (data : List Nat) (len : Nat) (except_fd : Int)
    (W : Nat → write_outcome) : Nat → Nat → List vex_peer_t → send_to_all_result
  | 0, _, ps => { sent := 0, peers := ps, calls := [] }
  | _ + 1, _, [] => { sent := 0, peers := [], calls := [] }
  | n + 1, i, p :: ps =>
    let rest := vex_transport_send_to_all_loop data len except_fd W n (i + 1) ps
    if p.active ≠ 0 ∧ p.fd ≠ except_fd then
      let r := vex_transport_send_to_peer p data len (W i)
      { sent := (if r.ret = 0 then 1 else 0) + rest.sent
        peers := r.peer :: rest.peers
        calls := { slot := i, ret := r.ret, io := r.io } :: rest.calls }
    else
      { sent := rest.sent, peers := p :: rest.peers, calls := rest.calls }

/-! ## Node and relay (`mesh.c`) -/

/-- The struct `vex_node_t`; the four packet counters are `uint64_t`. -/
structure vex_node_t where
  sign_pk : List Nat
  sign_sk : List Nat
  box_pk : List Nat
  box_sk : List Nat
  node_name : List Nat
  mesh_key : List Nat
  peers : List vex_peer_t
  peer_count : Int
  seen : vex_seen_cache_t
  packets_sent : Nat
  packets_received : Nat
  packets_relayed : Nat
  packets_dropped : Nat
  started_at : Int
  default_ttl : Nat
  scan_interval : Int
  relay_enabled : Int
  lora_enabled : Int
  running : Int
  listen_fd : Int
deriving DecidableEq, Repr

/-- The function `vex_transport_send_to_all(node, data, len, except_fd)`: the
loop over the `VEX_MAX_PEERS` slots of `node->peers`. -/
def vex_transport_send_to_all (node : vex_node_t) (data : List Nat) (len : Nat)
    (except_fd : Int) (W : Nat → write_outcome) : send_to_all_result :=
  vex_transport_send_to_all_loop data len except_fd W VEX_MAX_PEERS 0 node.peers

/-- One invocation of `vex_transport_send_to_all` with its arguments (the
buffer passed, the length passed, the excluded descriptor) and its result. -/
structure send_to_all_call where
  data : List Nat
  len : Nat
  except_fd : Int
  result : send_to_all_result
deriving DecidableEq, Repr

/-- The result of `vex_mesh_relay`: return value, node afterwards, and the
invocations of `vex_transport_send_to_all` made. -/
structure relay_result where
  ret : Int
  node : vex_node_t
  sends : List send_to_all_call
deriving DecidableEq, Repr

/-- The function `vex_mesh_relay(node, raw, len, source_fd)`. The locals `pkt`
and `wire` are uninitialised in C: `pkt0` and `wire0` are their contents on
entry. `W` gives the outcome of the writes per peer slot. Logging is left out. -/
def vex_mesh_relay (node : vex_node_t) (raw : List Nat) (len : Nat) (source_fd : Int)
    (pkt0 : vex_packet_t) (wire0 : List Nat) (W : Nat → write_outcome) : relay_result :=
  let d := vex_packet_decode raw len pkt0
  if d.1 ≠ 0 then { ret := -1, node := node, sends := [] }
  else
    let pkt := d.2
    if pkt.ttl ≤ 1 then { ret := 0, node := node, sends := [] }
    else
      let pkt := { pkt with ttl := (pkt.ttl - 1) % 256 }
      let e := vex_packet_encode pkt wire0 VEX_MAX_PACKET
      let wire := e.2
      let wire_len := e.1
      if wire_len < 0 then { ret := -1, node := node, sends := [] }
      else
        let r := vex_transport_send_to_all node wire wire_len.toNat source_fd W
        let node := { node with peers := r.peers }
        let node := { node with packets_relayed := (node.packets_relayed + 1) % 2 ^ 64 }
        { ret := r.sent, node := node,
          sends := [{ data := wire, len := wire_len.toNat, except_fd := source_fd,
                      result := r }] }

/-- The slots `vex_transport_send_to_all` has to serve: index below
`VEX_MAX_PEERS`, slot active, descriptor different from `except_fd`. -/
def send_target (peers : List vex_peer_t) (except_fd : Int) (i : Nat) : Prop :=
  i < VEX_MAX_PEERS ∧ ∃ p, peers[i]? = some p ∧ p.active ≠ 0 ∧ p.fd ≠ except_fd

/-! ## Broadcast encryption (`crypto.c`) and packet ids (`packet.c`) -/

def crypto_secretbox_NONCEBYTES : Nat := 24
def crypto_secretbox_ZEROBYTES : Nat := 32
def crypto_secretbox_BOXZEROBYTES : Nat := 16

def VEX_FLAG_ENCRYPTED : Nat := 1
def VEX_FLAG_BROADCAST : Nat := 2
def VEX_FLAG_ACK_REQ : Nat := 4

/-- The TweetNaCl functions the code calls (declared in `tweetnacl.h`, defined
outside the sources at hand), taken as parameters. Each gets the bytes it
reads and returns what it writes: `crypto_secretbox m d n k` and
`crypto_secretbox_open c d n k` give the `int` result and the `d` output
bytes, `crypto_hash m n` gives the 64 hash bytes of the `n`-byte input. -/
structure nacl_t where
  crypto_secretbox : List Nat → Nat → List Nat → List Nat → Int × List Nat
  crypto_secretbox_open : List Nat → Nat → List Nat → List Nat → Int × List Nat
  crypto_hash : List Nat → Nat → List Nat

/-- The result of `vex_crypto_encrypt_broadcast` and
`vex_crypto_decrypt_broadcast`: the `int` result, the bytes written to the
output buffer and the value stored through the length pointer (nothing is
written on a failing path). -/
structure crypt_result where
  ret : Int
  out : List Nat
  out_len : Nat
deriving DecidableEq, Repr

/-- The function `vex_crypto_encrypt_broadcast(node, plain, len, cipher,
cipher_len)`; `nonce` is what `randombytes` delivers. The local buffers
`padded` and `encrypted` are represented by the bytes written to them, which
are the only ones read. -/
def vex_crypto_encrypt_broadcast (P : nacl_t) (node : vex_node_t) (plain : List Nat)
    (len : Nat) (nonce : List Nat) : crypt_result :=
  if len > VEX_MAX_PAYLOAD - crypto_secretbox_NONCEBYTES - crypto_secretbox_BOXZEROBYTES then
    { ret := -1, out := [], out_len := 0 }
  else
    let nonce := nonce.take crypto_secretbox_NONCEBYTES
    let padded := List.replicate crypto_secretbox_ZEROBYTES 0 ++ plain.take len
    let r := P.crypto_secretbox padded (crypto_secretbox_ZEROBYTES + len) nonce node.mesh_key
    if r.1 ≠ 0 then { ret := -1, out := [], out_len := 0 }
    else
      let encrypted := r.2
      let cipher := nonce ++ (encrypted.drop crypto_secretbox_BOXZEROBYTES).take
        (len + crypto_secretbox_ZEROBYTES - crypto_secretbox_BOXZEROBYTES)
      { ret := 0, out := cipher,
        out_len := (crypto_secretbox_NONCEBYTES + len + crypto_secretbox_ZEROBYTES -
          crypto_secretbox_BOXZEROBYTES) % 65536 }

/-- The function `vex_crypto_decrypt_broadcast(node, cipher, len, plain,
plain_len)`; `ct_len` and `plain_len` are `uint16_t`. The local buffers are
represented by the bytes written to them. -/
def vex_crypto_decrypt_broadcast (P : nacl_t) (node : vex_node_t) (cipher : List Nat)
    (len : Nat) : crypt_result :=
  if len ≤ crypto_secretbox_NONCEBYTES then { ret := -1, out := [], out_len := 0 }
  else
    let ct_len := (len - crypto_secretbox_NONCEBYTES) % 65536
    let nonce := cipher.take crypto_secretbox_NONCEBYTES
    let padded_cipher := List.replicate crypto_secretbox_BOXZEROBYTES 0 ++
      (cipher.drop crypto_secretbox_NONCEBYTES).take ct_len
    let r := P.crypto_secretbox_open padded_cipher (crypto_secretbox_BOXZEROBYTES + ct_len)
      nonce node.mesh_key
    if r.1 ≠ 0 then { ret := -1, out := [], out_len := 0 }
    else
      let decrypted := r.2
      let plain_len :=
        (ct_len + 65536 - (crypto_secretbox_ZEROBYTES - crypto_secretbox_BOXZEROBYTES)) % 65536
      { ret := 0, out := (decrypted.drop crypto_secretbox_ZEROBYTES).take plain_len,
        out_len := plain_len }

/-- The function `vex_packet_make_id(payload, len, id_out)`: the packet id array
afterwards; `salt` is what `randombytes` delivers for the 8-byte nonce. -/
def vex_packet_make_id (P : nacl_t) (payload : List Nat) (len : Nat) (salt : List Nat)
    (id_out : List Nat) : List Nat :=
  let hash_input := payload.take len ++ salt.take 8
  let hash_output := P.crypto_hash hash_input (len + 8)
  memcpy id_out 0 hash_output 8

/-- What the code relies on from `crypto_secretbox`: on a message of `d ≥ 32`
bytes it returns 0 and writes `d` bytes, the first 16 of them zero. -/
def secretbox_ok (P : nacl_t) : Prop :=
  ∀ (m n k : List Nat), crypto_secretbox_ZEROBYTES ≤ m.length →
    (P.crypto_secretbox m m.length n k).1 = 0 ∧
    (P.crypto_secretbox m m.length n k).2.length = m.length ∧
    (P.crypto_secretbox m m.length n k).2.take crypto_secretbox_BOXZEROBYTES =
      List.replicate crypto_secretbox_BOXZEROBYTES 0

/-- The contract of the box pair: `crypto_secretbox_open` inverts
`crypto_secretbox` on messages with 32 leading zero bytes, under the same
nonce and key. -/
def secretbox_inverse (P : nacl_t) : Prop :=
  ∀ (m n k : List Nat), crypto_secretbox_ZEROBYTES ≤ m.length →
    m.take crypto_secretbox_ZEROBYTES = List.replicate crypto_secretbox_ZEROBYTES 0 →
    P.crypto_secretbox_open (P.crypto_secretbox m m.length n k).2 m.length n k = (0, m)

/-! ## Send and receive (`mesh.c`) -/

/-- The result of `vex_mesh_send`: return value, node afterwards and the
invocations of `vex_transport_send_to_all` made. -/
structure send_result where
  ret : Int
  node : vex_node_t
  sends : List send_to_all_call
deriving DecidableEq, Repr

/-- The function `vex_mesh_send(node, message)`. `message` holds the bytes of
the C string before its terminating NUL, so `strlen` is its length. `now` is
the clock read by `vex_seen_add`, `nonce` and `salt` are the random bytes
drawn, `pkt0` and `wire0` the contents of the uninitialised locals `pkt` and
`wire`, `W` the outcome of the writes per peer slot. -/
def vex_mesh_send (P : nacl_t) (node : vex_node_t) (message : List Nat) (now : Int)
    (nonce salt : List Nat) (pkt0 : vex_packet_t) (wire0 : List Nat)
    (W : Nat → write_outcome) : send_result :=
  let msg_len := message.length
  if msg_len > VEX_MAX_PAYLOAD - 100 then { ret := -1, node := node, sends := [] }
  else
    let e := vex_crypto_encrypt_broadcast P node message (msg_len % 65536) nonce
    if e.ret ≠ 0 then { ret := -1, node := node, sends := [] }
    else
      let encrypted := e.out
      let encrypted_len := e.out_len
      let pkt := { pkt0 with version := VEX_VERSION }
      let pkt := { pkt with ttl := node.default_ttl }
      let pkt := { pkt with flags := VEX_FLAG_ENCRYPTED ||| VEX_FLAG_BROADCAST }
      let pkt := { pkt with payload_len := encrypted_len }
      let pkt := { pkt with payload := memcpy pkt.payload 0 encrypted encrypted_len }
      let pkt := { pkt with
        packet_id := vex_packet_make_id P encrypted encrypted_len salt pkt.packet_id }
      let node := { node with seen := vex_seen_add node.seen pkt.packet_id now }
      let w := vex_packet_encode pkt wire0 VEX_MAX_PACKET
      let wire := w.2
      let wire_len := w.1
      if wire_len < 0 then { ret := -1, node := node, sends := [] }
      else
        let r := vex_transport_send_to_all node wire wire_len.toNat (-1) W
        let node := { node with peers := r.peers }
        let node := { node with packets_sent := (node.packets_sent + 1) % 2 ^ 64 }
        { ret := r.sent, node := node,
          sends := [{ data := wire, len := wire_len.toNat, except_fd := -1, result := r }] }

/-- A line `vex_mesh_receive` prints for a decrypted packet: the text shown by
`%s` (the plaintext up to its first NUL), the ttl and the hop count shown. -/
structure deliver_event where
  text : List Nat
  ttl : Nat
  hops : Int
deriving DecidableEq, Repr

/-- The result of `vex_mesh_receive`: return value, node afterwards, the
`(cipher, len)` arguments of each `vex_crypto_decrypt_broadcast` call, the
lines printed and the invocations of `vex_transport_send_to_all` made. -/
structure receive_result where
  ret : Int
  node : vex_node_t
  decrypts : List (List Nat × Nat)
  delivered : List deliver_event
  sends : List send_to_all_call
deriving DecidableEq, Repr

/-- The function `vex_mesh_receive(node, raw, len, source_fd)`. `now_check` and
`now_add` are the clock readings of `vex_seen_check` and `vex_seen_add`,
`pkt0` the uninitialised local `pkt`, `relay_pkt0` and `wire0` the
uninitialised locals of `vex_mesh_relay`, `W` the outcome of the writes per
peer slot. Logging is left out. -/
def vex_mesh_receive (P : nacl_t) (node : vex_node_t) (raw : List Nat) (len : Nat)
    (source_fd : Int) (now_check now_add : Int) (pkt0 relay_pkt0 : vex_packet_t)
    (wire0 : List Nat) (W : Nat → write_outcome) : receive_result :=
  let d := vex_packet_decode raw len pkt0
  if d.1 ≠ 0 then
    { ret := -1,
      node := { node with packets_dropped := (node.packets_dropped + 1) % 2 ^ 64 },
      decrypts := [], delivered := [], sends := [] }
  else
    let pkt := d.2
    if pkt.version ≠ VEX_VERSION then
      { ret := -1,
        node := { node with packets_dropped := (node.packets_dropped + 1) % 2 ^ 64 },
        decrypts := [], delivered := [], sends := [] }
    else
      let c := vex_seen_check node.seen pkt.packet_id now_check
      let node := { node with seen := c.2 }
      if c.1 ≠ 0 then
        { ret := 0,
          node := { node with packets_dropped := (node.packets_dropped + 1) % 2 ^ 64 },
          decrypts := [], delivered := [], sends := [] }
      else
        let node := { node with seen := vex_seen_add node.seen pkt.packet_id now_add }
        let node := { node with packets_received := (node.packets_received + 1) % 2 ^ 64 }
        let dec := vex_crypto_decrypt_broadcast P node pkt.payload pkt.payload_len
        let decrypts :=
          if pkt.flags &&& VEX_FLAG_ENCRYPTED ≠ 0 then [(pkt.payload, pkt.payload_len)] else []
        let delivered :=
          if pkt.flags &&& VEX_FLAG_ENCRYPTED ≠ 0 then
            if dec.ret = 0 then
              [{ text := (dec.out.take dec.out_len).takeWhile (fun b => b ≠ 0),
                 ttl := pkt.ttl,
                 hops := (node.default_ttl : Int) - (pkt.ttl : Int) }]
            else []
          else []
        if node.relay_enabled ≠ 0 then
          let r := vex_mesh_relay node raw len source_fd relay_pkt0 wire0 W
          { ret := r.ret, node := r.node, decrypts := decrypts, delivered := delivered,
            sends := r.sends }
        else
          { ret := 0, node := node, decrypts := decrypts, delivered := delivered, sends := [] }

/-! ## Framed read (`transport_unix.c`) -/

/-- What one `read` call returns: the count `n`, whether `errno` is `EAGAIN` or
`EWOULDBLOCK` (looked at when `n < 0`), and the bytes stored. -/
structure read_outcome where
  n : Int
  again : Bool
  bytes : List Nat
deriving DecidableEq, Repr

/-- The result of `vex_transport_unix_read`: return value, the peer slot and
the buffer afterwards, and whether `close(peer->fd)` was called. -/
structure unix_read_result where
  ret : Int
  peer : vex_peer_t
  buf : List Nat
  closed : Bool
deriving DecidableEq, Repr

/-- The payload loop of `vex_transport_unix_read`: `R k` is the outcome of the
`k`-th `read` call, `total` the bytes read so far. The result says whether the
loop ran to its end (`true`) or hit `n <= 0` (`false`), with the buffer. Every
pass adds at least one byte, so `pkt_len` passes of fuel are enough. -/
def vex_transport_unix_read_loop (R : Nat → read_outcome) (pkt_len : Nat) :
    Nat → Nat → Nat → List Nat → Bool × List Nat
  | 0, _, _, buf => (true, buf)
  | fuel + 1, k, total, buf =>
    if total < pkt_len then
      if (R k).n ≤ 0 then (false, buf)
      else
        vex_transport_unix_read_loop R pkt_len fuel (k + 1) (total + (R k).n.toNat)
          (memcpy buf total (R k).bytes (R k).n.toNat)
    else (true, buf)

/-- The function `vex_transport_unix_read(peer, buf, buf_len)`: `R k` is the
outcome of the `k`-th `read` call it makes, `now` the clock read at the end. -/
def vex_transport_unix_read (peer : vex_peer_t) (buf : List Nat) (buf_len : Nat)
    (R : Nat → read_outcome) (now : Int) : unix_read_result :=
  if peer.active = 0 then { ret := -1, peer := peer, buf := buf, closed := false }
  else
    let n := (R 0).n
    let header := (R 0).bytes
    if n = 0 then
      { ret := -1, peer := { peer with active := 0 }, buf := buf, closed := true }
    else if n < 0 then
      if (R 0).again then { ret := 0, peer := peer, buf := buf, closed := false }
      else { ret := -1, peer := { peer with active := 0 }, buf := buf, closed := true }
    else if n ≠ 2 then { ret := -1, peer := peer, buf := buf, closed := false }
    else
      let pkt_len := ((header.getD 0 0 <<< 8) ||| header.getD 1 0) % 65536
      if pkt_len > buf_len ∨ pkt_len > VEX_MAX_PACKET then
        { ret := -1, peer := peer, buf := buf, closed := false }
      else
        let l := vex_transport_unix_read_loop R pkt_len pkt_len 1 0 buf
        if l.1 = false then
          { ret := -1, peer := { peer with active := 0 }, buf := l.2, closed := true }
        else
          { ret := (pkt_len : Int), peer := { peer with last_seen := now }, buf := l.2,
            closed := false }

/-! ## Sample inputs -/

/-- A packet struct as `memset` to zero leaves it. -/
def zero_packet : vex_packet_t :=
  { version := 0, packet_id := List.replicate 8 0, ttl := 0, flags := 0,
    payload := List.replicate 501 0, payload_len := 0 }

/-- A well-formed packet with a three-byte payload. -/
def sample_packet : vex_packet_t :=
  { version := 1, packet_id := [1, 2, 3, 4, 5, 6, 7, 8], ttl := 7, flags := 3,
    payload := [104, 105, 33] ++ List.replicate 498 0, payload_len := 3 }

/-- The wire frame of `sample_packet`. -/
def sample_frame : List Nat := [1, 1, 2, 3, 4, 5, 6, 7, 8, 7, 3, 104, 105, 33]

/-- A zeroed buffer of `VEX_MAX_PACKET` bytes. -/
def zero_wire : List Nat := List.replicate 512 0

/-- An unused peer slot. -/
def zero_peer : vex_peer_t :=
  { fd := 0, name := [], pubkey := [], active := 0, rssi := 0, last_seen := 0 }

/-- A node with two connected peers (descriptors 5 and 6) and relay enabled. -/
def sample_node : vex_node_t :=
  { sign_pk := [], sign_sk := [], box_pk := [], box_sk := [], node_name := [],
    mesh_key := [],
    peers := { zero_peer with fd := 5, active := 1 } ::
      { zero_peer with fd := 6, active := 1 } :: List.replicate 30 zero_peer,
    peer_count := 2,
    seen := vex_seen_init ⟨[], 0⟩,
    packets_sent := 0, packets_received := 0, packets_relayed := 0, packets_dropped := 0,
    started_at := 0, default_ttl := 7, scan_interval := 15, relay_enabled := 1,
    lora_enabled := 0, running := 1, listen_fd := 3 }

/-- Every write succeeds in full for a 14-byte frame. -/
def sample_writes (_slot : Nat) : write_outcome := { header_n := 2, data_n := 14 }

/-- A connected peer slot on descriptor 5. -/
def sample_peer : vex_peer_t := { zero_peer with fd := 5, active := 1 }

/-- A stream on which the first `read` delivers only one of the two header
bytes. -/
def partial_header_reads (_k : Nat) : read_outcome := { n := 1, again := false, bytes := [0] }

/-- A stream whose length header announces 513 bytes. -/
def oversize_header_reads (_k : Nat) : read_outcome :=
  { n := 2, again := false, bytes := [2, 1] }

/-- A toy instance of the TweetNaCl interface that leaves the bytes as they are:
the box of a message is the message with its first 16 bytes set to zero,
opening a box sets the first 32 bytes to zero, and the hash is 64 zero bytes.
It meets `secretbox_ok` and `secretbox_inverse`. -/
def sample_nacl : nacl_t :=
  { crypto_secretbox := fun m _ _ _ => (0, List.replicate 16 0 ++ m.drop 16)
    crypto_secretbox_open := fun c _ _ _ => (0, List.replicate 32 0 ++ c.drop 32)
    crypto_hash := fun _ _ => List.replicate 64 0 }

/-- What the code relies on from `crypto_hash`: it writes 64 bytes. -/
def hash_ok (P : nacl_t) : Prop :=
  ∀ (m : List Nat) (n : Nat), (P.crypto_hash m n).length = 64

/-- The packet `vex_mesh_send` builds for `message` before encoding it. -/
def sent_packet (P : nacl_t) (node : vex_node_t) (message nonce salt : List Nat)
    (pkt0 : vex_packet_t) : vex_packet_t :=
  { version := VEX_VERSION
    packet_id := vex_packet_make_id P
      (vex_crypto_encrypt_broadcast P node message (message.length % 65536) nonce).out
      (vex_crypto_encrypt_broadcast P node message (message.length % 65536) nonce).out_len
      salt pkt0.packet_id
    ttl := node.default_ttl
    flags := VEX_FLAG_ENCRYPTED ||| VEX_FLAG_BROADCAST
    payload := memcpy pkt0.payload 0
      (vex_crypto_encrypt_broadcast P node message (message.length % 65536) nonce).out
      (vex_crypto_encrypt_broadcast P node message (message.length % 65536) nonce).out_len
    payload_len :=
      (vex_crypto_encrypt_broadcast P node message (message.length % 65536) nonce).out_len }

/-- A message of 402 bytes (`'a'` repeated). -/
def sample_long_message : List Nat := List.replicate 402 97

/-- The message `hi!`. -/
def sample_message : List Nat := [104, 105, 33]

/-- A 24-byte nonce. -/
def sample_nonce : List Nat := List.replicate 24 7

/-- An 8-byte salt. -/
def sample_salt : List Nat := List.replicate 8 9

/-- The node as `vex_mesh_receive` has it after the dedup bookkeeping of a packet
not seen before: `vex_seen_check` at `now_check`, `vex_seen_add` at `now_add`,
`packets_received` incremented. -/
def received_node (node : vex_node_t) (packet_id : List Nat) (now_check now_add : Int) :
    vex_node_t :=
  { node with
    seen := vex_seen_add (vex_seen_check node.seen packet_id now_check).2 packet_id now_add
    packets_received := (node.packets_received + 1) % 2 ^ 64 }

/-- A 54-byte frame with the ENCRYPTED and BROADCAST flags, ttl 7, an all-zero
id and a 43-byte payload: the nonce, then the box of `sample_message` under
`sample_nacl`. -/
def sample_cipher_frame : List Nat :=
  [1, 0, 0, 0, 0, 0, 0, 0, 0, 7, 3] ++ List.replicate 24 7 ++ List.replicate 16 0 ++
    [104, 105, 33]

/-- The frame `sample_cipher_frame` after one relay: ttl 6. -/
def sample_cipher_frame_relayed : List Nat := sample_cipher_frame.set 9 6

/-- The result of receiving `sample_frame` on `sample_node` from descriptor 5,
both clock readings 0. -/
def sample_first_receive : receive_result :=
  vex_mesh_receive sample_nacl sample_node sample_frame 14 5 0 0 zero_packet zero_packet
    zero_wire sample_writes

/-- The node left by `sample_first_receive`, after a check and a prune of the
seen cache. -/
def sample_node_later : vex_node_t :=
  { sample_first_receive.node with
    seen := seen_run sample_first_receive.node.seen
      [seen_op.check sample_id_b 10, seen_op.prune 20] }

/-- The result of receiving `sample_frame` a second time, from descriptor 6 at
clock 30. -/
def sample_second_receive : receive_result :=
  vex_mesh_receive sample_nacl sample_node_later sample_frame 14 6 30 30 zero_packet zero_packet
    zero_wire sample_writes

/-- The node after `vex_mesh_send` of `sample_message` on `sample_node` at clock
0, followed by a check and a prune of the seen cache. -/
def sample_sender_later : vex_node_t :=
  { (vex_mesh_send sample_nacl sample_node sample_message 0 sample_nonce sample_salt
      zero_packet zero_wire sample_writes).node with
    seen := seen_run
      (vex_mesh_send sample_nacl sample_node sample_message 0 sample_nonce sample_salt
        zero_packet zero_wire sample_writes).node.seen
      [seen_op.check sample_id_b 10, seen_op.prune 20] }

/-- A frame of 65547 bytes: the header of `sample_frame` (ttl 7) followed by
65536 zero payload bytes. -/
def sample_wrapped_frame : List Nat :=
  [1, 1, 2, 3, 4, 5, 6, 7, 8, 7, 3] ++ List.replicate 65536 0

/-! ## Codec lemmas -/

theorem vex_packet_encode_ret (pkt : vex_packet_t) (buf : List Nat) (buf_len : Nat) :
    (vex_packet_encode pkt buf buf_len).1 = -1 ↔
      VEX_HEADER_SIZE + pkt.payload_len > buf_len ∨
      VEX_HEADER_SIZE + pkt.payload_len > VEX_MAX_PACKET ∨
      pkt.version ≠ VEX_VERSION := by
  unfold vex_packet_encode
  simp only []
  split_ifs with h1 h2
  · simp only [true_iff]
    rcases h1 with h | h
    · exact Or.inl h
    · exact Or.inr (Or.inl h)
  · simp only [true_iff]
    exact Or.inr (Or.inr h2)
  · have hnn : (0 : Int) ≤ ((VEX_HEADER_SIZE + pkt.payload_len : Nat) : Int) :=
      Int.ofNat_nonneg _
    constructor
    · intro h
      exact h.elim
    · intro h
      exfalso
      rcases h with h | h | h
      · exact h1 (Or.inl h)
      · exact h1 (Or.inr h)
      · exact h2 h

theorem exists_eleven (l : List Nat) (h : 11 ≤ l.length) :
    ∃ a0 a1 a2 a3 a4 a5 a6 a7 a8 a9 a10 r, l = a0 :: a1 :: a2 :: a3 :: a4 :: a5 :: a6 :: a7 :: a8 :: a9 :: a10 :: r := by
  rcases l with _ | ⟨a0, l⟩
  · simp at h
  rcases l with _ | ⟨a1, l⟩
  · simp at h
  rcases l with _ | ⟨a2, l⟩
  · simp at h
  rcases l with _ | ⟨a3, l⟩
  · simp at h
  rcases l with _ | ⟨a4, l⟩
  · simp at h
  rcases l with _ | ⟨a5, l⟩
  · simp at h
  rcases l with _ | ⟨a6, l⟩
  · simp at h
  rcases l with _ | ⟨a7, l⟩
  · simp at h
  rcases l with _ | ⟨a8, l⟩
  · simp at h
  rcases l with _ | ⟨a9, l⟩
  · simp at h
  rcases l with _ | ⟨a10, l⟩
  · simp at h
  exact ⟨a0, a1, a2, a3, a4, a5, a6, a7, a8, a9, a10, l, rfl⟩

theorem exists_eight (l : List Nat) (h : 8 ≤ l.length) :
    ∃ a0 a1 a2 a3 a4 a5 a6 a7 r, l = a0 :: a1 :: a2 :: a3 :: a4 :: a5 :: a6 :: a7 :: r := by
  rcases l with _ | ⟨a0, l⟩
  · simp at h
  rcases l with _ | ⟨a1, l⟩
  · simp at h
  rcases l with _ | ⟨a2, l⟩
  · simp at h
  rcases l with _ | ⟨a3, l⟩
  · simp at h
  rcases l with _ | ⟨a4, l⟩
  · simp at h
  rcases l with _ | ⟨a5, l⟩
  · simp at h
  rcases l with _ | ⟨a6, l⟩
  · simp at h
  rcases l with _ | ⟨a7, l⟩
  · simp at h
  exact ⟨a0, a1, a2, a3, a4, a5, a6, a7, l, rfl⟩

theorem vex_packet_encode_ok (pkt : vex_packet_t) (buf : List Nat) (buf_len : Nat)
    (h1 : VEX_HEADER_SIZE + pkt.payload_len ≤ buf_len)
    (h2 : VEX_HEADER_SIZE + pkt.payload_len ≤ VEX_MAX_PACKET)
    (h3 : pkt.version = VEX_VERSION)
    (hb : buf_len ≤ buf.length) (hid : 8 ≤ pkt.packet_id.length) :
    vex_packet_encode pkt buf buf_len =
      (((VEX_HEADER_SIZE + pkt.payload_len : Nat) : Int), encoded pkt buf) := by
  have hlen : 11 ≤ buf.length := by simp only [VEX_HEADER_SIZE] at h1; omega
  obtain ⟨b0, b1, b2, b3, b4, b5, b6, b7, b8, b9, b10, r, rfl⟩ := exists_eleven buf hlen
  obtain ⟨i0, i1, i2, i3, i4, i5, i6, i7, ir, hi⟩ := exists_eight pkt.packet_id hid
  unfold vex_packet_encode encoded
  have c1 : ¬ (VEX_HEADER_SIZE + pkt.payload_len > buf_len ∨
      VEX_HEADER_SIZE + pkt.payload_len > VEX_MAX_PACKET) := by
    intro h; rcases h with h | h <;> omega
  simp only [c1, if_false, h3, ne_eq, not_true_eq_false, hi]
  split_ifs with hp
  · simp [memcpy, VEX_HEADER_SIZE]
    rw [Nat.add_comm 11 pkt.payload_len]
    rfl
  · have : pkt.payload_len = 0 := by omega
    simp [memcpy, VEX_HEADER_SIZE, this]

theorem vex_packet_decode_ret (buf : List Nat) (len : Nat) (pkt : vex_packet_t) :
    ((vex_packet_decode buf len pkt).1 = -1 ↔
      len < VEX_HEADER_SIZE ∨ buf.getD 0 0 ≠ VEX_VERSION ∨
      (len - VEX_HEADER_SIZE) % 65536 > VEX_MAX_PAYLOAD) ∧
    ((vex_packet_decode buf len pkt).1 = -1 ∨ (vex_packet_decode buf len pkt).1 = 0) := by
  unfold vex_packet_decode
  simp only []
  split_ifs with h1 h2 h3 h4
  · exact ⟨⟨fun _ => Or.inl h1, fun _ => rfl⟩, Or.inl rfl⟩
  · exact ⟨⟨fun _ => Or.inr (Or.inl h2), fun _ => rfl⟩, Or.inl rfl⟩
  · exact ⟨⟨fun _ => Or.inr (Or.inr h3), fun _ => rfl⟩, Or.inl rfl⟩
  · refine ⟨⟨fun h => by simp at h, fun h => ?_⟩, Or.inr rfl⟩
    rcases h with h | h | h
    · exact absurd h h1
    · exact absurd h h2
    · exact absurd h h3
  · refine ⟨⟨fun h => by simp at h, fun h => ?_⟩, Or.inr rfl⟩
    rcases h with h | h | h
    · exact absurd h h1
    · exact absurd h h2
    · exact absurd h h3

theorem vex_packet_decode_ok (buf : List Nat) (len : Nat) (pkt : vex_packet_t)
    (h1 : VEX_HEADER_SIZE ≤ len) (h2 : buf.getD 0 0 = VEX_VERSION)
    (h3 : (len - VEX_HEADER_SIZE) % 65536 ≤ VEX_MAX_PAYLOAD) :
    vex_packet_decode buf len pkt = (0, decoded buf len pkt) := by
  unfold vex_packet_decode decoded
  have c1 : ¬ len < VEX_HEADER_SIZE := by omega
  have c3 : ¬ (len - VEX_HEADER_SIZE) % 65536 > VEX_MAX_PAYLOAD := by omega
  simp only [c1, if_false, h2, ne_eq, not_true_eq_false, c3]
  split_ifs with hp
  · simp [memcpy]
  · have h0 : (len - VEX_HEADER_SIZE) % 65536 = 0 := by omega
    simp [memcpy, h0]

theorem exists_eight_exact (l : List Nat) (h : l.length = 8) :
    ∃ a0 a1 a2 a3 a4 a5 a6 a7, l = [a0, a1, a2, a3, a4, a5, a6, a7] := by
  obtain ⟨a0, a1, a2, a3, a4, a5, a6, a7, r, rfl⟩ := exists_eight l (by omega)
  cases r with
  | nil => exact ⟨a0, a1, a2, a3, a4, a5, a6, a7, rfl⟩
  | cons x xs => simp at h

/-! ## Seen cache lemmas -/

theorem check_loop_length (id : List Nat) (now : Int) :
    ∀ (es : List vex_seen_entry_t) (n : Nat),
      (vex_seen_check_loop id now n es).2.length = es.length := by
  intro es
  induction es with
  | nil => intro n; cases n <;> rfl
  | cons e es ih =>
    intro n
    cases n with
    | zero => rfl
    | succ n =>
      simp only [vex_seen_check_loop]
      split_ifs <;> simp [ih n]

theorem check_loop_getElem? (id : List Nat) (now : Int) :
    ∀ (es : List vex_seen_entry_t) (n k : Nat) (e : vex_seen_entry_t),
      es[k]? = some e →
      (vex_seen_check_loop id now n es).2[k]? = some e ∨
      (e.active ≠ 0 ∧ now - e.timestamp > VEX_SEEN_TTL_SEC ∧
        (vex_seen_check_loop id now n es).2[k]? = some { e with active := 0 }) := by
  intro es
  induction es with
  | nil => intro n k e h; simp at h
  | cons a es ih =>
    intro n k e h
    cases n with
    | zero => left; exact h
    | succ n =>
      simp only [vex_seen_check_loop]
      cases k with
      | zero =>
        simp only [List.getElem?_cons_zero, Option.some.injEq] at h
        subst h
        split_ifs with h1 h2 h3
        · left; simp
        · right; exact ⟨h1, h2, by simp⟩
        · left; simp
        · left; simp
      | succ k =>
        simp only [List.getElem?_cons_succ] at h
        split_ifs with h1 h2 h3
        · simpa using ih n k e h
        · simpa using ih n k e h
        · left; simpa using h
        · simpa using ih n k e h

theorem check_loop_found (id : List Nat) (now : Int) :
    ∀ (es : List vex_seen_entry_t) (n k : Nat) (e : vex_seen_entry_t),
      k < n → es[k]? = some e → entry_live e now → memcmp e.packet_id id 8 = 0 →
      (vex_seen_check_loop id now n es).1 = 1 := by
  intro es
  induction es with
  | nil => intro n k e _ h; simp at h
  | cons a es ih =>
    intro n k e hk h hl hm
    cases n with
    | zero => omega
    | succ n =>
      simp only [vex_seen_check_loop]
      cases k with
      | zero =>
        simp only [List.getElem?_cons_zero, Option.some.injEq] at h
        subst h
        have h1 : ¬ a.active = 0 := hl.1
        have h2 : ¬ now - a.timestamp > VEX_SEEN_TTL_SEC := hl.2
        simp only [h1, h2, hm, if_false, if_true]
      | succ k =>
        simp only [List.getElem?_cons_succ] at h
        have := ih n k e (by omega) h hl hm
        split_ifs <;> simp [this]

theorem check_loop_none (id : List Nat) (now : Int) :
    ∀ (es : List vex_seen_entry_t) (n : Nat),
      (∀ (k : Nat) (e : vex_seen_entry_t), k < n → es[k]? = some e → entry_live e now →
        memcmp e.packet_id id 8 ≠ 0) →
      (vex_seen_check_loop id now n es).1 = 0 := by
  intro es
  induction es with
  | nil => intro n _; cases n <;> rfl
  | cons a es ih =>
    intro n h
    cases n with
    | zero => rfl
    | succ n =>
      have hrest := ih n (fun k e hk hke => h (k + 1) e (by omega) (by simpa using hke))
      simp only [vex_seen_check_loop]
      split_ifs with h1 h2 h3
      · exact hrest
      · exact hrest
      · exact absurd h3 (h 0 a (by omega) (by simp) ⟨h1, h2⟩)
      · exact hrest

theorem check_loop_ret (id : List Nat) (now : Int) :
    ∀ (es : List vex_seen_entry_t) (n : Nat),
      (vex_seen_check_loop id now n es).1 = 0 ∨ (vex_seen_check_loop id now n es).1 = 1 := by
  intro es
  induction es with
  | nil => intro n; cases n <;> exact Or.inl rfl
  | cons a es ih =>
    intro n
    cases n with
    | zero => exact Or.inl rfl
    | succ n =>
      simp only [vex_seen_check_loop]
      split_ifs
      · exact ih n
      · exact ih n
      · exact Or.inr rfl
      · exact ih n

theorem prune_loop_length (now : Int) :
    ∀ (es : List vex_seen_entry_t) (n : Nat),
      (vex_seen_prune_loop now n es).length = es.length := by
  intro es
  induction es with
  | nil => intro n; cases n <;> rfl
  | cons e es ih =>
    intro n
    cases n with
    | zero => rfl
    | succ n => simp [vex_seen_prune_loop, ih n]

theorem prune_loop_getElem? (now : Int) :
    ∀ (es : List vex_seen_entry_t) (n k : Nat) (e : vex_seen_entry_t),
      es[k]? = some e →
      (vex_seen_prune_loop now n es)[k]? = some e ∨
      (e.active ≠ 0 ∧ now - e.timestamp > VEX_SEEN_TTL_SEC ∧
        (vex_seen_prune_loop now n es)[k]? = some { e with active := 0 }) := by
  intro es
  induction es with
  | nil => intro n k e h; simp at h
  | cons a es ih =>
    intro n k e h
    cases n with
    | zero => left; exact h
    | succ n =>
      simp only [vex_seen_prune_loop]
      cases k with
      | zero =>
        simp only [List.getElem?_cons_zero, Option.some.injEq] at h
        subst h
        split_ifs with h1
        · right; exact ⟨h1.1, h1.2, by simp⟩
        · left; simp
      | succ k =>
        simp only [List.getElem?_cons_succ] at h
        simpa using ih n k e h

theorem add_first_some (id : List Nat) (now : Int) :
    ∀ (es : List vex_seen_entry_t) (n i : Nat) (r : Nat × List vex_seen_entry_t),
      vex_seen_add_first id now n i es = some r →
      ∃ (k : Nat) (e : vex_seen_entry_t), r.1 = i + k ∧ k < n ∧ es[k]? = some e ∧
        ¬ entry_live e now ∧
        (∀ (m : Nat) (e2 : vex_seen_entry_t), m < k → es[m]? = some e2 → entry_live e2 now) ∧
        r.2 = es.set k { packet_id := memcpy e.packet_id 0 id 8, timestamp := now, active := 1 } := by
  intro es
  induction es with
  | nil => intro n i r h; cases n <;> simp [vex_seen_add_first] at h
  | cons a es ih =>
    intro n i r h
    cases n with
    | zero => simp [vex_seen_add_first] at h
    | succ n =>
      simp only [vex_seen_add_first] at h
      split_ifs at h with hc
      · simp only [Option.some.injEq] at h
        subst h
        refine ⟨0, a, rfl, by omega, by simp, ?_, ?_, by simp⟩
        · intro hl
          rcases hc with hc | hc
          · exact hl.1 hc
          · exact hl.2 hc
        · intro m e2 hm; omega
      · cases hrec : vex_seen_add_first id now n (i + 1) es with
        | none => simp [hrec] at h
        | some r2 =>
          simp only [hrec, Option.some.injEq] at h
          subst h
          obtain ⟨k, e, h1, h2, h3, h4, h5, h6⟩ := ih n (i + 1) r2 hrec
          refine ⟨k + 1, e, by simp only [h1]; omega, by omega, by simpa using h3, h4, ?_,
            by simp [h6]⟩
          intro m e2 hm hme
          cases m with
          | zero =>
            simp only [List.getElem?_cons_zero, Option.some.injEq] at hme
            subst hme
            constructor
            · intro h0; exact hc (Or.inl h0)
            · intro h0; exact hc (Or.inr h0)
          | succ m =>
            exact h5 m e2 (by omega) (by simpa using hme)

theorem add_first_none (id : List Nat) (now : Int) :
    ∀ (es : List vex_seen_entry_t) (n i : Nat),
      vex_seen_add_first id now n i es = none →
      ∀ (k : Nat) (e : vex_seen_entry_t), k < n → es[k]? = some e → entry_live e now := by
  intro es
  induction es with
  | nil => intro n i _ k e _ h; simp at h
  | cons a es ih =>
    intro n i h k e hk hke
    cases n with
    | zero => omega
    | succ n =>
      simp only [vex_seen_add_first] at h
      split_ifs at h with hc
      cases hrec : vex_seen_add_first id now n (i + 1) es with
      | some r2 => simp [hrec] at h
      | none =>
        cases k with
        | zero =>
          simp only [List.getElem?_cons_zero, Option.some.injEq] at hke
          subst hke
          constructor
          · intro h0; exact hc (Or.inl h0)
          · intro h0; exact hc (Or.inr h0)
        | succ k =>
          exact ih n (i + 1) hrec k e (by omega) (by simpa using hke)

theorem add_oldest_range :
    ∀ (es : List vex_seen_entry_t) (n i oi : Nat) (ot : Int),
      vex_seen_add_oldest n i es oi ot = oi ∨
      (i ≤ vex_seen_add_oldest n i es oi ot ∧
        vex_seen_add_oldest n i es oi ot < i + es.length) := by
  intro es
  induction es with
  | nil => intro n i oi ot; cases n <;> exact Or.inl rfl
  | cons a es ih =>
    intro n i oi ot
    cases n with
    | zero => exact Or.inl rfl
    | succ n =>
      simp only [vex_seen_add_oldest]
      split_ifs with hc
      · right
        rcases ih n (i + 1) i a.timestamp with h | h
        · rw [h]; simp
        · simp only [List.length_cons]; omega
      · rcases ih n (i + 1) oi ot with h | h
        · left; exact h
        · right; simp only [List.length_cons]; omega

theorem add_cases (c : vex_seen_cache_t) (id : List Nat) (now : Int)
    (hlen : c.entries.length = VEX_SEEN_CAPACITY) :
    ∃ (k : Nat) (e : vex_seen_entry_t), k < VEX_SEEN_CAPACITY ∧ c.entries[k]? = some e ∧
      (vex_seen_add c id now).entries =
        c.entries.set k { packet_id := memcpy e.packet_id 0 id 8, timestamp := now, active := 1 } ∧
      ((¬ entry_live e now ∧
          (∀ (m : Nat) (e2 : vex_seen_entry_t), m < k → c.entries[m]? = some e2 →
            entry_live e2 now) ∧
          (vex_seen_add c id now).count =
            if (k : Int) ≥ c.count then (k : Int) + 1 else c.count) ∨
       ((∀ (j : Nat) (e2 : vex_seen_entry_t), c.entries[j]? = some e2 → entry_live e2 now) ∧
          (vex_seen_add c id now).count = c.count)) := by
  unfold vex_seen_add
  cases hf : vex_seen_add_first id now VEX_SEEN_CAPACITY 0 c.entries with
  | some r =>
    obtain ⟨k, e, h1, h2, h3, h4, h5, h6⟩ := add_first_some id now c.entries _ 0 r hf
    have hk : r.1 = k := by omega
    refine ⟨k, e, h2, h3, ?_, Or.inl ⟨h4, h5, ?_⟩⟩
    · simp only [h6]
    · simp only [hk]
  | none =>
    have hall := add_first_none id now c.entries _ 0 hf
    have hall2 : ∀ (j : Nat) (e2 : vex_seen_entry_t), c.entries[j]? = some e2 →
        entry_live e2 now := by
      intro j e2 hj
      have hjl : j < c.entries.length := by
        by_contra hcon
        rw [List.getElem?_eq_none (by omega)] at hj
        exact Option.noConfusion hj
      exact hall j e2 (by omega) hj
    generalize hoid : vex_seen_add_oldest (VEX_SEEN_CAPACITY - 1) 1 (c.entries.drop 1) 0
        (c.entries.getD 0 zero_entry).timestamp = oi
    have hr := add_oldest_range (c.entries.drop 1) (VEX_SEEN_CAPACITY - 1) 1 0
      (c.entries.getD 0 zero_entry).timestamp
    rw [hoid] at hr
    have h1000 : c.entries.length = 1000 := hlen
    have hoi : oi < c.entries.length := by
      rcases hr with h | h
      · omega
      · have := h.2
        rw [List.length_drop] at this
        omega
    refine ⟨oi, c.entries[oi], by rw [← hlen]; exact hoi, List.getElem?_eq_getElem hoi, ?_,
      Or.inr ⟨hall2, rfl⟩⟩
    simp only []
    rw [List.getD_eq_getElem _ _ hoi]

theorem seen_inv_init (c0 : vex_seen_cache_t) : seen_inv (vex_seen_init c0) := by
  refine ⟨List.length_replicate _ _, le_refl _, by simp [vex_seen_init], ?_⟩
  intro i e hi ha
  exfalso
  have hmem : e ∈ List.replicate VEX_SEEN_CAPACITY zero_entry := List.getElem?_mem hi
  rw [List.eq_of_mem_replicate hmem] at ha
  exact ha rfl

theorem seen_inv_add (c : vex_seen_cache_t) (id : List Nat) (now : Int) (h : seen_inv c) :
    seen_inv (vex_seen_add c id now) := by
  obtain ⟨hlen, h0, h1, hact⟩ := h
  obtain ⟨k, e, hk, hke, hent, hcase⟩ := add_cases c id now hlen
  have hk' : (k : Int) < (VEX_SEEN_CAPACITY : Int) := by exact_mod_cast hk
  have hkc : (k : Int) < (vex_seen_add c id now).count ∧
      c.count ≤ (vex_seen_add c id now).count ∧
      (vex_seen_add c id now).count ≤ (VEX_SEEN_CAPACITY : Int) := by
    rcases hcase with ⟨_, _, hc⟩ | ⟨hall, hc⟩
    · rw [hc]
      split_ifs with hge
      · omega
      · omega
    · rw [hc]
      exact ⟨hact k e hke (hall k e hke).1, le_refl _, h1⟩
  refine ⟨by rw [hent, List.length_set, hlen], by omega, hkc.2.2, ?_⟩
  intro i e2 hi ha
  rw [hent] at hi
  by_cases hik : k = i
  · subst hik; exact hkc.1
  · rw [List.getElem?_set_ne hik] at hi
    have := hact i e2 hi ha
    omega

theorem seen_inv_check (c : vex_seen_cache_t) (id : List Nat) (now : Int) (h : seen_inv c) :
    seen_inv (vex_seen_check c id now).2 := by
  obtain ⟨hlen, h0, h1, hact⟩ := h
  refine ⟨by simp [vex_seen_check, check_loop_length, hlen], h0, h1, ?_⟩
  intro i e hi ha
  simp only [vex_seen_check] at hi
  have hil : i < c.entries.length := by
    by_contra hcon
    rw [List.getElem?_eq_none (by rw [check_loop_length]; omega)] at hi
    exact Option.noConfusion hi
  rcases check_loop_getElem? id now c.entries c.count.toNat i c.entries[i]
      (List.getElem?_eq_getElem hil) with h | ⟨_, _, h⟩
  · rw [h] at hi
    simp only [Option.some.injEq] at hi
    subst hi
    exact hact i _ (List.getElem?_eq_getElem hil) ha
  · rw [h] at hi
    simp only [Option.some.injEq] at hi
    subst hi
    exact absurd rfl ha

theorem seen_inv_prune (c : vex_seen_cache_t) (now : Int) (h : seen_inv c) :
    seen_inv (vex_seen_prune c now) := by
  obtain ⟨hlen, h0, h1, hact⟩ := h
  refine ⟨by simp [vex_seen_prune, prune_loop_length, hlen], h0, h1, ?_⟩
  intro i e hi ha
  simp only [vex_seen_prune] at hi
  have hil : i < c.entries.length := by
    by_contra hcon
    rw [List.getElem?_eq_none (by rw [prune_loop_length]; omega)] at hi
    exact Option.noConfusion hi
  rcases prune_loop_getElem? now c.entries c.count.toNat i c.entries[i]
      (List.getElem?_eq_getElem hil) with h | ⟨_, _, h⟩
  · rw [h] at hi
    simp only [Option.some.injEq] at hi
    subst hi
    exact hact i _ (List.getElem?_eq_getElem hil) ha
  · rw [h] at hi
    simp only [Option.some.injEq] at hi
    subst hi
    exact absurd rfl ha

theorem seen_inv_step (c : vex_seen_cache_t) (op : seen_op) (h : seen_inv c) :
    seen_inv (seen_step c op) := by
  cases op with
  | add id now => exact seen_inv_add c id now h
  | check id now => exact seen_inv_check c id now h
  | prune now => exact seen_inv_prune c now h

theorem seen_inv_run (ops : List seen_op) :
    ∀ (c : vex_seen_cache_t), seen_inv c → seen_inv (seen_run c ops) := by
  induction ops with
  | nil => intro c h; exact h
  | cons op ops ih => intro c h; exact ih _ (seen_inv_step c op h)

theorem seen_weaker_refl (t2 : Int) (c : vex_seen_cache_t) : seen_weaker t2 c c :=
  ⟨rfl, rfl, fun _ _ h => Or.inl h⟩

theorem seen_weaker_trans (t2 : Int) (c1 c2 c3 : vex_seen_cache_t)
    (h12 : seen_weaker t2 c1 c2) (h23 : seen_weaker t2 c2 c3) : seen_weaker t2 c1 c3 := by
  obtain ⟨a1, a2, a3⟩ := h12
  obtain ⟨b1, b2, b3⟩ := h23
  refine ⟨by rw [b1, a1], by rw [b2, a2], ?_⟩
  intro i e hi
  rcases a3 i e hi with h | ⟨h1, h2, h3⟩
  · exact b3 i e h
  · rcases b3 i _ h3 with h | ⟨h4, _, _⟩
    · exact Or.inr ⟨h1, h2, h⟩
    · exact absurd rfl h4

theorem seen_weaker_step (t2 : Int) (c : vex_seen_cache_t) (op : seen_op)
    (hna : ∀ (id : List Nat) (now : Int), op ≠ .add id now) (hcl : op.clock ≤ t2) :
    seen_weaker t2 c (seen_step c op) := by
  cases op with
  | add id now => exact absurd rfl (hna id now)
  | check id now =>
    refine ⟨rfl, by simp [seen_step, vex_seen_check, check_loop_length], ?_⟩
    intro i e hi
    have hcl' : now ≤ t2 := hcl
    rcases check_loop_getElem? id now c.entries c.count.toNat i e hi with h | ⟨h1, h2, h3⟩
    · exact Or.inl h
    · refine Or.inr ⟨h1, ?_, h3⟩
      simp only [VEX_SEEN_TTL_SEC] at h2 ⊢
      omega
  | prune now =>
    refine ⟨rfl, by simp [seen_step, vex_seen_prune, prune_loop_length], ?_⟩
    intro i e hi
    have hcl' : now ≤ t2 := hcl
    rcases prune_loop_getElem? now c.entries c.count.toNat i e hi with h | ⟨h1, h2, h3⟩
    · exact Or.inl h
    · refine Or.inr ⟨h1, ?_, h3⟩
      simp only [VEX_SEEN_TTL_SEC] at h2 ⊢
      omega

theorem seen_weaker_run (t2 : Int) (ops : List seen_op) :
    ∀ (c : vex_seen_cache_t),
      (∀ op ∈ ops, (∀ (id : List Nat) (now : Int), op ≠ .add id now) ∧ op.clock ≤ t2) →
      seen_weaker t2 c (seen_run c ops) := by
  induction ops with
  | nil => intro c _; exact seen_weaker_refl t2 c
  | cons op ops ih =>
    intro c h
    have h1 := h op (List.mem_cons_self _ _)
    exact seen_weaker_trans t2 c (seen_step c op) _
      (seen_weaker_step t2 c op h1.1 h1.2)
      (ih (seen_step c op) (fun o ho => h o (List.mem_cons_of_mem _ ho)))

theorem memcmp_memcpy_id (old id : List Nat) (hid : id.length = 8) :
    memcmp (memcpy old 0 id 8) id 8 = 0 := by
  have h8 : (id.take 8).length = 8 := by rw [List.length_take]; omega
  unfold memcmp memcpy
  simp only [List.take_zero, List.nil_append, List.append_assoc]
  have : List.take 8 (List.take 8 id ++ List.drop (0 + 8) old) = List.take 8 id :=
    List.take_left' h8
  rw [if_pos this]

theorem add_slot (c : vex_seen_cache_t) (id : List Nat) (t : Int) (h : seen_inv c) :
    ∃ (k : Nat) (old : vex_seen_entry_t),
      (k : Int) < (vex_seen_add c id t).count ∧
      (vex_seen_add c id t).entries[k]? =
        some { packet_id := memcpy old.packet_id 0 id 8, timestamp := t, active := 1 } ∧
      ∀ (j : Nat), j ≠ k → (vex_seen_add c id t).entries[j]? = c.entries[j]? := by
  obtain ⟨hlen, h0, h1, hact⟩ := h
  obtain ⟨k, e, hk, hke, hent, hcase⟩ := add_cases c id t hlen
  have hkl : k < c.entries.length := by rw [hlen]; exact hk
  refine ⟨k, e, ?_, ?_, ?_⟩
  · rcases hcase with ⟨_, _, hc⟩ | ⟨hall, hc⟩
    · rw [hc]
      split_ifs with hge
      · omega
      · omega
    · rw [hc]
      exact hact k e hke (hall k e hke).1
  · rw [hent, List.getElem?_set_self hkl]
  · intro j hj
    rw [hent, List.getElem?_set_ne (Ne.symm hj)]


theorem has_free_add (c : vex_seen_cache_t) (id : List Nat) (now : Int) (k : Nat)
    (e : vex_seen_entry_t) (hinv : seen_inv c) (hfree : seen_has_free c now)
    (hk : c.entries[k]? = some e) (hlive : entry_live e now) (hkc : (k : Int) < c.count) :
    (vex_seen_add c id now).entries[k]? = some e ∧ (k : Int) < (vex_seen_add c id now).count := by
  obtain ⟨hlen, h0, h1, hact⟩ := hinv
  obtain ⟨k2, e2, hk2, hke2, hent, hcase⟩ := add_cases c id now hlen
  rcases hcase with ⟨hnl, _, hc⟩ | ⟨hall, _⟩
  · have hne : k2 ≠ k := by
      intro heq
      subst heq
      rw [hke2] at hk
      simp only [Option.some.injEq] at hk
      subst hk
      exact hnl hlive
    refine ⟨by rw [hent, List.getElem?_set_ne hne]; exact hk, ?_⟩
    rw [hc]
    split_ifs with hge
    · omega
    · exact hkc
  · exfalso
    obtain ⟨e3, hmem, hnl⟩ := hfree
    obtain ⟨j, hj⟩ := List.mem_iff_getElem?.mp (List.mem_of_mem_take hmem)
    exact hnl (hall j e3 hj)

theorem seen_keeps_entry (k : Nat) (e : vex_seen_entry_t) (t t2 : Int)
    (het : e.timestamp = t) (hea : e.active ≠ 0) (hwin : t2 - t < VEX_SEEN_TTL_SEC)
    (later : List seen_op) :
    ∀ (c : vex_seen_cache_t), seen_inv c →
      (∀ op ∈ later, t ≤ op.clock ∧ op.clock ≤ t2) → adds_find_free c later →
      c.entries[k]? = some e → (k : Int) < c.count →
      (seen_run c later).entries[k]? = some e ∧ (k : Int) < (seen_run c later).count := by
  induction later with
  | nil => intro c _ _ _ hk hkc; exact ⟨hk, hkc⟩
  | cons op ops ih =>
    intro c hinv hclock hfree hk hkc
    have hop := hclock op (List.mem_cons_self _ _)
    have hlive : entry_live e op.clock := by
      refine ⟨hea, ?_⟩
      rw [het]
      simp only [VEX_SEEN_TTL_SEC] at hwin ⊢
      omega
    have hstep : (seen_step c op).entries[k]? = some e ∧ (k : Int) < (seen_step c op).count := by
      cases op with
      | add id now => exact has_free_add c id now k e hinv (hfree.1 id now rfl) hk hlive hkc
      | check id now =>
        refine ⟨?_, hkc⟩
        rcases check_loop_getElem? id now c.entries c.count.toNat k e hk with h | ⟨_, h2, _⟩
        · exact h
        · exact absurd h2 hlive.2
      | prune now =>
        refine ⟨?_, hkc⟩
        rcases prune_loop_getElem? now c.entries c.count.toNat k e hk with h | ⟨_, h2, _⟩
        · exact h
        · exact absurd h2 hlive.2
    exact ih (seen_step c op) (seen_inv_step c op hinv)
      (fun o ho => hclock o (List.mem_cons_of_mem _ ho)) hfree.2 hstep.1 hstep.2

theorem add_first_append (id : List Nat) (now : Int) (f : vex_seen_entry_t)
    (rest : List vex_seen_entry_t) (hf : ¬ entry_live f now) :
    ∀ (pre : List vex_seen_entry_t) (n i : Nat), (∀ e ∈ pre, entry_live e now) →
      pre.length < n →
      vex_seen_add_first id now n i (pre ++ f :: rest) =
        some (i + pre.length,
          pre ++ { packet_id := memcpy f.packet_id 0 id 8, timestamp := now, active := 1 } ::
            rest) := by
  intro pre
  induction pre with
  | nil =>
    intro n i _ hn
    cases n with
    | zero => simp at hn
    | succ n =>
      have hc : f.active = 0 ∨ now - f.timestamp > VEX_SEEN_TTL_SEC := by
        by_contra hcon
        exact hf ⟨fun h => hcon (Or.inl h), fun h => hcon (Or.inr h)⟩
      simp [vex_seen_add_first, hc]
  | cons a pre ih =>
    intro n i hpre hn
    cases n with
    | zero => simp at hn
    | succ n =>
      have ha := hpre a (List.mem_cons_self _ _)
      have hc : ¬ (a.active = 0 ∨ now - a.timestamp > VEX_SEEN_TTL_SEC) := by
        intro h
        rcases h with h | h
        · exact ha.1 h
        · exact ha.2 h
      have hrec := ih n (i + 1) (fun e he => hpre e (List.mem_cons_of_mem _ he))
        (by simp only [List.length_cons] at hn; omega)
      rw [List.cons_append]
      simp only [vex_seen_add_first, hc, if_false, hrec, List.length_cons]
      rw [show i + 1 + pre.length = i + (pre.length + 1) by omega]
      rfl

theorem add_first_all_live (id : List Nat) (now : Int) :
    ∀ (es : List vex_seen_entry_t) (n i : Nat), (∀ e ∈ es, entry_live e now) →
      vex_seen_add_first id now n i es = none := by
  intro es
  induction es with
  | nil => intro n i _; cases n <;> rfl
  | cons a es ih =>
    intro n i h
    cases n with
    | zero => rfl
    | succ n =>
      have ha := h a (List.mem_cons_self _ _)
      have hc : ¬ (a.active = 0 ∨ now - a.timestamp > VEX_SEEN_TTL_SEC) := by
        intro h
        rcases h with h | h
        · exact ha.1 h
        · exact ha.2 h
      simp only [vex_seen_add_first, hc, if_false,
        ih n (i + 1) (fun e he => h e (List.mem_cons_of_mem _ he))]

theorem add_oldest_keep :
    ∀ (es : List vex_seen_entry_t) (n i oi : Nat) (ot : Int),
      (∀ e ∈ es, ¬ e.timestamp < ot) → vex_seen_add_oldest n i es oi ot = oi := by
  intro es
  induction es with
  | nil => intro n i oi ot _; cases n <;> rfl
  | cons a es ih =>
    intro n i oi ot h
    cases n with
    | zero => rfl
    | succ n =>
      simp only [vex_seen_add_oldest, h a (List.mem_cons_self _ _), if_false]
      exact ih n (i + 1) oi ot (fun e he => h e (List.mem_cons_of_mem _ he))

theorem add_of_first_some (c : vex_seen_cache_t) (id : List Nat) (now : Int)
    (r : Nat × List vex_seen_entry_t)
    (h : vex_seen_add_first id now VEX_SEEN_CAPACITY 0 c.entries = some r) :
    vex_seen_add c id now =
      { entries := r.2
        count := if (r.1 : Int) ≥ c.count then (r.1 : Int) + 1 else c.count } := by
  unfold vex_seen_add
  rw [h]

theorem add_of_first_none (c : vex_seen_cache_t) (id : List Nat) (now : Int)
    (h : vex_seen_add_first id now VEX_SEEN_CAPACITY 0 c.entries = none)
    (ho : vex_seen_add_oldest (VEX_SEEN_CAPACITY - 1) 1 (c.entries.drop 1) 0
      (c.entries.getD 0 zero_entry).timestamp = 0) :
    vex_seen_add c id now =
      { c with
        entries := c.entries.set 0
          { packet_id := memcpy (c.entries.getD 0 zero_entry).packet_id 0 id 8,
            timestamp := now, active := 1 } } := by
  unfold vex_seen_add
  rw [h]
  simp only [ho]

theorem sample_entry_live (e : vex_seen_entry_t)
    (h : e = sample_entry_a ∨ e = sample_entry_b) : entry_live e 0 := by
  rcases h with h | h <;> rw [h] <;> exact ⟨by decide, by decide⟩

theorem sample_fill :
    ∀ (k m : Nat), k + m = 999 →
      seen_run (vex_seen_add (vex_seen_init ⟨[], 0⟩) sample_id_a 0)
          (List.replicate k (seen_op.add sample_id_b 0)) =
        { entries := sample_entry_a ::
            (List.replicate k sample_entry_b ++ List.replicate m zero_entry),
          count := (k : Int) + 1 } := by
  intro k
  induction k with
  | zero =>
    intro m hm
    have hm' : m = 999 := by omega
    subst hm'
    have hfirst := add_first_append sample_id_a 0 zero_entry (List.replicate 999 zero_entry)
      (fun h => h.1 rfl) [] VEX_SEEN_CAPACITY 0 (fun _ he => absurd he (List.not_mem_nil _))
      (by decide)
    rw [List.nil_append, ← List.replicate_succ] at hfirst
    rw [List.replicate_zero, seen_run, List.foldl_nil,
      add_of_first_some (vex_seen_init ⟨[], 0⟩) sample_id_a 0 _ hfirst]
    rfl
  | succ k ih =>
    intro m hm
    have hprev := ih (m + 1) (by omega)
    rw [List.replicate_succ', seen_run, List.foldl_append]
    rw [seen_run] at hprev
    rw [hprev]
    have hpre : ∀ e ∈ sample_entry_a :: List.replicate k sample_entry_b, entry_live e 0 := by
      intro e he
      rcases List.mem_cons.mp he with h | h
      · exact sample_entry_live e (Or.inl h)
      · exact sample_entry_live e (Or.inr (List.eq_of_mem_replicate h))
    have hfirst := add_first_append sample_id_b 0 zero_entry (List.replicate m zero_entry)
      (fun h => h.1 rfl) (sample_entry_a :: List.replicate k sample_entry_b)
      VEX_SEEN_CAPACITY 0 hpre
      (by simp only [List.length_cons, List.length_replicate, VEX_SEEN_CAPACITY]; omega)
    have hshape : sample_entry_a ::
        (List.replicate k sample_entry_b ++ List.replicate (m + 1) zero_entry) =
        (sample_entry_a :: List.replicate k sample_entry_b) ++
          zero_entry :: List.replicate m zero_entry := by
      rw [List.replicate_succ, List.cons_append]
    rw [hshape, List.foldl_cons, List.foldl_nil, seen_step]
    rw [add_of_first_some _ sample_id_b 0 _ hfirst]
    have hb : (⟨memcpy zero_entry.packet_id 0 sample_id_b 8, 0, 1⟩ : vex_seen_entry_t) =
        sample_entry_b := by decide
    simp only [hb, List.length_cons, List.length_replicate, List.cons_append]
    rw [List.replicate_succ' k, List.append_assoc, List.singleton_append]
    congr 1
    split_ifs with hge
    · push_cast; omega
    · push_cast at hge ⊢; omega

theorem sample_full :
    seen_run (vex_seen_add (vex_seen_init ⟨[], 0⟩) sample_id_a 0)
        (List.replicate 1000 (seen_op.add sample_id_b 0)) =
      { entries := sample_entry_b :: List.replicate 999 sample_entry_b, count := 1000 } := by
  have h1000 : List.replicate 1000 (seen_op.add sample_id_b 0) =
      List.replicate 999 (seen_op.add sample_id_b 0) ++ [seen_op.add sample_id_b 0] :=
    List.replicate_succ' 999 _
  have hfill := sample_fill 999 0 rfl
  rw [seen_run] at hfill
  rw [h1000, seen_run, List.foldl_append, hfill, List.replicate_zero, List.append_nil]
  have hesb : ∀ e ∈ List.replicate 999 sample_entry_b, e = sample_entry_b :=
    fun e h => List.eq_of_mem_replicate h
  generalize List.replicate 999 sample_entry_b = es at hesb
  have hall : ∀ e ∈ sample_entry_a :: es, e = sample_entry_a ∨ e = sample_entry_b := by
    intro e he
    rcases List.mem_cons.mp he with h | h
    · exact Or.inl h
    · exact Or.inr (hesb e h)
  have hnone := add_first_all_live sample_id_b 0 (sample_entry_a :: es) VEX_SEEN_CAPACITY 0
    (fun e he => sample_entry_live e (hall e he))
  have hold := add_oldest_keep es (VEX_SEEN_CAPACITY - 1) 1 0 sample_entry_a.timestamp
    (by
      intro e he
      rcases hall e (List.mem_cons_of_mem _ he) with h | h <;> rw [h] <;> decide)
  rw [List.foldl_cons, List.foldl_nil, seen_step,
    add_of_first_none ⟨sample_entry_a :: es, ((999 : Nat) : Int) + 1⟩ sample_id_b 0 hnone hold]
  rfl

theorem check_none_of_all (c : vex_seen_cache_t) (id : List Nat) (now : Int)
    (h : ∀ e ∈ c.entries, memcmp e.packet_id id 8 ≠ 0) : (vex_seen_check c id now).1 = 0 := by
  simp only [vex_seen_check]
  apply check_loop_none
  intro j e _ hj _
  exact h e (List.getElem?_mem hj)

theorem has_free_of_count (c : vex_seen_cache_t) (now : Int) (hinv : seen_inv c)
    (hc : c.count < (VEX_SEEN_CAPACITY : Int)) : seen_has_free c now := by
  obtain ⟨hlen, h0, _, hact⟩ := hinv
  have h1000 : (VEX_SEEN_CAPACITY : Int) = 1000 := rfl
  have hi : c.count.toNat < c.entries.length := by
    rw [hlen]
    have : c.count.toNat < 1000 := by omega
    exact this
  refine ⟨c.entries[c.count.toNat], ?_, ?_⟩
  · rw [List.take_of_length_le (le_of_eq hlen)]
    exact List.getElem_mem hi
  · intro hl
    have := hact c.count.toNat _ (List.getElem?_eq_getElem hi) hl.1
    omega

theorem sample_later_ok :
    ∀ op ∈ [seen_op.check sample_id_b 10, seen_op.prune 20],
      (∀ (pid : List Nat) (now : Int), op ≠ .add pid now) ∧ (0 : Int) ≤ op.clock ∧
        op.clock ≤ 30 := by
  intro op hop
  simp only [List.mem_cons, List.mem_singleton, List.not_mem_nil, or_false] at hop
  rcases hop with h | h <;> subst h
  · exact ⟨fun _ _ hne => seen_op.noConfusion hne, by decide, by decide⟩
  · exact ⟨fun _ _ hne => seen_op.noConfusion hne, by decide, by decide⟩

theorem sample_init_fresh :
    ∀ e ∈ (seen_run (vex_seen_init ⟨[], 0⟩) []).entries,
      e.active ≠ 0 → memcmp e.packet_id sample_id_a 8 ≠ 0 := by
  intro e he ha
  have he2 : e ∈ List.replicate VEX_SEEN_CAPACITY zero_entry := he
  rw [List.eq_of_mem_replicate he2] at ha
  exact absurd rfl ha

theorem sample_traffic_clock :
    ∀ op ∈ [seen_op.add sample_id_b 10, seen_op.check sample_id_a 20, seen_op.prune 30],
      (0 : Int) ≤ op.clock ∧ op.clock ≤ 59 := by
  intro op hop
  simp only [List.mem_cons, List.mem_singleton, List.not_mem_nil, or_false] at hop
  rcases hop with h | h | h <;> subst h <;> exact ⟨by decide, by decide⟩

theorem sample_traffic_free :
    adds_find_free (vex_seen_add (seen_run (vex_seen_init ⟨[], 0⟩) []) sample_id_a 0)
      [seen_op.add sample_id_b 10, seen_op.check sample_id_a 20, seen_op.prune 30] := by
  refine ⟨fun pid now _ => ?_, fun _ _ h => seen_op.noConfusion h,
    fun _ _ h => seen_op.noConfusion h, trivial⟩
  exact has_free_of_count _ now
    (seen_inv_add _ _ _ (seen_inv_run [] _ (seen_inv_init _))) (by decide)

/-! ## Fan-out and relay lemmas -/

theorem send_to_peer_io_fd (p : vex_peer_t) (data : List Nat) (len : Nat) (w : write_outcome) :
    ∀ ev ∈ (vex_transport_send_to_peer p data len w).io, ev.fd = p.fd := by
  intro ev hev
  unfold vex_transport_send_to_peer at hev
  simp only [] at hev
  split_ifs at hev
  · simp at hev
  · simp only [List.mem_cons, List.mem_singleton, List.not_mem_nil, or_false] at hev
    rcases hev with h | h <;> subst h <;> rfl
  · simp only [List.mem_cons, List.mem_singleton, List.not_mem_nil, or_false] at hev
    rcases hev with h | h | h <;> subst h <;> rfl
  · simp only [List.mem_cons, List.mem_singleton, List.not_mem_nil, or_false] at hev
    rcases hev with h | h <;> subst h <;> rfl

theorem send_loop_cons_pos (data : List Nat) (len : Nat) (ex : Int) (W : Nat → write_outcome)
    (p : vex_peer_t) (ps : List vex_peer_t) (n i : Nat) (hel : p.active ≠ 0 ∧ p.fd ≠ ex) :
    vex_transport_send_to_all_loop data len ex W (n + 1) i (p :: ps) =
      { sent := (if (vex_transport_send_to_peer p data len (W i)).ret = 0 then 1 else 0) +
          (vex_transport_send_to_all_loop data len ex W n (i + 1) ps).sent
        peers := (vex_transport_send_to_peer p data len (W i)).peer ::
          (vex_transport_send_to_all_loop data len ex W n (i + 1) ps).peers
        calls := { slot := i, ret := (vex_transport_send_to_peer p data len (W i)).ret,
                   io := (vex_transport_send_to_peer p data len (W i)).io } ::
          (vex_transport_send_to_all_loop data len ex W n (i + 1) ps).calls } := by
  simp only [vex_transport_send_to_all_loop]
  rw [if_pos hel]

theorem send_loop_cons_neg (data : List Nat) (len : Nat) (ex : Int) (W : Nat → write_outcome)
    (p : vex_peer_t) (ps : List vex_peer_t) (n i : Nat) (hel : ¬ (p.active ≠ 0 ∧ p.fd ≠ ex)) :
    vex_transport_send_to_all_loop data len ex W (n + 1) i (p :: ps) =
      { sent := (vex_transport_send_to_all_loop data len ex W n (i + 1) ps).sent
        peers := p :: (vex_transport_send_to_all_loop data len ex W n (i + 1) ps).peers
        calls := (vex_transport_send_to_all_loop data len ex W n (i + 1) ps).calls } := by
  simp only [vex_transport_send_to_all_loop]
  rw [if_neg hel]

theorem send_loop_calls (data : List Nat) (len : Nat) (ex : Int) (W : Nat → write_outcome) :
    ∀ (ps : List vex_peer_t) (n i : Nat),
      ∀ c ∈ (vex_transport_send_to_all_loop data len ex W n i ps).calls,
        i ≤ c.slot ∧ c.slot < i + n ∧
        ∃ p, ps[c.slot - i]? = some p ∧ p.active ≠ 0 ∧ p.fd ≠ ex ∧
          c.ret = (vex_transport_send_to_peer p data len (W c.slot)).ret ∧
          c.io = (vex_transport_send_to_peer p data len (W c.slot)).io := by
  intro ps
  induction ps with
  | nil => intro n i c hc; cases n <;> simp [vex_transport_send_to_all_loop] at hc
  | cons p ps ih =>
    intro n i c hc
    cases n with
    | zero => simp [vex_transport_send_to_all_loop] at hc
    | succ n =>
      have hrest : ∀ c ∈ (vex_transport_send_to_all_loop data len ex W n (i + 1) ps).calls,
          i ≤ c.slot ∧ c.slot < i + (n + 1) ∧
          ∃ q, (p :: ps)[c.slot - i]? = some q ∧ q.active ≠ 0 ∧ q.fd ≠ ex ∧
            c.ret = (vex_transport_send_to_peer q data len (W c.slot)).ret ∧
            c.io = (vex_transport_send_to_peer q data len (W c.slot)).io := by
        intro c hc
        obtain ⟨h1, h2, q, h3, h4⟩ := ih n (i + 1) c hc
        refine ⟨by omega, by omega, q, ?_, h4⟩
        rw [show c.slot - i = (c.slot - (i + 1)) + 1 by omega]
        simpa using h3
      by_cases hel : p.active ≠ 0 ∧ p.fd ≠ ex
      · rw [send_loop_cons_pos data len ex W p ps n i hel] at hc
        rcases List.mem_cons.mp hc with h | h
        · subst h
          exact ⟨le_refl _, by simp, p, by simp, hel.1, hel.2, rfl, rfl⟩
        · exact hrest c h
      · rw [send_loop_cons_neg data len ex W p ps n i hel] at hc
        exact hrest c hc

theorem send_loop_mem (data : List Nat) (len : Nat) (ex : Int) (W : Nat → write_outcome) :
    ∀ (ps : List vex_peer_t) (n i s : Nat),
      i ≤ s → s < i + n → (∃ p, ps[s - i]? = some p ∧ p.active ≠ 0 ∧ p.fd ≠ ex) →
      s ∈ (vex_transport_send_to_all_loop data len ex W n i ps).calls.map peer_call.slot := by
  intro ps
  induction ps with
  | nil => intro n i s _ _ h; obtain ⟨p, hp, _⟩ := h; simp at hp
  | cons p ps ih =>
    intro n i s h1 h2 h3
    cases n with
    | zero => omega
    | succ n =>
      obtain ⟨q, hq, hqa, hqf⟩ := h3
      by_cases hs : s = i
      · subst hs
        simp only [Nat.sub_self, List.getElem?_cons_zero, Option.some.injEq] at hq
        subst hq
        rw [send_loop_cons_pos data len ex W p ps n s ⟨hqa, hqf⟩]
        simp
      · have hrest := ih n (i + 1) s (by omega) (by omega)
          ⟨q, by
            rw [show s - i = (s - (i + 1)) + 1 by omega] at hq
            simpa using hq, hqa, hqf⟩
        by_cases hel : p.active ≠ 0 ∧ p.fd ≠ ex
        · rw [send_loop_cons_pos data len ex W p ps n i hel]
          simp only [List.map_cons, List.mem_cons]
          exact Or.inr hrest
        · rw [send_loop_cons_neg data len ex W p ps n i hel]
          exact hrest

theorem send_loop_nodup (data : List Nat) (len : Nat) (ex : Int) (W : Nat → write_outcome) :
    ∀ (ps : List vex_peer_t) (n i : Nat),
      ((vex_transport_send_to_all_loop data len ex W n i ps).calls.map peer_call.slot).Nodup := by
  intro ps
  induction ps with
  | nil => intro n i; cases n <;> simp [vex_transport_send_to_all_loop]
  | cons p ps ih =>
    intro n i
    cases n with
    | zero => simp [vex_transport_send_to_all_loop]
    | succ n =>
      by_cases hel : p.active ≠ 0 ∧ p.fd ≠ ex
      · rw [send_loop_cons_pos data len ex W p ps n i hel]
        simp only [List.map_cons, List.nodup_cons]
        refine ⟨?_, ih n (i + 1)⟩
        intro hmem
        obtain ⟨c, hc, hcs⟩ := List.mem_map.mp hmem
        have := (send_loop_calls data len ex W ps n (i + 1) c hc).1
        omega
      · rw [send_loop_cons_neg data len ex W p ps n i hel]
        exact ih n (i + 1)

theorem send_loop_sent (data : List Nat) (len : Nat) (ex : Int) (W : Nat → write_outcome) :
    ∀ (ps : List vex_peer_t) (n i : Nat),
      (vex_transport_send_to_all_loop data len ex W n i ps).sent =
        (((vex_transport_send_to_all_loop data len ex W n i ps).calls.filter
          (fun c => decide (c.ret = 0))).length : Int) := by
  intro ps
  induction ps with
  | nil => intro n i; cases n <;> simp [vex_transport_send_to_all_loop]
  | cons p ps ih =>
    intro n i
    cases n with
    | zero => simp [vex_transport_send_to_all_loop]
    | succ n =>
      by_cases hel : p.active ≠ 0 ∧ p.fd ≠ ex
      · rw [send_loop_cons_pos data len ex W p ps n i hel]
        by_cases hret : (vex_transport_send_to_peer p data len (W i)).ret = 0
        · simp only [List.filter_cons, hret, decide_True, if_true, List.length_cons, ih n (i + 1)]
          push_cast
          omega
        · simp only [List.filter_cons, hret, decide_False, if_false, ih n (i + 1)]
          simp
      · rw [send_loop_cons_neg data len ex W p ps n i hel]
        exact ih n (i + 1)

theorem vex_packet_encode_fst (pkt : vex_packet_t) (buf : List Nat) (buf_len : Nat)
    (h1 : VEX_HEADER_SIZE + pkt.payload_len ≤ buf_len)
    (h2 : VEX_HEADER_SIZE + pkt.payload_len ≤ VEX_MAX_PACKET)
    (h3 : pkt.version = VEX_VERSION) :
    (vex_packet_encode pkt buf buf_len).1 = ((VEX_HEADER_SIZE + pkt.payload_len : Nat) : Int) := by
  unfold vex_packet_encode
  have c1 : ¬ (VEX_HEADER_SIZE + pkt.payload_len > buf_len ∨
      VEX_HEADER_SIZE + pkt.payload_len > VEX_MAX_PACKET) := by
    intro h; rcases h with h | h <;> omega
  simp only [c1, if_false, h3, ne_eq, not_true_eq_false]

theorem vex_packet_decode_eq (buf : List Nat) (len : Nat) (pkt : vex_packet_t)
    (h : (vex_packet_decode buf len pkt).1 = 0) :
    VEX_HEADER_SIZE ≤ len ∧ buf.getD 0 0 = VEX_VERSION ∧
    (len - VEX_HEADER_SIZE) % 65536 ≤ VEX_MAX_PAYLOAD ∧
    vex_packet_decode buf len pkt = (0, decoded buf len pkt) := by
  have hret := (vex_packet_decode_ret buf len pkt).1
  have hne : ¬ (vex_packet_decode buf len pkt).1 = -1 := by rw [h]; decide
  have hcond := fun hc => hne (hret.mpr hc)
  have h1 : VEX_HEADER_SIZE ≤ len := by
    by_contra hc; exact hcond (Or.inl (by omega))
  have h2 : buf.getD 0 0 = VEX_VERSION := by
    by_contra hc; exact hcond (Or.inr (Or.inl hc))
  have h3 : (len - VEX_HEADER_SIZE) % 65536 ≤ VEX_MAX_PAYLOAD := by
    by_contra hc; exact hcond (Or.inr (Or.inr (by omega)))
  exact ⟨h1, h2, h3, vex_packet_decode_ok buf len pkt h1 h2 h3⟩

theorem vex_mesh_relay_forward (node : vex_node_t) (raw : List Nat) (len : Nat)
    (source_fd : Int) (pkt0 : vex_packet_t) (wire0 : List Nat) (W : Nat → write_outcome)
    (hdec : (vex_packet_decode raw len pkt0).1 = 0)
    (httl : 2 ≤ (vex_packet_decode raw len pkt0).2.ttl) :
    vex_mesh_relay node raw len source_fd pkt0 wire0 W =
      { ret := (vex_transport_send_to_all node
            (vex_packet_encode { (vex_packet_decode raw len pkt0).2 with
              ttl := ((vex_packet_decode raw len pkt0).2.ttl - 1) % 256 } wire0 VEX_MAX_PACKET).2
            (VEX_HEADER_SIZE + (vex_packet_decode raw len pkt0).2.payload_len)
            source_fd W).sent
        node := { node with
          peers := (vex_transport_send_to_all node
            (vex_packet_encode { (vex_packet_decode raw len pkt0).2 with
              ttl := ((vex_packet_decode raw len pkt0).2.ttl - 1) % 256 } wire0 VEX_MAX_PACKET).2
            (VEX_HEADER_SIZE + (vex_packet_decode raw len pkt0).2.payload_len)
            source_fd W).peers
          packets_relayed := (node.packets_relayed + 1) % 2 ^ 64 }
        sends := [{
          data := (vex_packet_encode { (vex_packet_decode raw len pkt0).2 with
              ttl := ((vex_packet_decode raw len pkt0).2.ttl - 1) % 256 } wire0 VEX_MAX_PACKET).2
          len := VEX_HEADER_SIZE + (vex_packet_decode raw len pkt0).2.payload_len
          except_fd := source_fd
          result := vex_transport_send_to_all node
            (vex_packet_encode { (vex_packet_decode raw len pkt0).2 with
              ttl := ((vex_packet_decode raw len pkt0).2.ttl - 1) % 256 } wire0 VEX_MAX_PACKET).2
            (VEX_HEADER_SIZE + (vex_packet_decode raw len pkt0).2.payload_len)
            source_fd W }] } := by
  obtain ⟨_, h2, h3, heq⟩ := vex_packet_decode_eq raw len pkt0 hdec
  have hfst := vex_packet_encode_fst
    { (vex_packet_decode raw len pkt0).2 with
      ttl := ((vex_packet_decode raw len pkt0).2.ttl - 1) % 256 } wire0 VEX_MAX_PACKET
    (by rw [heq]; simp only [decoded, VEX_MAX_PAYLOAD, VEX_MAX_PACKET, VEX_HEADER_SIZE] at h3 ⊢
        omega)
    (by rw [heq]; simp only [decoded, VEX_MAX_PAYLOAD, VEX_MAX_PACKET, VEX_HEADER_SIZE] at h3 ⊢
        omega)
    (by rw [heq]; exact h2)
  have hnot : ¬ (vex_packet_decode raw len pkt0).2.ttl ≤ 1 := by omega
  unfold vex_mesh_relay
  simp only [hdec, ne_eq, not_true_eq_false, if_false, hnot, hfst]
  have hnn : ¬ ((VEX_HEADER_SIZE + (vex_packet_decode raw len pkt0).2.payload_len : Nat) : Int) < 0 := by
    omega
  simp only [hnn, if_false, Int.toNat_ofNat]

theorem relay_wire_bytes (raw : List Nat) (len : Nat) (pkt0 : vex_packet_t) (wire0 : List Nat)
    (hraw : len ≤ raw.length) (hbytes : ∀ b ∈ raw, b < 256) (hfit : len < 65536)
    (hwire : wire0.length = VEX_MAX_PACKET)
    (hdec : (vex_packet_decode raw len pkt0).1 = 0) :
    VEX_HEADER_SIZE + (vex_packet_decode raw len pkt0).2.payload_len = len ∧
    (vex_packet_decode raw len pkt0).2.ttl = raw.getD 9 0 ∧
    ((vex_packet_encode { (vex_packet_decode raw len pkt0).2 with
        ttl := ((vex_packet_decode raw len pkt0).2.ttl - 1) % 256 } wire0 VEX_MAX_PACKET).2).take len
      = (raw.take len).set 9 (raw.getD 9 0 - 1) := by
  obtain ⟨h1, h2, h3, heq⟩ := vex_packet_decode_eq raw len pkt0 hdec
  simp only [VEX_HEADER_SIZE, VEX_MAX_PACKET, VEX_MAX_PAYLOAD] at h1 h3 hwire
  have hmod : (len - VEX_HEADER_SIZE) % 65536 = len - 11 := by
    simp only [VEX_HEADER_SIZE]
    exact Nat.mod_eq_of_lt (by omega)
  have hmod' : (len - 11) % 65536 = len - 11 := hmod
  rw [hmod'] at h3
  obtain ⟨a0, a1, a2, a3, a4, a5, a6, a7, a8, a9, a10, r, rfl⟩ :=
    exists_eleven raw (by omega)
  have ha9 : a9 < 256 := hbytes a9 (by simp)
  obtain ⟨m, hm⟩ : ∃ m, len = m + 11 := ⟨len - 11, by omega⟩
  subst hm
  have hmr : m ≤ r.length := by simp only [List.length_cons] at hraw; omega
  have hq : decoded (a0 :: a1 :: a2 :: a3 :: a4 :: a5 :: a6 :: a7 :: a8 :: a9 :: a10 :: r)
      (m + 11) pkt0 =
      { version := a0
        packet_id := a1 :: a2 :: a3 :: a4 :: a5 :: a6 :: a7 :: a8 :: pkt0.packet_id.drop 8
        ttl := a9
        flags := a10
        payload := r.take m ++ pkt0.payload.drop m
        payload_len := m } := by
    unfold decoded
    rw [hmod]
    simp [VEX_HEADER_SIZE]
  rw [heq, hq]
  have httl : (a9 - 1) % 256 = a9 - 1 := Nat.mod_eq_of_lt (by omega)
  have henc := vex_packet_encode_ok
    { version := a0
      packet_id := a1 :: a2 :: a3 :: a4 :: a5 :: a6 :: a7 :: a8 :: pkt0.packet_id.drop 8
      ttl := a9 - 1
      flags := a10
      payload := r.take m ++ pkt0.payload.drop m
      payload_len := m } wire0 512
    (by simp only [VEX_HEADER_SIZE]; omega)
    (by simp only [VEX_HEADER_SIZE, VEX_MAX_PACKET]; omega)
    (by simpa using h2) (by omega) (by simp)
  have htk : (r.take m).length = m := by rw [List.length_take]; omega
  refine ⟨by simp only [VEX_HEADER_SIZE]; omega, by simp, ?_⟩
  simp only [VEX_MAX_PACKET, henc, encoded, httl, VEX_HEADER_SIZE]
  simp only [List.take_succ_cons, List.cons_append, List.nil_append, List.take_zero,
    List.set_cons_succ, List.set_cons_zero, List.getD_cons_succ, List.getD_cons_zero,
    List.cons.injEq, true_and]
  rw [List.take_left' htk, List.take_left' htk]

theorem sample_frame_bytes : ∀ b ∈ sample_frame, b < 256 := by decide

/-! ## Send, receive and read lemmas -/

theorem drop_cons_facts {α : Type} (L : List α) (i : Nat) (e : α) (es : List α)
    (h : L.drop i = e :: es) : L[i]? = some e ∧ L.drop (i + 1) = es := by
  constructor
  · have := List.getElem?_drop L i 0
    rw [h] at this
    simpa using this.symm
  · have := List.drop_drop 1 i L
    rw [h] at this
    simpa using this.symm

theorem add_oldest_spec (L : List vex_seen_entry_t) :
    ∀ (n i oi : Nat) (ot : Int) (es : List vex_seen_entry_t),
      es = L.drop i → oi < i →
      (∃ eo, L[oi]? = some eo ∧ eo.timestamp = ot) →
      (∀ (j : Nat) (e : vex_seen_entry_t), j < i → L[j]? = some e →
        ot ≤ e.timestamp ∧ (j < oi → ot < e.timestamp)) →
      ∃ er, L[vex_seen_add_oldest n i es oi ot]? = some er ∧
        ∀ (j : Nat) (e : vex_seen_entry_t), j < i + n → L[j]? = some e →
          er.timestamp ≤ e.timestamp ∧
          (j < vex_seen_add_oldest n i es oi ot → er.timestamp < e.timestamp) := by
  intro n
  induction n with
  | zero =>
    intro i oi ot es _ _ ho hall
    obtain ⟨eo, heo, het⟩ := ho
    refine ⟨eo, by simpa [vex_seen_add_oldest] using heo, ?_⟩
    intro j e hj hje
    simp only [vex_seen_add_oldest]
    rw [het]
    exact hall j e (by omega) hje
  | succ n ih =>
    intro i oi ot es hes hoi ho hall
    obtain ⟨eo, heo, het⟩ := ho
    cases es with
    | nil =>
      refine ⟨eo, by simpa [vex_seen_add_oldest] using heo, ?_⟩
      intro j e _ hje
      simp only [vex_seen_add_oldest]
      rw [het]
      have hlen : L.length ≤ i := List.drop_eq_nil_iff.mp hes.symm
      have hjl : j < L.length := by
        by_contra hcon
        rw [List.getElem?_eq_none (by omega)] at hje
        exact Option.noConfusion hje
      exact hall j e (by omega) hje
    | cons a es =>
      obtain ⟨hai, hrest⟩ := drop_cons_facts L i a es hes.symm
      simp only [vex_seen_add_oldest]
      by_cases hlt : a.timestamp < ot
      · rw [if_pos hlt]
        obtain ⟨er, her, hmin⟩ := ih (i + 1) i a.timestamp es hrest.symm (by omega)
          ⟨a, hai, rfl⟩ (by
            intro j e hj hje
            by_cases hji : j = i
            · subst hji
              rw [hai] at hje
              simp only [Option.some.injEq] at hje
              subst hje
              exact ⟨le_refl _, fun h => absurd h (lt_irrefl _)⟩
            · have := (hall j e (by omega) hje).1
              exact ⟨by omega, fun _ => by omega⟩)
        exact ⟨er, her, fun j e hj hje => hmin j e (by omega) hje⟩
      · rw [if_neg hlt]
        obtain ⟨er, her, hmin⟩ := ih (i + 1) oi ot es hrest.symm (by omega)
          ⟨eo, heo, het⟩ (by
            intro j e hj hje
            by_cases hji : j = i
            · subst hji
              rw [hai] at hje
              simp only [Option.some.injEq] at hje
              subst hje
              exact ⟨by omega, fun h => by omega⟩
            · exact hall j e (by omega) hje)
        exact ⟨er, her, fun j e hj hje => hmin j e (by omega) hje⟩

theorem memcpy_id_eq (old id : List Nat) (hid : id.length = 8) (hold : old.length = 8) :
    memcpy old 0 id 8 = id := by
  unfold memcpy
  rw [List.take_zero, List.nil_append, List.take_of_length_le (by omega),
    List.drop_eq_nil_of_le (by omega), List.append_nil]

theorem unix_read_minus_one (peer : vex_peer_t) (buf : List Nat) (buf_len : Nat)
    (R : Nat → read_outcome) (now : Int)
    (h : (vex_transport_unix_read peer buf buf_len R now).ret = -1) :
    (vex_transport_unix_read peer buf buf_len R now).peer.active = 0 ∨
    ((vex_transport_unix_read peer buf buf_len R now).peer = peer ∧ 0 < (R 0).n ∧
      ((R 0).n ≠ 2 ∨
        (((R 0).bytes.getD 0 0 <<< 8) ||| (R 0).bytes.getD 1 0) % 65536 > buf_len ∨
        (((R 0).bytes.getD 0 0 <<< 8) ||| (R 0).bytes.getD 1 0) % 65536 > VEX_MAX_PACKET)) := by
  unfold vex_transport_unix_read at h ⊢
  simp only [] at h ⊢
  split_ifs at h ⊢ with h1 h2 h3 h4 h5 h6 h7
  all_goals first
    | exact Or.inl (by assumption)
    | exact Or.inl rfl
    | (exfalso; simp at h; done)
    | exact Or.inr ⟨rfl, by omega, Or.inl (by assumption)⟩
    | exact Or.inr ⟨rfl, by omega, Or.inr (by assumption)⟩

theorem unix_read_zero (peer : vex_peer_t) (buf : List Nat) (buf_len : Nat)
    (R : Nat → read_outcome) (now : Int)
    (h : (vex_transport_unix_read peer buf buf_len R now).ret = 0) :
    (vex_transport_unix_read peer buf buf_len R now).peer.active ≠ 0 := by
  unfold vex_transport_unix_read at h ⊢
  simp only [] at h ⊢
  split_ifs at h ⊢ with h1 h2 h3 h4 h5 h6 h7
  all_goals first
    | (exfalso; simp at h; done)
    | assumption

theorem encrypt_ok (P : nacl_t) (hok : secretbox_ok P) (node : vex_node_t)
    (nonce m : List Nat) (hn : nonce.length = 24) (hm : m.length ≤ 461) :
    vex_crypto_encrypt_broadcast P node m m.length nonce =
      { ret := 0
        out := nonce ++ (P.crypto_secretbox (List.replicate 32 0 ++ m)
          (List.replicate 32 0 ++ m).length nonce node.mesh_key).2.drop 16
        out_len := m.length + 40 } := by
  have hlen : (List.replicate 32 0 ++ m).length = 32 + m.length := by
    rw [List.length_append, List.length_replicate]
  obtain ⟨h1, h2, _⟩ := hok (List.replicate 32 0 ++ m) nonce node.mesh_key
    (by rw [hlen]; simp only [crypto_secretbox_ZEROBYTES]; omega)
  unfold vex_crypto_encrypt_broadcast
  have c1 : ¬ (m.length > VEX_MAX_PAYLOAD - crypto_secretbox_NONCEBYTES -
      crypto_secretbox_BOXZEROBYTES) := by
    simp only [VEX_MAX_PAYLOAD, VEX_MAX_PACKET, VEX_HEADER_SIZE, crypto_secretbox_NONCEBYTES,
      crypto_secretbox_BOXZEROBYTES]
    omega
  rw [if_neg c1]
  simp only [crypto_secretbox_NONCEBYTES, crypto_secretbox_ZEROBYTES,
    crypto_secretbox_BOXZEROBYTES]
  rw [List.take_of_length_le (le_of_eq hn), List.take_length, ← hlen]
  have hd : ((P.crypto_secretbox (List.replicate 32 0 ++ m) (List.replicate 32 0 ++ m).length
      nonce node.mesh_key).2.drop 16).length = m.length + 16 := by
    rw [List.length_drop, h2, hlen]; omega
  rw [if_neg (by rw [h1]; exact fun h => h rfl), List.take_of_length_le (by rw [hd]; omega),
    show (24 + m.length + 32 - 16) % 65536 = m.length + 40 by omega]

theorem decrypt_encrypted (P : nacl_t) (hok : secretbox_ok P) (hinv : secretbox_inverse P)
    (node : vex_node_t) (nonce m : List Nat) (hn : nonce.length = 24) (hm : m.length ≤ 461) :
    vex_crypto_decrypt_broadcast P node
      (nonce ++ (P.crypto_secretbox (List.replicate 32 0 ++ m)
        (List.replicate 32 0 ++ m).length nonce node.mesh_key).2.drop 16)
      (m.length + 40) = { ret := 0, out := m, out_len := m.length } := by
  have hlen : (List.replicate 32 0 ++ m).length = 32 + m.length := by
    rw [List.length_append, List.length_replicate]
  obtain ⟨_, h2, h3⟩ := hok (List.replicate 32 0 ++ m) nonce node.mesh_key
    (by rw [hlen]; simp only [crypto_secretbox_ZEROBYTES]; omega)
  have hopen := hinv (List.replicate 32 0 ++ m) nonce node.mesh_key
    (by rw [hlen]; simp only [crypto_secretbox_ZEROBYTES]; omega)
    (by
      simp only [crypto_secretbox_ZEROBYTES]
      exact List.take_left' (List.length_replicate _ _))
  generalize hbox : (P.crypto_secretbox (List.replicate 32 0 ++ m)
    (List.replicate 32 0 ++ m).length nonce node.mesh_key).2 = box at h2 h3 hopen ⊢
  simp only [crypto_secretbox_BOXZEROBYTES] at h3
  have hd : (box.drop 16).length = m.length + 16 := by
    rw [List.length_drop, h2, hlen]; omega
  unfold vex_crypto_decrypt_broadcast
  have c1 : ¬ (m.length + 40 ≤ crypto_secretbox_NONCEBYTES) := by
    simp only [crypto_secretbox_NONCEBYTES]; omega
  rw [if_neg c1]
  simp only [crypto_secretbox_NONCEBYTES, crypto_secretbox_ZEROBYTES,
    crypto_secretbox_BOXZEROBYTES]
  have hct : (m.length + 40 - 24) % 65536 = m.length + 16 := by omega
  have hpl : (m.length + 16 + 65536 - (32 - 16)) % 65536 = m.length := by omega
  have hpad : List.replicate 16 0 ++ box.drop 16 = box := by
    rw [← h3]; exact List.take_append_drop 16 box
  rw [hct, hpl, List.take_left' hn, List.drop_left' hn,
    List.take_of_length_le (by rw [hd]), hpad,
    show 16 + (m.length + 16) = (List.replicate 32 0 ++ m).length by rw [hlen]; omega,
    hopen]
  simp only [ne_eq, not_true_eq_false, if_false]
  rw [List.drop_left' (List.length_replicate _ _), List.take_length]

theorem sample_nacl_ok : secretbox_ok sample_nacl := by
  intro m n k hm
  simp only [crypto_secretbox_ZEROBYTES] at hm
  refine ⟨rfl, ?_, ?_⟩
  · show (List.replicate 16 0 ++ m.drop 16).length = m.length
    rw [List.length_append, List.length_replicate, List.length_drop]
    omega
  · show (List.replicate 16 0 ++ m.drop 16).take crypto_secretbox_BOXZEROBYTES = _
    exact List.take_left' (List.length_replicate _ _)

theorem sample_nacl_inverse : secretbox_inverse sample_nacl := by
  intro m n k hm hz
  simp only [crypto_secretbox_ZEROBYTES] at hm hz
  have hdef : sample_nacl.crypto_secretbox_open
      (sample_nacl.crypto_secretbox m m.length n k).2 m.length n k =
      (0, List.replicate 32 0 ++ (List.replicate 16 0 ++ m.drop 16).drop 32) := rfl
  rw [hdef]
  have h1 : (List.replicate 16 0 ++ m.drop 16).drop 32 = m.drop 32 := by
    rw [show 32 = 16 + 16 from rfl, ← List.drop_drop,
      List.drop_left' (List.length_replicate _ _), List.drop_drop]
  rw [h1, ← hz, List.take_append_drop]

theorem sample_nacl_hash : hash_ok sample_nacl := by
  intro m n
  exact List.length_replicate _ _

theorem memcpy_zero_length (old src : List Nat) (n : Nat) (h1 : n ≤ src.length)
    (h2 : n ≤ old.length) : (memcpy old 0 src n).length = old.length := by
  unfold memcpy
  rw [List.take_zero, List.nil_append, List.length_append, List.length_take,
    List.length_drop]
  omega

theorem roundtrip_aux (p pkt0 : vex_packet_t) (buf : List Nat)
    (hv : p.version = VEX_VERSION) (hl : p.payload_len ≤ 501)
    (hid : p.packet_id.length = 8) (hpay : p.payload_len ≤ p.payload.length)
    (hbuf : buf.length = 512) (hid0 : pkt0.packet_id.length = 8) :
    ∃ out q,
      vex_packet_encode p buf VEX_MAX_PACKET =
        (((VEX_HEADER_SIZE + p.payload_len : Nat) : Int), out) ∧
      vex_packet_decode (out.take (VEX_HEADER_SIZE + p.payload_len))
        (VEX_HEADER_SIZE + p.payload_len) pkt0 = (0, q) ∧
      q.version = p.version ∧ q.packet_id = p.packet_id ∧ q.ttl = p.ttl ∧
      q.flags = p.flags ∧ q.payload_len = p.payload_len ∧
      q.payload.take p.payload_len = p.payload.take p.payload_len := by
  have henc := vex_packet_encode_ok p buf VEX_MAX_PACKET
    (by simp only [VEX_HEADER_SIZE, VEX_MAX_PACKET]; omega)
    (by simp only [VEX_HEADER_SIZE, VEX_MAX_PACKET]; omega) hv
    (by simp only [VEX_MAX_PACKET]; omega) (by omega)
  obtain ⟨i0, i1, i2, i3, i4, i5, i6, i7, hi⟩ := exists_eight_exact p.packet_id hid
  have htk : (p.payload.take p.payload_len).length = p.payload_len := by
    rw [List.length_take]; omega
  have hout : (encoded p buf).take (VEX_HEADER_SIZE + p.payload_len) =
      p.version :: i0 :: i1 :: i2 :: i3 :: i4 :: i5 :: i6 :: i7 :: p.ttl :: p.flags ::
        p.payload.take p.payload_len := by
    unfold encoded
    rw [hi, show VEX_HEADER_SIZE + p.payload_len = p.payload_len + 11 by
      simp only [VEX_HEADER_SIZE]; omega]
    simp only [List.take, List.cons_append, List.nil_append, List.take_succ_cons]
    simp only [List.cons.injEq, true_and]
    exact List.take_left' htk
  refine ⟨encoded p buf, decoded ((encoded p buf).take (VEX_HEADER_SIZE + p.payload_len))
    (VEX_HEADER_SIZE + p.payload_len) pkt0, henc, ?_, ?_⟩
  · apply vex_packet_decode_ok
    · omega
    · rw [hout]; simpa using hv
    · simp only [VEX_MAX_PAYLOAD, VEX_MAX_PACKET, VEX_HEADER_SIZE]; omega
  · rw [hout]
    unfold decoded
    have hmod : p.payload_len % 65536 = p.payload_len := Nat.mod_eq_of_lt (by omega)
    have hd0 : List.drop 8 pkt0.packet_id = [] := List.drop_eq_nil_of_le (by omega)
    simp only [VEX_HEADER_SIZE, Nat.add_sub_cancel_left, hmod, List.drop_succ_cons, List.drop_zero,
      List.take_succ_cons, List.take_zero, List.getD_cons_zero, List.getD_cons_succ, hd0, hi,
      List.cons_append, List.nil_append, List.take_take, Nat.min_self, true_and,
      List.append_nil]
    exact List.take_left' htk

theorem send_reject (P : nacl_t) (node : vex_node_t) (message : List Nat) (now : Int)
    (nonce salt : List Nat) (pkt0 : vex_packet_t) (wire0 : List Nat)
    (W : Nat → write_outcome) (h : message.length > 401) :
    vex_mesh_send P node message now nonce salt pkt0 wire0 W =
      { ret := -1, node := node, sends := [] } := by
  unfold vex_mesh_send
  have c : message.length > VEX_MAX_PAYLOAD - 100 := by
    simp only [VEX_MAX_PAYLOAD, VEX_MAX_PACKET, VEX_HEADER_SIZE]; omega
  simp only [c, if_true]

theorem sent_packet_facts (P : nacl_t) (hok : secretbox_ok P) (hh : hash_ok P)
    (node : vex_node_t) (message nonce salt : List Nat) (pkt0 : vex_packet_t)
    (hL : message.length ≤ 401) (hn : nonce.length = 24)
    (hpk : pkt0.packet_id.length = 8) (hpp : pkt0.payload.length = 501) :
    (vex_crypto_encrypt_broadcast P node message (message.length % 65536) nonce).ret = 0 ∧
    (vex_crypto_encrypt_broadcast P node message (message.length % 65536) nonce).out_len =
      message.length + 40 ∧
    (vex_crypto_encrypt_broadcast P node message (message.length % 65536) nonce).out.length =
      message.length + 40 ∧
    (sent_packet P node message nonce salt pkt0).packet_id.length = 8 ∧
    (sent_packet P node message nonce salt pkt0).payload.length = 501 ∧
    (sent_packet P node message nonce salt pkt0).payload.take (message.length + 40) =
      (vex_crypto_encrypt_broadcast P node message (message.length % 65536) nonce).out := by
  have hmod : message.length % 65536 = message.length := Nat.mod_eq_of_lt (by omega)
  have he := encrypt_ok P hok node nonce message hn (by omega)
  have hlen : (List.replicate 32 0 ++ message).length = 32 + message.length := by
    rw [List.length_append, List.length_replicate]
  obtain ⟨_, h2, _⟩ := hok (List.replicate 32 0 ++ message) nonce node.mesh_key
    (by rw [hlen]; simp only [crypto_secretbox_ZEROBYTES]; omega)
  have hol : (nonce ++ (P.crypto_secretbox (List.replicate 32 0 ++ message)
      (List.replicate 32 0 ++ message).length nonce node.mesh_key).2.drop 16).length =
      message.length + 40 := by
    rw [List.length_append, List.length_drop, h2, hlen, hn]; omega
  unfold sent_packet
  rw [hmod, he]
  simp only []
  refine ⟨trivial, trivial, hol, ?_, ?_, ?_⟩
  · unfold vex_packet_make_id
    simp only []
    rw [memcpy_zero_length _ _ _ (by rw [hh]; omega) (by omega)]
    exact hpk
  · rw [memcpy_zero_length _ _ _ (by rw [hol]) (by omega)]
    exact hpp
  · unfold memcpy
    simp only [List.take_zero, List.nil_append, List.append_assoc]
    rw [List.take_of_length_le (le_of_eq hol)]
    exact List.take_left' hol

theorem send_forward (P : nacl_t) (hok : secretbox_ok P) (hh : hash_ok P)
    (node : vex_node_t) (message : List Nat) (now : Int) (nonce salt : List Nat)
    (pkt0 : vex_packet_t) (wire0 : List Nat) (W : Nat → write_outcome)
    (hL : message.length ≤ 401) (hn : nonce.length = 24)
    (hpk : pkt0.packet_id.length = 8) (hpp : pkt0.payload.length = 501) :
    vex_mesh_send P node message now nonce salt pkt0 wire0 W =
      { ret := (vex_transport_send_to_all
            { node with
                seen := vex_seen_add node.seen
                  (sent_packet P node message nonce salt pkt0).packet_id now }
            (vex_packet_encode (sent_packet P node message nonce salt pkt0) wire0
              VEX_MAX_PACKET).2
            (VEX_HEADER_SIZE + (message.length + 40)) (-1) W).sent
        node := { node with
          seen := vex_seen_add node.seen
            (sent_packet P node message nonce salt pkt0).packet_id now
          peers := (vex_transport_send_to_all
            { node with
                seen := vex_seen_add node.seen
                  (sent_packet P node message nonce salt pkt0).packet_id now }
            (vex_packet_encode (sent_packet P node message nonce salt pkt0) wire0
              VEX_MAX_PACKET).2
            (VEX_HEADER_SIZE + (message.length + 40)) (-1) W).peers
          packets_sent := (node.packets_sent + 1) % 2 ^ 64 }
        sends := [{
          data := (vex_packet_encode (sent_packet P node message nonce salt pkt0) wire0
            VEX_MAX_PACKET).2
          len := VEX_HEADER_SIZE + (message.length + 40)
          except_fd := -1
          result := vex_transport_send_to_all
            { node with
                seen := vex_seen_add node.seen
                  (sent_packet P node message nonce salt pkt0).packet_id now }
            (vex_packet_encode (sent_packet P node message nonce salt pkt0) wire0
              VEX_MAX_PACKET).2
            (VEX_HEADER_SIZE + (message.length + 40)) (-1) W }] } := by
  obtain ⟨he, hol, _, _, _, _⟩ :=
    sent_packet_facts P hok hh node message nonce salt pkt0 hL hn hpk hpp
  have hfst := vex_packet_encode_fst (sent_packet P node message nonce salt pkt0) wire0
    VEX_MAX_PACKET
    (by
      show VEX_HEADER_SIZE + (vex_crypto_encrypt_broadcast P node message
        (message.length % 65536) nonce).out_len ≤ VEX_MAX_PACKET
      rw [hol]; simp only [VEX_HEADER_SIZE, VEX_MAX_PACKET]; omega)
    (by
      show VEX_HEADER_SIZE + (vex_crypto_encrypt_broadcast P node message
        (message.length % 65536) nonce).out_len ≤ VEX_MAX_PACKET
      rw [hol]; simp only [VEX_HEADER_SIZE, VEX_MAX_PACKET]; omega)
    rfl
  have hplen : (sent_packet P node message nonce salt pkt0).payload_len =
      message.length + 40 := hol
  rw [hplen] at hfst
  have c1 : ¬ (message.length > VEX_MAX_PAYLOAD - 100) := by
    simp only [VEX_MAX_PAYLOAD, VEX_MAX_PACKET, VEX_HEADER_SIZE]; omega
  have hnn : ¬ ((VEX_HEADER_SIZE + (message.length + 40) : Nat) : Int) < 0 := by omega
  have htn : (vex_packet_encode (sent_packet P node message nonce salt pkt0) wire0
      VEX_MAX_PACKET).1.toNat = VEX_HEADER_SIZE + (message.length + 40) := by
    rw [hfst, Int.toNat_ofNat]
  unfold vex_mesh_send
  simp only [c1, if_false, he, ne_eq, not_true_eq_false]
  change (if (vex_packet_encode (sent_packet P node message nonce salt pkt0) wire0
      VEX_MAX_PACKET).1 < 0 then _ else _) = _
  rw [hfst, if_neg hnn, ← htn]
  rfl

theorem check_after_add_run (c : vex_seen_cache_t) (id : List Nat) (t t2 : Int)
    (later : List seen_op) (hinv : seen_inv c) (hid : id.length = 8)
    (hlater : ∀ op ∈ later,
      (∀ (pid : List Nat) (now : Int), op ≠ .add pid now) ∧ op.clock ≤ t2)
    (hle : t2 - t ≤ VEX_SEEN_TTL_SEC) :
    (vex_seen_check (seen_run (vex_seen_add c id t) later) id t2).1 = 1 := by
  obtain ⟨k, old, hkc, hknew, _⟩ := add_slot c id t hinv
  have hw := seen_weaker_run t2 later (vex_seen_add c id t) hlater
  generalize seen_run (vex_seen_add c id t) later = c2 at hw ⊢
  obtain ⟨w1, _, w3⟩ := hw
  have hk2 : c2.entries[k]? =
      some { packet_id := memcpy old.packet_id 0 id 8, timestamp := t, active := 1 } := by
    rcases w3 k _ hknew with h | ⟨_, h2, _⟩
    · exact h
    · exact absurd h2 (by simp only [gt_iff_lt, not_lt]; exact hle)
  simp only [vex_seen_check]
  refine check_loop_found id t2 c2.entries c2.count.toNat k _ ?_ hk2 ⟨by simp, ?_⟩
    (memcmp_memcpy_id old.packet_id id hid)
  · rw [w1]; omega
  · simp only [gt_iff_lt, not_lt]; exact hle

theorem check_fresh (c : vex_seen_cache_t) (id : List Nat) (now : Int)
    (h : ∀ e ∈ c.entries, e.active ≠ 0 → memcmp e.packet_id id 8 ≠ 0) :
    (vex_seen_check c id now).1 = 0 := by
  simp only [vex_seen_check]
  apply check_loop_none
  intro k e _ hk hlive
  exact h e (List.getElem?_mem hk) hlive.1

theorem relay_node_fields (node : vex_node_t) (raw : List Nat) (len : Nat) (source_fd : Int)
    (pkt0 : vex_packet_t) (wire0 : List Nat) (W : Nat → write_outcome) :
    (vex_mesh_relay node raw len source_fd pkt0 wire0 W).node.seen = node.seen ∧
    (vex_mesh_relay node raw len source_fd pkt0 wire0 W).node.packets_received =
      node.packets_received ∧
    (vex_mesh_relay node raw len source_fd pkt0 wire0 W).node.packets_dropped =
      node.packets_dropped ∧
    (vex_mesh_relay node raw len source_fd pkt0 wire0 W).node.packets_sent =
      node.packets_sent := by
  unfold vex_mesh_relay
  simp only []
  split_ifs <;> exact ⟨rfl, rfl, rfl, rfl⟩

theorem decode_other_local (raw : List Nat) (len : Nat) (pkt0 pkt1 : vex_packet_t)
    (h : (vex_packet_decode raw len pkt0).1 = 0) :
    (vex_packet_decode raw len pkt1).1 = 0 ∧
    (vex_packet_decode raw len pkt1).2.ttl = (vex_packet_decode raw len pkt0).2.ttl ∧
    (vex_packet_decode raw len pkt0).2.version = VEX_VERSION ∧
    (vex_packet_decode raw len pkt0).2.ttl = raw.getD 9 0 ∧
    (vex_packet_decode raw len pkt0).2.flags = raw.getD 10 0 := by
  obtain ⟨h1, h2, h3, h4⟩ := vex_packet_decode_eq raw len pkt0 h
  rw [h4, vex_packet_decode_ok raw len pkt1 h1 h2 h3]
  exact ⟨rfl, rfl, h2, rfl, rfl⟩

theorem decoded_id_length (raw : List Nat) (len : Nat) (pkt0 : vex_packet_t)
    (h : (vex_packet_decode raw len pkt0).1 = 0) (hraw : len ≤ raw.length)
    (hid : pkt0.packet_id.length = 8) :
    (vex_packet_decode raw len pkt0).2.packet_id.length = 8 := by
  obtain ⟨h1, _, _, h4⟩ := vex_packet_decode_eq raw len pkt0 h
  simp only [VEX_HEADER_SIZE] at h1
  rw [h4]
  show ((raw.drop 1).take 8 ++ pkt0.packet_id.drop 8).length = 8
  rw [List.length_append, List.length_take, List.length_drop, List.length_drop]
  omega

theorem receive_seen (P : nacl_t) (node : vex_node_t) (raw : List Nat) (len : Nat)
    (source_fd : Int) (now_check now_add : Int) (pkt0 relay_pkt0 : vex_packet_t)
    (wire0 : List Nat) (W : Nat → write_outcome)
    (hdec : (vex_packet_decode raw len pkt0).1 = 0)
    (hchk : (vex_seen_check node.seen (vex_packet_decode raw len pkt0).2.packet_id
      now_check).1 ≠ 0) :
    vex_mesh_receive P node raw len source_fd now_check now_add pkt0 relay_pkt0 wire0 W =
      { ret := 0
        node := { node with
          seen := (vex_seen_check node.seen (vex_packet_decode raw len pkt0).2.packet_id
            now_check).2
          packets_dropped := (node.packets_dropped + 1) % 2 ^ 64 }
        decrypts := [], delivered := [], sends := [] } := by
  have hv := (decode_other_local raw len pkt0 pkt0 hdec).2.2.1
  unfold vex_mesh_receive
  simp only [hdec, hv, hchk, ne_eq, not_true_eq_false, not_false_eq_true, if_true, if_false]

theorem receive_fresh (P : nacl_t) (node : vex_node_t) (raw : List Nat) (len : Nat)
    (source_fd : Int) (now_check now_add : Int) (pkt0 relay_pkt0 : vex_packet_t)
    (wire0 : List Nat) (W : Nat → write_outcome)
    (hdec : (vex_packet_decode raw len pkt0).1 = 0)
    (hchk : (vex_seen_check node.seen (vex_packet_decode raw len pkt0).2.packet_id
      now_check).1 = 0) :
    vex_mesh_receive P node raw len source_fd now_check now_add pkt0 relay_pkt0 wire0 W =
      { ret :=
          if node.relay_enabled ≠ 0 then
            (vex_mesh_relay
              (received_node node (vex_packet_decode raw len pkt0).2.packet_id now_check now_add)
              raw len source_fd relay_pkt0 wire0 W).ret
          else 0
        node :=
          if node.relay_enabled ≠ 0 then
            (vex_mesh_relay
              (received_node node (vex_packet_decode raw len pkt0).2.packet_id now_check now_add)
              raw len source_fd relay_pkt0 wire0 W).node
          else received_node node (vex_packet_decode raw len pkt0).2.packet_id now_check now_add
        decrypts :=
          if (vex_packet_decode raw len pkt0).2.flags &&& VEX_FLAG_ENCRYPTED ≠ 0 then
            [((vex_packet_decode raw len pkt0).2.payload,
              (vex_packet_decode raw len pkt0).2.payload_len)]
          else []
        delivered :=
          if (vex_packet_decode raw len pkt0).2.flags &&& VEX_FLAG_ENCRYPTED ≠ 0 then
            if (vex_crypto_decrypt_broadcast P
                (received_node node (vex_packet_decode raw len pkt0).2.packet_id now_check
                  now_add)
                (vex_packet_decode raw len pkt0).2.payload
                (vex_packet_decode raw len pkt0).2.payload_len).ret = 0 then
              [{ text := ((vex_crypto_decrypt_broadcast P
                    (received_node node (vex_packet_decode raw len pkt0).2.packet_id now_check
                      now_add)
                    (vex_packet_decode raw len pkt0).2.payload
                    (vex_packet_decode raw len pkt0).2.payload_len).out.take
                  (vex_crypto_decrypt_broadcast P
                    (received_node node (vex_packet_decode raw len pkt0).2.packet_id now_check
                      now_add)
                    (vex_packet_decode raw len pkt0).2.payload
                    (vex_packet_decode raw len pkt0).2.payload_len).out_len).takeWhile
                  (fun b => b ≠ 0)
                 ttl := (vex_packet_decode raw len pkt0).2.ttl
                 hops := (node.default_ttl : Int) - ((vex_packet_decode raw len pkt0).2.ttl : Int) }]
            else []
          else []
        sends :=
          if node.relay_enabled ≠ 0 then
            (vex_mesh_relay
              (received_node node (vex_packet_decode raw len pkt0).2.packet_id now_check now_add)
              raw len source_fd relay_pkt0 wire0 W).sends
          else [] } := by
  have hv := (decode_other_local raw len pkt0 pkt0 hdec).2.2.1
  unfold vex_mesh_receive
  simp only [hdec, hv, hchk, ne_eq, not_true_eq_false, not_false_eq_true, if_true, if_false]
  by_cases hr : node.relay_enabled = 0
  · have hr2 : ¬ ¬ node.relay_enabled = 0 := not_not.mpr hr
    simp only [if_neg hr2]
    rfl
  · simp only [if_pos hr]
    rfl

theorem decrypt_mesh_key (P : nacl_t) (n1 n2 : vex_node_t) (cipher : List Nat) (len : Nat)
    (h : n1.mesh_key = n2.mesh_key) :
    vex_crypto_decrypt_broadcast P n1 cipher len = vex_crypto_decrypt_broadcast P n2 cipher len := by
  unfold vex_crypto_decrypt_broadcast
  rw [h]

theorem receive_fresh_fields (P : nacl_t) (node : vex_node_t) (raw : List Nat) (len : Nat)
    (source_fd : Int) (now_check now_add : Int) (pkt0 relay_pkt0 : vex_packet_t)
    (wire0 : List Nat) (W : Nat → write_outcome)
    (hdec : (vex_packet_decode raw len pkt0).1 = 0)
    (hchk : (vex_seen_check node.seen (vex_packet_decode raw len pkt0).2.packet_id
      now_check).1 = 0) :
    (vex_mesh_receive P node raw len source_fd now_check now_add pkt0 relay_pkt0 wire0
      W).node.seen =
      vex_seen_add (vex_seen_check node.seen (vex_packet_decode raw len pkt0).2.packet_id
        now_check).2 (vex_packet_decode raw len pkt0).2.packet_id now_add ∧
    (vex_mesh_receive P node raw len source_fd now_check now_add pkt0 relay_pkt0 wire0
      W).node.packets_received = (node.packets_received + 1) % 2 ^ 64 ∧
    (vex_mesh_receive P node raw len source_fd now_check now_add pkt0 relay_pkt0 wire0
      W).node.packets_dropped = node.packets_dropped ∧
    (vex_mesh_receive P node raw len source_fd now_check now_add pkt0 relay_pkt0 wire0
      W).node.packets_sent = node.packets_sent := by
  rw [receive_fresh P node raw len source_fd now_check now_add pkt0 relay_pkt0 wire0 W hdec hchk]
  by_cases hr : node.relay_enabled ≠ 0
  · simp only [if_pos hr]
    obtain ⟨h1, h2, h3, h4⟩ := relay_node_fields
      (received_node node (vex_packet_decode raw len pkt0).2.packet_id now_check now_add)
      raw len source_fd relay_pkt0 wire0 W
    rw [h1, h2, h3, h4]
    exact ⟨rfl, rfl, rfl, rfl⟩
  · simp only [if_neg hr]
    exact ⟨rfl, rfl, rfl, rfl⟩

theorem receive_fresh_relay (P : nacl_t) (node : vex_node_t) (raw : List Nat) (len : Nat)
    (source_fd : Int) (now_check now_add : Int) (pkt0 relay_pkt0 : vex_packet_t)
    (wire0 : List Nat) (W : Nat → write_outcome)
    (hdec : (vex_packet_decode raw len pkt0).1 = 0)
    (hchk : (vex_seen_check node.seen (vex_packet_decode raw len pkt0).2.packet_id
      now_check).1 = 0)
    (hrelay : node.relay_enabled ≠ 0)
    (httl : 2 ≤ (vex_packet_decode raw len pkt0).2.ttl) :
    ∃ call,
      (vex_mesh_receive P node raw len source_fd now_check now_add pkt0 relay_pkt0 wire0
        W).sends = [call] ∧
      call.except_fd = source_fd ∧
      call.data = (vex_packet_encode { (vex_packet_decode raw len relay_pkt0).2 with
        ttl := ((vex_packet_decode raw len relay_pkt0).2.ttl - 1) % 256 } wire0
        VEX_MAX_PACKET).2 ∧
      call.len = VEX_HEADER_SIZE + (vex_packet_decode raw len relay_pkt0).2.payload_len ∧
      call.result = vex_transport_send_to_all
        (received_node node (vex_packet_decode raw len pkt0).2.packet_id now_check now_add)
        call.data call.len source_fd W ∧
      (vex_mesh_receive P node raw len source_fd now_check now_add pkt0 relay_pkt0 wire0
        W).ret = call.result.sent ∧
      (vex_mesh_receive P node raw len source_fd now_check now_add pkt0 relay_pkt0 wire0
        W).node.peers = call.result.peers ∧
      (vex_mesh_receive P node raw len source_fd now_check now_add pkt0 relay_pkt0 wire0
        W).node.packets_relayed = (node.packets_relayed + 1) % 2 ^ 64 := by
  obtain ⟨hd2, ht2, _⟩ := decode_other_local raw len pkt0 relay_pkt0 hdec
  rw [receive_fresh P node raw len source_fd now_check now_add pkt0 relay_pkt0 wire0 W hdec hchk]
  simp only [if_pos hrelay]
  rw [vex_mesh_relay_forward _ raw len source_fd relay_pkt0 wire0 W hd2 (by rw [ht2]; exact httl)]
  exact ⟨_, rfl, rfl, rfl, rfl, rfl, rfl, rfl, rfl⟩

theorem sample_node_fresh (id : List Nat) :
    ∀ e ∈ sample_node.seen.entries, e.active ≠ 0 → memcmp e.packet_id id 8 ≠ 0 := by
  intro e he ha
  have he2 : e ∈ List.replicate VEX_SEEN_CAPACITY zero_entry := he
  rw [List.eq_of_mem_replicate he2] at ha
  exact absurd rfl ha

theorem sample_node_check (id : List Nat) (now : Int) :
    (vex_seen_check sample_node.seen id now).1 = 0 :=
  check_fresh sample_node.seen id now (sample_node_fresh id)

theorem sample_node_inv : seen_inv sample_node.seen := seen_inv_init ⟨[], 0⟩

theorem sample_init_ids :
    ∀ e ∈ (vex_seen_init ⟨[], 0⟩).entries, e.packet_id.length = 8 := by
  intro e he
  have he2 : e ∈ List.replicate VEX_SEEN_CAPACITY zero_entry := he
  rw [List.eq_of_mem_replicate he2]
  rfl

theorem sample_later_clock :
    ∀ op ∈ [seen_op.check sample_id_b 10, seen_op.prune 20],
      (∀ (pid : List Nat) (now : Int), op ≠ .add pid now) ∧ op.clock ≤ 30 :=
  fun op ho => ⟨(sample_later_ok op ho).1, (sample_later_ok op ho).2.2⟩

theorem sample_sender_later_seen :
    sample_sender_later.seen =
      seen_run (vex_mesh_send sample_nacl sample_node sample_message 0 sample_nonce sample_salt
        zero_packet zero_wire sample_writes).node.seen
        [seen_op.check sample_id_b 10, seen_op.prune 20] := by
  unfold sample_sender_later
  rfl

theorem sample_cipher_frame_id :
    (vex_packet_decode sample_cipher_frame 54 zero_packet).2.packet_id =
      (sent_packet sample_nacl sample_node sample_message sample_nonce sample_salt
        zero_packet).packet_id := by
  decide

/-! ## Claims on the packet codec -/

/-- C1: a packet with version `0x01` and `payload_len ≤ 501` encodes into a
512-byte buffer with result `11 + payload_len`, and decoding those bytes
succeeds and gives back the version, packet id, ttl, flags, payload length
and the first `payload_len` payload bytes. -/
theorem decode_encode_roundtrip (p pkt0 : vex_packet_t) (buf : List Nat)
    (hv : p.version = VEX_VERSION) (hl : p.payload_len ≤ VEX_MAX_PAYLOAD)
    (hid : p.packet_id.length = 8) (hpay : p.payload.length = VEX_MAX_PAYLOAD)
    (hbuf : buf.length = VEX_MAX_PACKET) (hid0 : pkt0.packet_id.length = 8) :
    ∃ out q,
      vex_packet_encode p buf VEX_MAX_PACKET =
        (((VEX_HEADER_SIZE + p.payload_len : Nat) : Int), out) ∧
      vex_packet_decode (out.take (VEX_HEADER_SIZE + p.payload_len))
        (VEX_HEADER_SIZE + p.payload_len) pkt0 = (0, q) ∧
      q.version = p.version ∧ q.packet_id = p.packet_id ∧ q.ttl = p.ttl ∧
      q.flags = p.flags ∧ q.payload_len = p.payload_len ∧
      q.payload.take p.payload_len = p.payload.take p.payload_len := by
  have hl' : p.payload_len ≤ 501 := by simpa [VEX_MAX_PAYLOAD, VEX_MAX_PACKET, VEX_HEADER_SIZE] using hl
  have hpay' : p.payload.length = 501 := by simpa [VEX_MAX_PAYLOAD, VEX_MAX_PACKET, VEX_HEADER_SIZE] using hpay
  have henc := vex_packet_encode_ok p buf VEX_MAX_PACKET
    (by simp only [VEX_HEADER_SIZE, VEX_MAX_PACKET]; omega)
    (by simp only [VEX_HEADER_SIZE, VEX_MAX_PACKET]; omega) hv (by omega) (by omega)
  obtain ⟨i0, i1, i2, i3, i4, i5, i6, i7, hi⟩ := exists_eight_exact p.packet_id hid
  have htk : (p.payload.take p.payload_len).length = p.payload_len := by
    rw [List.length_take]; omega
  have hout : (encoded p buf).take (VEX_HEADER_SIZE + p.payload_len) =
      p.version :: i0 :: i1 :: i2 :: i3 :: i4 :: i5 :: i6 :: i7 :: p.ttl :: p.flags ::
        p.payload.take p.payload_len := by
    unfold encoded
    rw [hi, show VEX_HEADER_SIZE + p.payload_len = p.payload_len + 11 by
      simp only [VEX_HEADER_SIZE]; omega]
    simp only [List.take, List.cons_append, List.nil_append, List.take_succ_cons]
    simp only [List.cons.injEq, true_and]
    exact List.take_left' htk
  refine ⟨encoded p buf, decoded ((encoded p buf).take (VEX_HEADER_SIZE + p.payload_len)) (VEX_HEADER_SIZE + p.payload_len) pkt0, henc, ?_, ?_⟩
  · apply vex_packet_decode_ok
    · omega
    · rw [hout]; simpa using hv
    · simp only [VEX_MAX_PAYLOAD, VEX_MAX_PACKET, VEX_HEADER_SIZE]; omega
  · rw [hout]
    unfold decoded
    have hmod : p.payload_len % 65536 = p.payload_len := Nat.mod_eq_of_lt (by omega)
    have hd0 : List.drop 8 pkt0.packet_id = [] := List.drop_eq_nil_of_le (by omega)
    simp only [VEX_HEADER_SIZE, Nat.add_sub_cancel_left, hmod, List.drop_succ_cons, List.drop_zero,
      List.take_succ_cons, List.take_zero, List.getD_cons_zero, List.getD_cons_succ, hd0, hi,
      List.cons_append, List.nil_append, List.take_take, Nat.min_self, true_and,
      List.append_nil]
    exact List.take_left' htk

/-- C2: a byte sequence `f` with `11 ≤ |f| ≤ 512` and first byte `0x01`
decodes successfully, and encoding the decoded packet into a 512-byte buffer
returns `|f|` and writes exactly the bytes of `f` (the rest of the buffer is
untouched). -/
theorem encode_decode_roundtrip (f buf : List Nat) (pkt0 : vex_packet_t)
    (h11 : VEX_HEADER_SIZE ≤ f.length) (h512 : f.length ≤ VEX_MAX_PACKET)
    (h0 : f.getD 0 0 = VEX_VERSION) (hbuf : buf.length = VEX_MAX_PACKET) :
    ∃ q out,
      vex_packet_decode f f.length pkt0 = (0, q) ∧
      vex_packet_encode q buf VEX_MAX_PACKET = ((f.length : Int), out) ∧
      out.take f.length = f ∧ out.drop f.length = buf.drop f.length := by
  simp only [VEX_HEADER_SIZE, VEX_MAX_PACKET] at h11 h512 hbuf
  obtain ⟨a0, a1, a2, a3, a4, a5, a6, a7, a8, a9, a10, r, rfl⟩ := exists_eleven f h11
  have hlen : (a0 :: a1 :: a2 :: a3 :: a4 :: a5 :: a6 :: a7 :: a8 :: a9 :: a10 :: r).length =
      r.length + 11 := by simp
  have hr : r.length ≤ 501 := by omega
  have hmod : (r.length + 11 - VEX_HEADER_SIZE) % 65536 = r.length := by
    simp only [VEX_HEADER_SIZE, Nat.add_sub_cancel]
    exact Nat.mod_eq_of_lt (by omega)
  have hdec := vex_packet_decode_ok
    (a0 :: a1 :: a2 :: a3 :: a4 :: a5 :: a6 :: a7 :: a8 :: a9 :: a10 :: r) (r.length + 11) pkt0
    (by simp only [VEX_HEADER_SIZE]; omega) h0
    (by rw [hmod]; simp only [VEX_MAX_PAYLOAD, VEX_MAX_PACKET, VEX_HEADER_SIZE]; omega)
  rw [hlen]
  obtain ⟨q, hqd⟩ : ∃ q : vex_packet_t, q =
      { version := a0
        packet_id := a1 :: a2 :: a3 :: a4 :: a5 :: a6 :: a7 :: a8 :: pkt0.packet_id.drop 8
        ttl := a9
        flags := a10
        payload := r ++ pkt0.payload.drop r.length
        payload_len := r.length } := ⟨_, rfl⟩
  have hq : decoded (a0 :: a1 :: a2 :: a3 :: a4 :: a5 :: a6 :: a7 :: a8 :: a9 :: a10 :: r)
      (r.length + 11) pkt0 = q := by
    unfold decoded
    rw [hmod, hqd]
    simp [VEX_HEADER_SIZE]
  rw [hq] at hdec
  have henc := vex_packet_encode_ok q buf 512
    (by rw [hqd]; simp only [VEX_HEADER_SIZE]; omega)
    (by rw [hqd]; simp only [VEX_HEADER_SIZE, VEX_MAX_PACKET]; omega)
    (by rw [hqd]; simpa using h0) (by omega) (by rw [hqd]; simp)
  refine ⟨q, encoded q buf, hdec, ?_, ?_, ?_⟩
  · simp only [VEX_MAX_PACKET]
    rw [henc, hqd]
    simp only [VEX_HEADER_SIZE]; congr 1; push_cast; omega
  · unfold encoded
    rw [hqd]
    simp [VEX_HEADER_SIZE]
  · unfold encoded
    rw [hqd]
    simp [VEX_HEADER_SIZE, Nat.add_comm]

/-- C3 (the code at the failing input): a frame of 65547 bytes that starts
with `0x01` has `len - 11 = 65536 > VEX_MAX_PAYLOAD`, yet `vex_packet_decode`
returns 0 on it and reports `payload_len = 0`, because the length is narrowed
to `uint16_t` before it is compared with `VEX_MAX_PAYLOAD`. -/
theorem vex_packet_decode_accepts_wrapped_length (pkt0 : vex_packet_t) :
    (1 :: List.replicate 65546 0).length = 65547 ∧
    65547 - VEX_HEADER_SIZE > VEX_MAX_PAYLOAD ∧
    (vex_packet_decode (1 :: List.replicate 65546 0) 65547 pkt0).1 = 0 ∧
    (vex_packet_decode (1 :: List.replicate 65546 0) 65547 pkt0).2.payload_len = 0 := by
  have h := vex_packet_decode_ok (1 :: List.replicate 65546 0) 65547 pkt0
    (by decide) (by rfl) (by decide)
  refine ⟨by rw [List.length_cons, List.length_replicate], by decide, ?_, ?_⟩
  · rw [h]
  · rw [h]; rfl

/-- C4: `vex_packet_encode` returns -1 exactly when `11 + payload_len`
exceeds `buf_len` or 512 or the version is not `0x01`; otherwise it returns
`11 + payload_len` and the buffer holds the version at offset 0, the packet
id at 1..8, ttl at 9, flags at 10 and the payload from offset 11 (nothing
past the frame is touched). -/
theorem vex_packet_encode_spec (p : vex_packet_t) (buf : List Nat) (buf_len : Nat)
    (hb : buf_len ≤ buf.length) (hid : p.packet_id.length = 8)
    (hpay : p.payload.length = VEX_MAX_PAYLOAD) :
    ((vex_packet_encode p buf buf_len).1 = -1 ↔
      VEX_HEADER_SIZE + p.payload_len > buf_len ∨
      VEX_HEADER_SIZE + p.payload_len > VEX_MAX_PACKET ∨
      p.version ≠ VEX_VERSION) ∧
    (¬ (VEX_HEADER_SIZE + p.payload_len > buf_len ∨
        VEX_HEADER_SIZE + p.payload_len > VEX_MAX_PACKET ∨
        p.version ≠ VEX_VERSION) →
      ∃ out, vex_packet_encode p buf buf_len =
          (((VEX_HEADER_SIZE + p.payload_len : Nat) : Int), out) ∧
        out.length = buf.length ∧
        out.getD 0 0 = p.version ∧
        (out.drop 1).take 8 = p.packet_id ∧
        out.getD 9 0 = p.ttl ∧
        out.getD 10 0 = p.flags ∧
        (out.drop VEX_HEADER_SIZE).take p.payload_len = p.payload.take p.payload_len ∧
        out.drop (VEX_HEADER_SIZE + p.payload_len) =
          buf.drop (VEX_HEADER_SIZE + p.payload_len)) := by
  refine ⟨vex_packet_encode_ret p buf buf_len, fun hno => ?_⟩
  have h1 : VEX_HEADER_SIZE + p.payload_len ≤ buf_len := by
    by_contra h; exact hno (Or.inl (by omega))
  have h2 : VEX_HEADER_SIZE + p.payload_len ≤ VEX_MAX_PACKET := by
    by_contra h; exact hno (Or.inr (Or.inl (by omega)))
  have h3 : p.version = VEX_VERSION := by
    by_contra h; exact hno (Or.inr (Or.inr h))
  refine ⟨encoded p buf, vex_packet_encode_ok p buf buf_len h1 h2 h3 hb (by omega), ?_⟩
  obtain ⟨i0, i1, i2, i3, i4, i5, i6, i7, hi⟩ := exists_eight_exact p.packet_id hid
  simp only [VEX_HEADER_SIZE, VEX_MAX_PACKET, VEX_MAX_PAYLOAD] at h1 h2 hpay
  have htk : (p.payload.take p.payload_len).length = p.payload_len := by
    rw [List.length_take]; omega
  unfold encoded
  rw [hi]
  simp only [VEX_HEADER_SIZE, Nat.add_comm 11 p.payload_len, List.cons_append, List.nil_append,
    List.take_succ_cons, List.take_zero, List.drop_succ_cons, List.drop_zero,
    List.getD_cons_zero, List.getD_cons_succ, List.length_cons, List.length_append,
    List.length_drop, htk, true_and]
  refine ⟨by omega, List.take_left' htk, List.drop_left' htk⟩

theorem zero_wire_length : zero_wire.length = VEX_MAX_PACKET :=
  List.length_replicate _ _

theorem zero_packet_id_length : zero_packet.packet_id.length = 8 :=
  List.length_replicate _ _

theorem sample_packet_payload_length : sample_packet.payload.length = VEX_MAX_PAYLOAD := by
  unfold sample_packet
  simp only [List.length_append, List.length_replicate, List.length_cons, List.length_nil]
  rfl

theorem decode_encode_roundtrip_witness :
    ∃ out q,
      vex_packet_encode sample_packet zero_wire VEX_MAX_PACKET =
        (((VEX_HEADER_SIZE + sample_packet.payload_len : Nat) : Int), out) ∧
      vex_packet_decode (out.take (VEX_HEADER_SIZE + sample_packet.payload_len))
        (VEX_HEADER_SIZE + sample_packet.payload_len) zero_packet = (0, q) ∧
      q.version = sample_packet.version ∧ q.packet_id = sample_packet.packet_id ∧
      q.ttl = sample_packet.ttl ∧ q.flags = sample_packet.flags ∧
      q.payload_len = sample_packet.payload_len ∧
      q.payload.take sample_packet.payload_len =
        sample_packet.payload.take sample_packet.payload_len :=
  decode_encode_roundtrip sample_packet zero_packet zero_wire rfl (by decide) rfl
    sample_packet_payload_length zero_wire_length zero_packet_id_length

theorem encode_decode_roundtrip_witness :
    ∃ q out,
      vex_packet_decode sample_frame sample_frame.length zero_packet = (0, q) ∧
      vex_packet_encode q zero_wire VEX_MAX_PACKET = ((sample_frame.length : Int), out) ∧
      out.take sample_frame.length = sample_frame ∧
      out.drop sample_frame.length = zero_wire.drop sample_frame.length :=
  encode_decode_roundtrip sample_frame zero_wire zero_packet (by decide) (by decide) rfl
    zero_wire_length

theorem vex_packet_encode_spec_witness :
    ∃ out, vex_packet_encode sample_packet zero_wire 512 =
        (((VEX_HEADER_SIZE + sample_packet.payload_len : Nat) : Int), out) ∧
      out.length = zero_wire.length ∧
      out.getD 0 0 = sample_packet.version ∧
      (out.drop 1).take 8 = sample_packet.packet_id ∧
      out.getD 9 0 = sample_packet.ttl ∧
      out.getD 10 0 = sample_packet.flags ∧
      (out.drop VEX_HEADER_SIZE).take sample_packet.payload_len =
        sample_packet.payload.take sample_packet.payload_len ∧
      out.drop (VEX_HEADER_SIZE + sample_packet.payload_len) =
        zero_wire.drop (VEX_HEADER_SIZE + sample_packet.payload_len) :=
  (vex_packet_encode_spec sample_packet zero_wire 512 (le_of_eq zero_wire_length.symm) rfl
    sample_packet_payload_length).2 (by decide)

/-! ## Claims on the seen cache -/

/-- C5: in a cache reached from `vex_seen_init`, for an 8-byte id that no
active entry holds, after `vex_seen_add(id)` at clock `t` and any later
`vex_seen_check` and `vex_seen_prune` calls (no add) at clocks in `[t, t2]`,
`vex_seen_check(id)` at clock `t2` returns 1 exactly when `t2 - t ≤ 60` and 0
exactly when `t2 - t > 60`. -/
theorem seen_check_after_add (c0 : vex_seen_cache_t) (ops later : List seen_op)
    (id : List Nat) (t t2 : Int) (hid : id.length = 8)
    (hfresh : ∀ e ∈ (seen_run (vex_seen_init c0) ops).entries,
      e.active ≠ 0 → memcmp e.packet_id id 8 ≠ 0)
    (hlater : ∀ op ∈ later,
      (∀ (pid : List Nat) (now : Int), op ≠ .add pid now) ∧ t ≤ op.clock ∧ op.clock ≤ t2) :
    ((vex_seen_check (seen_run (vex_seen_add (seen_run (vex_seen_init c0) ops) id t) later)
        id t2).1 = 1 ↔ t2 - t ≤ VEX_SEEN_TTL_SEC) ∧
    ((vex_seen_check (seen_run (vex_seen_add (seen_run (vex_seen_init c0) ops) id t) later)
        id t2).1 = 0 ↔ t2 - t > VEX_SEEN_TTL_SEC) := by
  have hinv : seen_inv (seen_run (vex_seen_init c0) ops) :=
    seen_inv_run ops _ (seen_inv_init c0)
  generalize seen_run (vex_seen_init c0) ops = c at hinv hfresh ⊢
  obtain ⟨k, old, hkc, hknew, hother⟩ := add_slot c id t hinv
  have hw := seen_weaker_run t2 later (vex_seen_add c id t)
    (fun op ho => ⟨(hlater op ho).1, (hlater op ho).2.2⟩)
  generalize seen_run (vex_seen_add c id t) later = c2 at hw ⊢
  obtain ⟨w1, w2, w3⟩ := hw
  have hret := check_loop_ret id t2 c2.entries c2.count.toNat
  have hyes : t2 - t ≤ VEX_SEEN_TTL_SEC → (vex_seen_check c2 id t2).1 = 1 := by
    intro hle
    have hk2 : c2.entries[k]? =
        some { packet_id := memcpy old.packet_id 0 id 8, timestamp := t, active := 1 } := by
      rcases w3 k _ hknew with h | ⟨_, h2, _⟩
      · exact h
      · exact absurd h2 (by simp only [gt_iff_lt, not_lt]; exact hle)
    simp only [vex_seen_check]
    refine check_loop_found id t2 c2.entries c2.count.toNat k _ ?_ hk2 ⟨by simp, ?_⟩
      (memcmp_memcpy_id old.packet_id id hid)
    · rw [w1]; omega
    · simp only [gt_iff_lt, not_lt]; exact hle
  have hno : t2 - t > VEX_SEEN_TTL_SEC → (vex_seen_check c2 id t2).1 = 0 := by
    intro hgt
    simp only [vex_seen_check]
    apply check_loop_none
    intro j e2 _ hj hlive
    have hjl : j < (vex_seen_add c id t).entries.length := by
      rw [← w2]
      by_contra hcon
      rw [List.getElem?_eq_none (by omega)] at hj
      exact Option.noConfusion hj
    have he1 : c2.entries[j]? = some (vex_seen_add c id t).entries[j] := by
      rcases w3 j _ (List.getElem?_eq_getElem hjl) with h | ⟨_, _, h3⟩
      · exact h
      · rw [h3] at hj
        simp only [Option.some.injEq] at hj
        subst hj
        exact absurd rfl hlive.1
    rw [he1] at hj
    simp only [Option.some.injEq] at hj
    by_cases hjk : j = k
    · subst hjk
      rw [List.getElem?_eq_getElem hjl] at hknew
      simp only [Option.some.injEq] at hknew
      rw [hknew] at hj
      subst hj
      exact absurd hgt hlive.2
    · have hc := hother j hjk
      rw [List.getElem?_eq_getElem hjl, hj] at hc
      exact hfresh e2 (List.getElem?_mem hc.symm) hlive.1
  simp only [vex_seen_check] at hyes hno ⊢
  constructor
  · constructor
    · intro h1
      by_contra hcon
      have := hno (by omega)
      omega
    · exact hyes
  · constructor
    · intro h0
      by_contra hcon
      have := hyes (by omega)
      omega
    · exact hno

/-- C6 (counterexample): from an initialised cache, `vex_seen_add` of one id at
clock 0 followed by 1000 `vex_seen_add` calls of another id, all at clock 0,
leaves the first id unseen: `vex_seen_check` at clock 0 returns 0, the 1000th
add having evicted it as the oldest entry of a full cache. -/
theorem seen_eviction_counterexample :
    sample_id_b ≠ sample_id_a ∧ sample_id_a.length = 8 ∧ sample_id_b.length = 8 ∧
    (0 : Int) - 0 < VEX_SEEN_TTL_SEC ∧
    (vex_seen_check
      (seen_run (vex_seen_add (vex_seen_init ⟨[], 0⟩) sample_id_a 0)
        (List.replicate 1000 (seen_op.add sample_id_b 0)))
      sample_id_a 0).1 = 0 := by
  refine ⟨by decide, rfl, rfl, by decide, ?_⟩
  rw [sample_full]
  apply check_none_of_all
  intro e he
  have he2 : e = sample_entry_b := by
    rcases List.mem_cons.mp he with h | h
    · exact h
    · exact List.eq_of_mem_replicate h
  rw [he2]
  decide

/-- C6 (amended): after `vex_seen_add(id)` at clock `t`, for every sequence of
later add, check and prune calls at clocks in `[t, t2]` in which each add
finds an inactive or expired slot, `vex_seen_check(id)` at clock `t2` with
`t2 - t < 60` returns 1. -/
theorem seen_check_within_window (c0 : vex_seen_cache_t) (ops later : List seen_op)
    (id : List Nat) (t t2 : Int) (hid : id.length = 8)
    (hclock : ∀ op ∈ later, t ≤ op.clock ∧ op.clock ≤ t2)
    (hwin : t2 - t < VEX_SEEN_TTL_SEC)
    (hfree : adds_find_free (vex_seen_add (seen_run (vex_seen_init c0) ops) id t) later) :
    (vex_seen_check (seen_run (vex_seen_add (seen_run (vex_seen_init c0) ops) id t) later)
      id t2).1 = 1 := by
  have hinv : seen_inv (seen_run (vex_seen_init c0) ops) :=
    seen_inv_run ops _ (seen_inv_init c0)
  generalize seen_run (vex_seen_init c0) ops = c at hinv hfree ⊢
  obtain ⟨k, old, hkc, hknew, _⟩ := add_slot c id t hinv
  obtain ⟨h1, h2⟩ := seen_keeps_entry k _ t t2 rfl (by simp) hwin later (vex_seen_add c id t)
    (seen_inv_add c id t hinv) hclock hfree hknew hkc
  simp only [vex_seen_check]
  refine check_loop_found id t2 _ _ k _ ?_ h1 ⟨by simp, ?_⟩
    (memcmp_memcpy_id old.packet_id id hid)
  · omega
  · simp only [VEX_SEEN_TTL_SEC] at hwin ⊢
    omega

/-- C7: every cache reached from `vex_seen_init` by add, check and prune calls
at any clocks has `0 ≤ count ≤ 1000`, an array of `VEX_SEEN_CAPACITY` entries,
every active entry at an index below `count`, and so at most
`VEX_SEEN_CAPACITY` active entries. -/
theorem seen_count_invariant (c0 : vex_seen_cache_t) (ops : List seen_op) :
    0 ≤ (seen_run (vex_seen_init c0) ops).count ∧
    (seen_run (vex_seen_init c0) ops).count ≤ 1000 ∧
    (seen_run (vex_seen_init c0) ops).entries.length = VEX_SEEN_CAPACITY ∧
    (∀ (i : Nat) (e : vex_seen_entry_t),
      (seen_run (vex_seen_init c0) ops).entries[i]? = some e → e.active ≠ 0 →
      (i : Int) < (seen_run (vex_seen_init c0) ops).count) ∧
    ((seen_run (vex_seen_init c0) ops).entries.filter (fun e => decide (e.active ≠ 0))).length
      ≤ VEX_SEEN_CAPACITY := by
  obtain ⟨hlen, h0, h1, hact⟩ := seen_inv_run ops _ (seen_inv_init c0)
  refine ⟨h0, h1, hlen, hact, ?_⟩
  rw [← hlen]
  exact List.length_filter_le _ _

theorem seen_check_after_add_witness :
    ((vex_seen_check
        (seen_run (vex_seen_add (seen_run (vex_seen_init ⟨[], 0⟩) []) sample_id_a 0)
          [seen_op.check sample_id_b 10, seen_op.prune 20])
        sample_id_a 30).1 = 1 ↔ (30 : Int) - 0 ≤ VEX_SEEN_TTL_SEC) ∧
    ((vex_seen_check
        (seen_run (vex_seen_add (seen_run (vex_seen_init ⟨[], 0⟩) []) sample_id_a 0)
          [seen_op.check sample_id_b 10, seen_op.prune 20])
        sample_id_a 30).1 = 0 ↔ (30 : Int) - 0 > VEX_SEEN_TTL_SEC) :=
  seen_check_after_add ⟨[], 0⟩ [] [seen_op.check sample_id_b 10, seen_op.prune 20]
    sample_id_a 0 30 rfl sample_init_fresh sample_later_ok

theorem seen_check_within_window_witness :
    (vex_seen_check
      (seen_run (vex_seen_add (seen_run (vex_seen_init ⟨[], 0⟩) []) sample_id_a 0)
        [seen_op.add sample_id_b 10, seen_op.check sample_id_a 20, seen_op.prune 30])
      sample_id_a 59).1 = 1 :=
  seen_check_within_window ⟨[], 0⟩ []
    [seen_op.add sample_id_b 10, seen_op.check sample_id_a 20, seen_op.prune 30]
    sample_id_a 0 59 rfl sample_traffic_clock (by decide) sample_traffic_free

/-! ## Claims on relay and fan-out -/

/-- Relay of a frame shorter than 65536 bytes: when the raw frame of `len`
bytes decodes successfully with ttl at least 2, the frame `vex_mesh_relay`
hands to `vex_transport_send_to_all` has length `len`, its byte at offset 9 is
the input ttl minus 1, and every other byte equals the input byte; `raw` holds
`len` bytes and `wire` is the 512-byte local buffer. For a frame of 65547
bytes the length is not kept. -/
theorem relay_frame_effect (node : vex_node_t) (raw : List Nat) (len : Nat)
    (source_fd : Int) (pkt0 : vex_packet_t) (wire0 : List Nat) (W : Nat → write_outcome)
    (hraw : len ≤ raw.length) (hbytes : ∀ b ∈ raw, b < 256) (hfit : len < 65536)
    (hwire : wire0.length = VEX_MAX_PACKET)
    (hdec : (vex_packet_decode raw len pkt0).1 = 0)
    (httl : 2 ≤ (vex_packet_decode raw len pkt0).2.ttl) :
    ∃ call, (vex_mesh_relay node raw len source_fd pkt0 wire0 W).sends = [call] ∧
      call.len = len ∧
      call.data.take call.len = (raw.take len).set 9 (raw.getD 9 0 - 1) ∧
      (call.data.take call.len).length = len ∧
      (call.data.take call.len).getD 9 0 + 1 = raw.getD 9 0 ∧
      ∀ i, i < len → i ≠ 9 → (call.data.take call.len)[i]? = raw[i]? := by
  obtain ⟨hl, ht, hbytes⟩ := relay_wire_bytes raw len pkt0 wire0 hraw hbytes hfit hwire hdec
  rw [vex_mesh_relay_forward node raw len source_fd pkt0 wire0 W hdec httl]
  refine ⟨_, rfl, hl, ?_⟩
  simp only [hl, hbytes]
  have h11 : 11 ≤ len := (vex_packet_decode_eq raw len pkt0 hdec).1
  rw [ht] at httl
  refine ⟨trivial, ?_, ?_, ?_⟩
  · rw [List.length_set, List.length_take]; omega
  · rw [List.getD_eq_getElem?_getD, List.getElem?_set_self (by rw [List.length_take]; omega)]
    simp only [Option.getD_some]
    omega
  · intro i hi h9
    rw [List.getElem?_set_ne (Ne.symm h9), List.getElem?_take_of_lt hi]

/-- C8: a raw frame of 65547 bytes (an 11-byte header with ttl 7, then 65536
payload bytes) decodes successfully with ttl 7, yet the frame `vex_mesh_relay`
hands to `vex_transport_send_to_all` is 11 bytes long, not 65547: the header
with ttl 6 and none of the payload. The decoded `payload_len` is
`(len - 11) mod 2^16 = 0`, and the relay encodes the decoded packet. -/
theorem relay_truncates_wrapped_frame (node : vex_node_t) (source_fd : Int)
    (W : Nat → write_outcome) :
    sample_wrapped_frame.length = 65547 ∧
    (∀ b ∈ sample_wrapped_frame, b < 256) ∧
    (vex_packet_decode sample_wrapped_frame 65547 zero_packet).1 = 0 ∧
    (vex_packet_decode sample_wrapped_frame 65547 zero_packet).2.ttl = 7 ∧
    ∃ call,
      (vex_mesh_relay node sample_wrapped_frame 65547 source_fd zero_packet zero_wire
        W).sends = [call] ∧
      call.except_fd = source_fd ∧
      call.len = 11 ∧
      call.len ≠ sample_wrapped_frame.length ∧
      call.data.take call.len = [1, 1, 2, 3, 4, 5, 6, 7, 8, 6, 3] := by
  have hlen : sample_wrapped_frame.length = 65547 := by
    unfold sample_wrapped_frame
    rw [List.length_append, List.length_replicate]
    rfl
  have h := vex_packet_decode_ok sample_wrapped_frame 65547 zero_packet
    (by decide) (by rfl) (by decide)
  have hdec : (vex_packet_decode sample_wrapped_frame 65547 zero_packet).1 = 0 := by rw [h]
  have httl : (vex_packet_decode sample_wrapped_frame 65547 zero_packet).2.ttl = 7 := by
    rw [h]; rfl
  have hpl : (vex_packet_decode sample_wrapped_frame 65547 zero_packet).2.payload_len = 0 := by
    rw [h]; rfl
  have hid : (vex_packet_decode sample_wrapped_frame 65547 zero_packet).2.packet_id =
      [1, 2, 3, 4, 5, 6, 7, 8] := by
    rw [h]; rfl
  have hver : (vex_packet_decode sample_wrapped_frame 65547 zero_packet).2.version = 1 := by
    rw [h]; rfl
  have hfl : (vex_packet_decode sample_wrapped_frame 65547 zero_packet).2.flags = 3 := by
    rw [h]; rfl
  refine ⟨hlen, ?_, hdec, httl, ?_⟩
  · intro b hb
    unfold sample_wrapped_frame at hb
    rcases List.mem_append.mp hb with h1 | h1
    · exact (by decide : ∀ x ∈ [1, 1, 2, 3, 4, 5, 6, 7, 8, 7, 3], x < 256) b h1
    · rw [List.eq_of_mem_replicate h1]; decide
  · rw [vex_mesh_relay_forward node sample_wrapped_frame 65547 source_fd zero_packet zero_wire W
      hdec (by rw [httl]; decide)]
    refine ⟨_, rfl, rfl, ?_, ?_, ?_⟩
    · show VEX_HEADER_SIZE + _ = 11
      rw [hpl]; rfl
    · show VEX_HEADER_SIZE + _ ≠ _
      rw [hpl, hlen]; decide
    · show List.take (VEX_HEADER_SIZE + _) _ = _
      rw [hpl]
      unfold vex_packet_encode
      simp only [hpl, hver, httl, hid, hfl]
      decide

/-- C9: for a raw frame that decodes successfully, `vex_mesh_relay` calls
`vex_transport_send_to_all` (once, excluding `source_fd`) and adds one to
`packets_relayed` when the ttl is at least 2, leaving the other counters
alone; when the ttl is 0 or 1 it returns 0, makes no call and leaves the node
unchanged. -/
theorem relay_ttl_gate (node : vex_node_t) (raw : List Nat) (len : Nat)
    (source_fd : Int) (pkt0 : vex_packet_t) (wire0 : List Nat) (W : Nat → write_outcome)
    (hdec : (vex_packet_decode raw len pkt0).1 = 0) :
    (2 ≤ (vex_packet_decode raw len pkt0).2.ttl →
      ∃ call, (vex_mesh_relay node raw len source_fd pkt0 wire0 W).sends = [call] ∧
        call.except_fd = source_fd ∧
        call.result = vex_transport_send_to_all node call.data call.len source_fd W ∧
        (vex_mesh_relay node raw len source_fd pkt0 wire0 W).ret = call.result.sent ∧
        (vex_mesh_relay node raw len source_fd pkt0 wire0 W).node.packets_relayed =
          (node.packets_relayed + 1) % 2 ^ 64 ∧
        (node.packets_relayed + 1 < 2 ^ 64 →
          (vex_mesh_relay node raw len source_fd pkt0 wire0 W).node.packets_relayed =
            node.packets_relayed + 1) ∧
        (vex_mesh_relay node raw len source_fd pkt0 wire0 W).node.packets_sent =
          node.packets_sent ∧
        (vex_mesh_relay node raw len source_fd pkt0 wire0 W).node.packets_received =
          node.packets_received ∧
        (vex_mesh_relay node raw len source_fd pkt0 wire0 W).node.packets_dropped =
          node.packets_dropped) ∧
    ((vex_packet_decode raw len pkt0).2.ttl ≤ 1 →
      (vex_mesh_relay node raw len source_fd pkt0 wire0 W).ret = 0 ∧
      (vex_mesh_relay node raw len source_fd pkt0 wire0 W).sends = [] ∧
      (vex_mesh_relay node raw len source_fd pkt0 wire0 W).node = node) := by
  constructor
  · intro httl
    rw [vex_mesh_relay_forward node raw len source_fd pkt0 wire0 W hdec httl]
    exact ⟨_, rfl, rfl, rfl, rfl, rfl, fun h => Nat.mod_eq_of_lt h, rfl, rfl, rfl⟩
  · intro httl
    unfold vex_mesh_relay
    simp only [hdec, ne_eq, not_true_eq_false, if_false, httl, if_true, and_self]

/-- C10: whatever the per-peer writes return, `vex_transport_send_to_all` calls
`vex_transport_send_to_peer` exactly once on each slot below `VEX_MAX_PEERS`
that is active with a descriptor other than `except_fd`, on no other slot,
and returns the number of those calls that returned 0; no system call is made
on descriptor `except_fd`, and a slot holding `except_fd` is never called. -/
theorem send_to_all_spec (node : vex_node_t) (data : List Nat) (len : Nat) (except_fd : Int)
    (W : Nat → write_outcome) :
    ((vex_transport_send_to_all node data len except_fd W).calls.map peer_call.slot).Nodup ∧
    (∀ i, i ∈ (vex_transport_send_to_all node data len except_fd W).calls.map peer_call.slot ↔
      send_target node.peers except_fd i) ∧
    (∀ c ∈ (vex_transport_send_to_all node data len except_fd W).calls,
      ∃ p, node.peers[c.slot]? = some p ∧
        c.ret = (vex_transport_send_to_peer p data len (W c.slot)).ret ∧
        c.io = (vex_transport_send_to_peer p data len (W c.slot)).io) ∧
    (vex_transport_send_to_all node data len except_fd W).sent =
      (((vex_transport_send_to_all node data len except_fd W).calls.filter
        (fun c => decide (c.ret = 0))).length : Int) ∧
    (∀ c ∈ (vex_transport_send_to_all node data len except_fd W).calls,
      ∀ ev ∈ c.io, ev.fd ≠ except_fd) ∧
    (∀ (i : Nat) (p : vex_peer_t), node.peers[i]? = some p → p.fd = except_fd →
      i ∉ (vex_transport_send_to_all node data len except_fd W).calls.map peer_call.slot) := by
  have hcalls := send_loop_calls data len except_fd W node.peers VEX_MAX_PEERS 0
  have hiff : ∀ i,
      i ∈ (vex_transport_send_to_all node data len except_fd W).calls.map peer_call.slot ↔
        send_target node.peers except_fd i := by
    intro i
    constructor
    · intro hmem
      obtain ⟨c, hc, hcs⟩ := List.mem_map.mp hmem
      obtain ⟨_, h2, p, h3, h4, h5, _⟩ := hcalls c hc
      subst hcs
      exact ⟨by omega, p, by simpa using h3, h4, h5⟩
    · intro ht
      obtain ⟨h1, p, h2, h3, h4⟩ := ht
      exact send_loop_mem data len except_fd W node.peers VEX_MAX_PEERS 0 i (Nat.zero_le _)
        (by omega) ⟨p, by simpa using h2, h3, h4⟩
  refine ⟨send_loop_nodup data len except_fd W node.peers VEX_MAX_PEERS 0, hiff, ?_,
    send_loop_sent data len except_fd W node.peers VEX_MAX_PEERS 0, ?_, ?_⟩
  · intro c hc
    obtain ⟨_, _, p, h3, _, _, h6, h7⟩ := hcalls c hc
    exact ⟨p, by simpa using h3, h6, h7⟩
  · intro c hc ev hev
    obtain ⟨_, _, p, _, _, h5, _, h7⟩ := hcalls c hc
    rw [h7] at hev
    rw [send_to_peer_io_fd p data len (W c.slot) ev hev]
    exact h5
  · intro i p hp hfd hmem
    obtain ⟨_, q, hq, _, hqf⟩ := (hiff i).mp hmem
    rw [hp] at hq
    simp only [Option.some.injEq] at hq
    subst hq
    exact hqf hfd

theorem relay_frame_effect_witness :
    ∃ call, (vex_mesh_relay sample_node sample_frame 14 5 zero_packet zero_wire
        sample_writes).sends = [call] ∧
      call.len = 14 ∧
      call.data.take call.len = (sample_frame.take 14).set 9 (sample_frame.getD 9 0 - 1) ∧
      (call.data.take call.len).length = 14 ∧
      (call.data.take call.len).getD 9 0 + 1 = sample_frame.getD 9 0 ∧
      ∀ i, i < 14 → i ≠ 9 → (call.data.take call.len)[i]? = sample_frame[i]? :=
  relay_frame_effect sample_node sample_frame 14 5 zero_packet zero_wire sample_writes
    (by decide) sample_frame_bytes (by decide) zero_wire_length (by decide) (by decide)

theorem relay_ttl_gate_witness :
    (2 ≤ (vex_packet_decode sample_frame 14 zero_packet).2.ttl →
      ∃ call, (vex_mesh_relay sample_node sample_frame 14 5 zero_packet zero_wire
          sample_writes).sends = [call] ∧
        call.except_fd = 5 ∧
        call.result = vex_transport_send_to_all sample_node call.data call.len 5 sample_writes ∧
        (vex_mesh_relay sample_node sample_frame 14 5 zero_packet zero_wire
          sample_writes).ret = call.result.sent ∧
        (vex_mesh_relay sample_node sample_frame 14 5 zero_packet zero_wire
          sample_writes).node.packets_relayed = (sample_node.packets_relayed + 1) % 2 ^ 64 ∧
        (sample_node.packets_relayed + 1 < 2 ^ 64 →
          (vex_mesh_relay sample_node sample_frame 14 5 zero_packet zero_wire
            sample_writes).node.packets_relayed = sample_node.packets_relayed + 1) ∧
        (vex_mesh_relay sample_node sample_frame 14 5 zero_packet zero_wire
          sample_writes).node.packets_sent = sample_node.packets_sent ∧
        (vex_mesh_relay sample_node sample_frame 14 5 zero_packet zero_wire
          sample_writes).node.packets_received = sample_node.packets_received ∧
        (vex_mesh_relay sample_node sample_frame 14 5 zero_packet zero_wire
          sample_writes).node.packets_dropped = sample_node.packets_dropped) ∧
    ((vex_packet_decode sample_frame 14 zero_packet).2.ttl ≤ 1 →
      (vex_mesh_relay sample_node sample_frame 14 5 zero_packet zero_wire sample_writes).ret = 0 ∧
      (vex_mesh_relay sample_node sample_frame 14 5 zero_packet zero_wire
        sample_writes).sends = [] ∧
      (vex_mesh_relay sample_node sample_frame 14 5 zero_packet zero_wire
        sample_writes).node = sample_node) :=
  relay_ttl_gate sample_node sample_frame 14 5 zero_packet zero_wire sample_writes (by decide)

/-! ## Claims on send, receive, crypto and read -/

/-- C12: on a raw frame that `vex_packet_decode` refuses, `vex_mesh_receive`
returns -1 and the node afterwards is the node before with `packets_dropped`
incremented (modulo 2^64), everything else being unchanged; no decryption is
attempted, nothing is delivered and nothing is sent. -/
theorem receive_malformed (P : nacl_t) (node : vex_node_t) (raw : List Nat) (len : Nat)
    (source_fd : Int) (now_check now_add : Int) (pkt0 relay_pkt0 : vex_packet_t)
    (wire0 : List Nat) (W : Nat → write_outcome)
    (hdec : (vex_packet_decode raw len pkt0).1 = -1) :
    (vex_mesh_receive P node raw len source_fd now_check now_add pkt0 relay_pkt0 wire0 W).ret
      = -1 ∧
    (vex_mesh_receive P node raw len source_fd now_check now_add pkt0 relay_pkt0 wire0 W).node
      = { node with packets_dropped := (node.packets_dropped + 1) % 2 ^ 64 } ∧
    (node.packets_dropped + 1 < 2 ^ 64 →
      (vex_mesh_receive P node raw len source_fd now_check now_add pkt0 relay_pkt0 wire0
        W).node.packets_dropped = node.packets_dropped + 1) ∧
    (vex_mesh_receive P node raw len source_fd now_check now_add pkt0 relay_pkt0 wire0
      W).decrypts = [] ∧
    (vex_mesh_receive P node raw len source_fd now_check now_add pkt0 relay_pkt0 wire0
      W).delivered = [] ∧
    (vex_mesh_receive P node raw len source_fd now_check now_add pkt0 relay_pkt0 wire0
      W).sends = [] := by
  have hne : (vex_packet_decode raw len pkt0).1 ≠ 0 := by rw [hdec]; decide
  unfold vex_mesh_receive
  simp only [hne, ne_eq, not_false_eq_true, if_true, true_and]
  exact ⟨fun h => Nat.mod_eq_of_lt h, trivial⟩

/-- C17: in a cache satisfying the invariant of reachable states, with 8-byte
ids, `vex_seen_add` overwrites exactly one entry, at an index `k < 1000`, with
`(id, now, active)` and leaves every other entry unchanged; `count` becomes
`max(count, k + 1)`; if some slot is inactive or expired, `k` is the lowest
such index; otherwise `k` is the lowest index holding the minimum timestamp. -/
theorem vex_seen_add_placement (c : vex_seen_cache_t) (id : List Nat) (now : Int)
    (hinv : seen_inv c) (hid : id.length = 8)
    (hsz : ∀ e ∈ c.entries, e.packet_id.length = 8) :
    ∃ k, k < VEX_SEEN_CAPACITY ∧
      (vex_seen_add c id now).entries =
        c.entries.set k { packet_id := id, timestamp := now, active := 1 } ∧
      (vex_seen_add c id now).count = max c.count ((k : Int) + 1) ∧
      ((∃ (j : Nat) (e : vex_seen_entry_t), c.entries[j]? = some e ∧ ¬ entry_live e now) →
        (∃ e, c.entries[k]? = some e ∧ ¬ entry_live e now) ∧
        ∀ (j : Nat) (e : vex_seen_entry_t), j < k → c.entries[j]? = some e →
          entry_live e now) ∧
      ((∀ (j : Nat) (e : vex_seen_entry_t), c.entries[j]? = some e → entry_live e now) →
        ∃ ek, c.entries[k]? = some ek ∧
          ∀ (j : Nat) (e : vex_seen_entry_t), c.entries[j]? = some e →
            ek.timestamp ≤ e.timestamp ∧ (j < k → ek.timestamp < e.timestamp)) := by
  obtain ⟨hlen, h0, h1, hact⟩ := hinv
  have h1000 : c.entries.length = 1000 := hlen
  have hbound : ∀ (j : Nat) (e : vex_seen_entry_t), c.entries[j]? = some e → j < 1000 := by
    intro j e hj
    by_contra hcon
    rw [List.getElem?_eq_none (by omega)] at hj
    exact Option.noConfusion hj
  cases hf : vex_seen_add_first id now VEX_SEEN_CAPACITY 0 c.entries with
  | some r =>
    obtain ⟨k, e, hr1, hk, hke, hnl, hbefore, hr2⟩ := add_first_some id now c.entries _ 0 r hf
    have hmc : memcpy e.packet_id 0 id 8 = id :=
      memcpy_id_eq _ _ hid (hsz e (List.getElem?_mem hke))
    rw [add_of_first_some c id now r hf]
    refine ⟨k, hk, ?_, ?_, fun _ => ⟨⟨e, hke, hnl⟩, hbefore⟩, fun hall => absurd (hall k e hke) hnl⟩
    · simp only [hr2, hmc]
    · simp only [hr1, Nat.zero_add]
      split_ifs with hge
      · rw [max_eq_right (by omega)]
      · rw [max_eq_left (by omega)]
  | none =>
    have hall := add_first_none id now c.entries _ 0 hf
    have hlive : ∀ (j : Nat) (e : vex_seen_entry_t), c.entries[j]? = some e →
        entry_live e now := fun j e hj => hall j e (hbound j e hj) hj
    have h0l : 0 < c.entries.length := by omega
    have hspec := add_oldest_spec c.entries (VEX_SEEN_CAPACITY - 1) 1 0
      (c.entries.getD 0 zero_entry).timestamp (c.entries.drop 1) rfl (by omega)
      ⟨c.entries[0], List.getElem?_eq_getElem h0l, by rw [List.getD_eq_getElem _ _ h0l]⟩
      (by
        intro j e hj hje
        have hj0 : j = 0 := by omega
        subst hj0
        rw [List.getElem?_eq_getElem h0l] at hje
        simp only [Option.some.injEq] at hje
        subst hje
        rw [List.getD_eq_getElem _ _ h0l]
        exact ⟨le_refl _, fun h => absurd h (lt_irrefl _)⟩)
    unfold vex_seen_add
    rw [hf]
    simp only []
    generalize vex_seen_add_oldest (VEX_SEEN_CAPACITY - 1) 1 (c.entries.drop 1) 0
      (c.entries.getD 0 zero_entry).timestamp = oi at hspec ⊢
    obtain ⟨er, her, hmin⟩ := hspec
    have hoi : oi < 1000 := hbound oi er her
    have hoil : oi < c.entries.length := by omega
    have hgetD : c.entries.getD oi zero_entry = er := by
      rw [List.getD_eq_getElem?_getD, her]; rfl
    have hmc : memcpy er.packet_id 0 id 8 = id :=
      memcpy_id_eq _ _ hid (hsz er (List.getElem?_mem her))
    have h999 : (999 : Int) < c.count := by
      have h999l : 999 < c.entries.length := by omega
      have := hact 999 c.entries[999] (List.getElem?_eq_getElem h999l)
        (hlive 999 _ (List.getElem?_eq_getElem h999l)).1
      exact_mod_cast this
    refine ⟨oi, hoi, by rw [hgetD, hmc], ?_, ?_, ?_⟩
    · rw [max_eq_left (by omega)]
    · intro hex
      obtain ⟨j, e, hj, hnl⟩ := hex
      exact absurd (hlive j e hj) hnl
    · intro _
      exact ⟨er, her, fun j e hj => hmin j e (by
        have := hbound j e hj
        simp only [VEX_SEEN_CAPACITY]; omega) hj⟩

/-- C14: under the contract of the secretbox pair (`crypto_secretbox` succeeds
with 16 leading zero bytes, `crypto_secretbox_open` inverts it under the same
nonce and key), for every mesh key, every 24-byte nonce and every plaintext
`m` of at most 461 bytes, `vex_crypto_encrypt_broadcast` returns 0 and writes
the nonce followed by the box output without its 16 zero bytes, `|m| + 40`
bytes in all, and `vex_crypto_decrypt_broadcast` on that output returns 0 with
`plain_len = |m|` and plaintext `m`. -/
theorem crypto_roundtrip (P : nacl_t) (hok : secretbox_ok P) (hinv : secretbox_inverse P)
    (node : vex_node_t) (nonce m : List Nat) (hn : nonce.length = 24)
    (hm : m.length ≤ 461) :
    (vex_crypto_encrypt_broadcast P node m m.length nonce).ret = 0 ∧
    (vex_crypto_encrypt_broadcast P node m m.length nonce).out =
      nonce ++ (P.crypto_secretbox (List.replicate 32 0 ++ m)
        (List.replicate 32 0 ++ m).length nonce node.mesh_key).2.drop 16 ∧
    (vex_crypto_encrypt_broadcast P node m m.length nonce).out.length = m.length + 40 ∧
    (vex_crypto_encrypt_broadcast P node m m.length nonce).out_len = m.length + 40 ∧
    vex_crypto_decrypt_broadcast P node
      (vex_crypto_encrypt_broadcast P node m m.length nonce).out
      (vex_crypto_encrypt_broadcast P node m m.length nonce).out_len =
        { ret := 0, out := m, out_len := m.length } := by
  have hlen : (List.replicate 32 0 ++ m).length = 32 + m.length := by
    rw [List.length_append, List.length_replicate]
  obtain ⟨_, h2, _⟩ := hok (List.replicate 32 0 ++ m) nonce node.mesh_key
    (by rw [hlen]; simp only [crypto_secretbox_ZEROBYTES]; omega)
  rw [encrypt_ok P hok node nonce m hn hm]
  refine ⟨rfl, rfl, ?_, rfl, decrypt_encrypted P hok hinv node nonce m hn hm⟩
  show (nonce ++ _).length = _
  rw [List.length_append, List.length_drop, h2, hlen, hn]
  omega

theorem crypto_roundtrip_witness :
    (vex_crypto_encrypt_broadcast sample_nacl sample_node sample_message
      sample_message.length sample_nonce).ret = 0 ∧
    (vex_crypto_encrypt_broadcast sample_nacl sample_node sample_message
      sample_message.length sample_nonce).out =
      sample_nonce ++ (sample_nacl.crypto_secretbox (List.replicate 32 0 ++ sample_message)
        (List.replicate 32 0 ++ sample_message).length sample_nonce
        sample_node.mesh_key).2.drop 16 ∧
    (vex_crypto_encrypt_broadcast sample_nacl sample_node sample_message
      sample_message.length sample_nonce).out.length = sample_message.length + 40 ∧
    (vex_crypto_encrypt_broadcast sample_nacl sample_node sample_message
      sample_message.length sample_nonce).out_len = sample_message.length + 40 ∧
    vex_crypto_decrypt_broadcast sample_nacl sample_node
      (vex_crypto_encrypt_broadcast sample_nacl sample_node sample_message
        sample_message.length sample_nonce).out
      (vex_crypto_encrypt_broadcast sample_nacl sample_node sample_message
        sample_message.length sample_nonce).out_len =
        { ret := 0, out := sample_message, out_len := sample_message.length } :=
  crypto_roundtrip sample_nacl sample_nacl_ok sample_nacl_inverse sample_node sample_nonce
    sample_message (by decide) (by decide)

/-- C13 (counterexample): a message of 402 bytes, which is at most
`MAX_PAYLOAD - 40 = 461` bytes long, is rejected by `vex_mesh_send`: it returns
-1, leaves the node as it was and transmits nothing, although the secretbox
primitive at hand never fails. The length check of the code is
`msg_len > VEX_MAX_PAYLOAD - 100`. -/
theorem send_rejects_402_bytes :
    sample_long_message.length = 402 ∧
    sample_long_message.length ≤ VEX_MAX_PAYLOAD - 40 ∧
    secretbox_ok sample_nacl ∧
    vex_mesh_send sample_nacl sample_node sample_long_message 0 sample_nonce sample_salt
      zero_packet zero_wire sample_writes =
        { ret := -1, node := sample_node, sends := [] } := by
  have hlen : sample_long_message.length = 402 := List.length_replicate _ _
  refine ⟨hlen, ?_, sample_nacl_ok, ?_⟩
  · rw [hlen]; decide
  · exact send_reject _ _ _ _ _ _ _ _ _ (by rw [hlen]; decide)

/-- C13 (amended): with a secretbox primitive that does not fail, a 64-byte
hash, a 24-byte nonce and a packet struct of the declared array sizes,
`vex_mesh_send` returns -1 exactly when the message is longer than
`VEX_MAX_PAYLOAD - 100 = 401` bytes, and then it leaves the node unchanged (no
seen entry, no counter) and transmits nothing; every message of at most 401
bytes is encrypted and handed once to `vex_transport_send_to_all`, with the id
added to the seen cache and a non-negative return value. -/
theorem send_length_gate (P : nacl_t) (hok : secretbox_ok P) (hh : hash_ok P)
    (node : vex_node_t) (message : List Nat) (now : Int) (nonce salt : List Nat)
    (pkt0 : vex_packet_t) (wire0 : List Nat) (W : Nat → write_outcome)
    (hn : nonce.length = 24) (hpk : pkt0.packet_id.length = 8)
    (hpp : pkt0.payload.length = 501) :
    VEX_MAX_PAYLOAD - 100 = 401 ∧
    ((vex_mesh_send P node message now nonce salt pkt0 wire0 W).ret = -1 ↔
      message.length > 401) ∧
    (message.length > 401 →
      vex_mesh_send P node message now nonce salt pkt0 wire0 W =
        { ret := -1, node := node, sends := [] }) ∧
    (message.length ≤ 401 →
      (vex_crypto_encrypt_broadcast P node message (message.length % 65536) nonce).ret = 0 ∧
      0 ≤ (vex_mesh_send P node message now nonce salt pkt0 wire0 W).ret ∧
      (vex_mesh_send P node message now nonce salt pkt0 wire0 W).node.seen =
        vex_seen_add node.seen (sent_packet P node message nonce salt pkt0).packet_id now ∧
      ∃ call, (vex_mesh_send P node message now nonce salt pkt0 wire0 W).sends = [call] ∧
        call.except_fd = -1 ∧
        call.data = (vex_packet_encode (sent_packet P node message nonce salt pkt0) wire0
          VEX_MAX_PACKET).2) := by
  have hacc : message.length ≤ 401 →
      0 ≤ (vex_mesh_send P node message now nonce salt pkt0 wire0 W).ret := by
    intro hL
    rw [send_forward P hok hh node message now nonce salt pkt0 wire0 W hL hn hpk hpp]
    show 0 ≤ (vex_transport_send_to_all_loop _ _ _ _ _ _ _).sent
    rw [send_loop_sent]
    exact Int.ofNat_nonneg _
  refine ⟨by decide, ⟨fun hret => ?_, fun hgt => ?_⟩, fun hgt => ?_, fun hL => ⟨?_, hacc hL, ?_⟩⟩
  · by_contra hcon
    have := hacc (by omega)
    omega
  · rw [send_reject P node message now nonce salt pkt0 wire0 W hgt]
  · exact send_reject P node message now nonce salt pkt0 wire0 W hgt
  · exact (sent_packet_facts P hok hh node message nonce salt pkt0 hL hn hpk hpp).1
  · rw [send_forward P hok hh node message now nonce salt pkt0 wire0 W hL hn hpk hpp]
    exact ⟨rfl, _, rfl, rfl, rfl⟩

theorem send_length_gate_witness :
    VEX_MAX_PAYLOAD - 100 = 401 ∧
    ((vex_mesh_send sample_nacl sample_node sample_message 0 sample_nonce sample_salt
      zero_packet zero_wire sample_writes).ret = -1 ↔ sample_message.length > 401) ∧
    (sample_message.length > 401 →
      vex_mesh_send sample_nacl sample_node sample_message 0 sample_nonce sample_salt
        zero_packet zero_wire sample_writes =
        { ret := -1, node := sample_node, sends := [] }) ∧
    (sample_message.length ≤ 401 →
      (vex_crypto_encrypt_broadcast sample_nacl sample_node sample_message
        (sample_message.length % 65536) sample_nonce).ret = 0 ∧
      0 ≤ (vex_mesh_send sample_nacl sample_node sample_message 0 sample_nonce sample_salt
        zero_packet zero_wire sample_writes).ret ∧
      (vex_mesh_send sample_nacl sample_node sample_message 0 sample_nonce sample_salt
        zero_packet zero_wire sample_writes).node.seen =
        vex_seen_add sample_node.seen
          (sent_packet sample_nacl sample_node sample_message sample_nonce sample_salt
            zero_packet).packet_id 0 ∧
      ∃ call, (vex_mesh_send sample_nacl sample_node sample_message 0 sample_nonce sample_salt
          zero_packet zero_wire sample_writes).sends = [call] ∧
        call.except_fd = -1 ∧
        call.data = (vex_packet_encode
          (sent_packet sample_nacl sample_node sample_message sample_nonce sample_salt
            zero_packet) zero_wire VEX_MAX_PACKET).2) :=
  send_length_gate sample_nacl sample_nacl_ok sample_nacl_hash sample_node sample_message 0
    sample_nonce sample_salt zero_packet zero_wire sample_writes (by decide)
    zero_packet_id_length (List.length_replicate _ _)

/-- C20: for a message of length `L` that passes the length check of
`vex_mesh_send` (with a secretbox primitive that does not fail, a 64-byte
hash, a 24-byte nonce, a packet struct of the declared array sizes and the
512-byte wire buffer), encryption returns 0 and `vex_transport_send_to_all` is
called exactly once, with `except_fd = -1` and a frame of `11 + L + 40 ≤ 512`
bytes that `vex_packet_decode` accepts with version 1, ttl `default_ttl`,
flags 3 and the encryption output as payload; `packets_sent` goes up by one
(modulo 2^64), the other counters stay, and the value returned is the number
of peer writes that succeeded, which is not negative. -/
theorem send_emits_one_frame (P : nacl_t) (hok : secretbox_ok P) (hh : hash_ok P)
    (node : vex_node_t) (message : List Nat) (now : Int) (nonce salt : List Nat)
    (pkt0 pkt1 : vex_packet_t) (wire0 : List Nat) (W : Nat → write_outcome)
    (hL : ¬ message.length > VEX_MAX_PAYLOAD - 100) (hn : nonce.length = 24)
    (hpk : pkt0.packet_id.length = 8) (hpp : pkt0.payload.length = 501)
    (hwire : wire0.length = VEX_MAX_PACKET) (hpk1 : pkt1.packet_id.length = 8) :
    (vex_crypto_encrypt_broadcast P node message (message.length % 65536) nonce).ret = 0 ∧
    ∃ call q,
      (vex_mesh_send P node message now nonce salt pkt0 wire0 W).sends = [call] ∧
      call.except_fd = -1 ∧
      call.len = 11 + message.length + 40 ∧ call.len ≤ 512 ∧
      vex_packet_decode (call.data.take call.len) call.len pkt1 = (0, q) ∧
      q.version = 1 ∧ q.ttl = node.default_ttl ∧ q.flags = 3 ∧
      q.payload_len = message.length + 40 ∧
      q.payload.take q.payload_len =
        (vex_crypto_encrypt_broadcast P node message (message.length % 65536) nonce).out ∧
      (vex_mesh_send P node message now nonce salt pkt0 wire0 W).node.packets_sent =
        (node.packets_sent + 1) % 2 ^ 64 ∧
      (node.packets_sent + 1 < 2 ^ 64 →
        (vex_mesh_send P node message now nonce salt pkt0 wire0 W).node.packets_sent =
          node.packets_sent + 1) ∧
      (vex_mesh_send P node message now nonce salt pkt0 wire0 W).node.packets_received =
        node.packets_received ∧
      (vex_mesh_send P node message now nonce salt pkt0 wire0 W).node.packets_relayed =
        node.packets_relayed ∧
      (vex_mesh_send P node message now nonce salt pkt0 wire0 W).node.packets_dropped =
        node.packets_dropped ∧
      (vex_mesh_send P node message now nonce salt pkt0 wire0 W).ret = call.result.sent ∧
      call.result.sent =
        ((call.result.calls.filter (fun c => decide (c.ret = 0))).length : Int) ∧
      0 ≤ (vex_mesh_send P node message now nonce salt pkt0 wire0 W).ret := by
  have hL1 : message.length ≤ 401 := by
    simp only [VEX_MAX_PAYLOAD, VEX_MAX_PACKET, VEX_HEADER_SIZE] at hL
    omega
  obtain ⟨he, hol, _, hidl, hpl, htake⟩ :=
    sent_packet_facts P hok hh node message nonce salt pkt0 hL1 hn hpk hpp
  have hplen : (sent_packet P node message nonce salt pkt0).payload_len =
      message.length + 40 := hol
  obtain ⟨out, q, henc, hdec, hq1, _, hq3, hq4, hq5, hq6⟩ :=
    roundtrip_aux (sent_packet P node message nonce salt pkt0) pkt1 wire0 rfl
      (by rw [hplen]; omega) hidl (by rw [hplen, hpl]; omega)
      (by rw [hwire]; rfl) hpk1
  rw [hplen] at henc hdec hq5 hq6
  have hsent : ∀ (n : vex_node_t) (d : List Nat) (l : Nat),
      (vex_transport_send_to_all n d l (-1) W).sent =
        (((vex_transport_send_to_all n d l (-1) W).calls.filter
          (fun c => decide (c.ret = 0))).length : Int) :=
    fun n d l => send_loop_sent d l (-1) W n.peers VEX_MAX_PEERS 0
  refine ⟨he, ?_⟩
  rw [send_forward P hok hh node message now nonce salt pkt0 wire0 W hL1 hn hpk hpp, henc]
  refine ⟨_, q, rfl, rfl, ?_, ?_, hdec, hq1, hq3, hq4, hq5, ?_, rfl,
    fun h => Nat.mod_eq_of_lt h, rfl, rfl, rfl, rfl, hsent _ _ _, ?_⟩
  · simp only [VEX_HEADER_SIZE]; omega
  · simp only [VEX_HEADER_SIZE]; omega
  · rw [hq5, hq6]; exact htake
  · show 0 ≤ (vex_transport_send_to_all _ _ _ (-1) W).sent
    rw [hsent]
    exact Int.ofNat_nonneg _

theorem send_emits_one_frame_witness :
    (vex_crypto_encrypt_broadcast sample_nacl sample_node sample_message
      (sample_message.length % 65536) sample_nonce).ret = 0 ∧
    ∃ call q,
      (vex_mesh_send sample_nacl sample_node sample_message 0 sample_nonce sample_salt
        zero_packet zero_wire sample_writes).sends = [call] ∧
      call.except_fd = -1 ∧
      call.len = 11 + sample_message.length + 40 ∧ call.len ≤ 512 ∧
      vex_packet_decode (call.data.take call.len) call.len zero_packet = (0, q) ∧
      q.version = 1 ∧ q.ttl = sample_node.default_ttl ∧ q.flags = 3 ∧
      q.payload_len = sample_message.length + 40 ∧
      q.payload.take q.payload_len =
        (vex_crypto_encrypt_broadcast sample_nacl sample_node sample_message
          (sample_message.length % 65536) sample_nonce).out ∧
      (vex_mesh_send sample_nacl sample_node sample_message 0 sample_nonce sample_salt
        zero_packet zero_wire sample_writes).node.packets_sent =
        (sample_node.packets_sent + 1) % 2 ^ 64 ∧
      (sample_node.packets_sent + 1 < 2 ^ 64 →
        (vex_mesh_send sample_nacl sample_node sample_message 0 sample_nonce sample_salt
          zero_packet zero_wire sample_writes).node.packets_sent =
          sample_node.packets_sent + 1) ∧
      (vex_mesh_send sample_nacl sample_node sample_message 0 sample_nonce sample_salt
        zero_packet zero_wire sample_writes).node.packets_received =
        sample_node.packets_received ∧
      (vex_mesh_send sample_nacl sample_node sample_message 0 sample_nonce sample_salt
        zero_packet zero_wire sample_writes).node.packets_relayed =
        sample_node.packets_relayed ∧
      (vex_mesh_send sample_nacl sample_node sample_message 0 sample_nonce sample_salt
        zero_packet zero_wire sample_writes).node.packets_dropped =
        sample_node.packets_dropped ∧
      (vex_mesh_send sample_nacl sample_node sample_message 0 sample_nonce sample_salt
        zero_packet zero_wire sample_writes).ret = call.result.sent ∧
      call.result.sent =
        ((call.result.calls.filter (fun c => decide (c.ret = 0))).length : Int) ∧
      0 ≤ (vex_mesh_send sample_nacl sample_node sample_message 0 sample_nonce sample_salt
        zero_packet zero_wire sample_writes).ret :=
  send_emits_one_frame sample_nacl sample_nacl_ok sample_nacl_hash sample_node sample_message 0
    sample_nonce sample_salt zero_packet zero_packet zero_wire sample_writes (by decide)
    (by decide) zero_packet_id_length (List.length_replicate _ _) zero_wire_length
    zero_packet_id_length

/-- C11: on a node whose seen cache satisfies the invariant of reachable states
and holds no active entry with the id, let `r1` be `vex_mesh_receive` of a
decodable frame `f1` (the add made at clock `ta`), let the cache then go
through check and prune calls only (clocks up to `t2`), and let `r2` be
`vex_mesh_receive` at clock `t2`, `t2 - ta ≤ 60`, of a decodable frame `f2`
with the same packet id. Then `r2` returns 0, decrypts nothing, prints
nothing, sends nothing, leaves a seen cache in which entries were at most
deactivated, and changes nothing else but `packets_dropped`, which goes up by
one; `r1` added the id and counted the packet as received, and with relay
enabled and ttl(f1) ≥ 2 it made one `vex_transport_send_to_all` call, so the
counters moved by received +1, relayed +1, dropped +1 (modulo 2^64). -/
theorem receive_duplicate_dropped (P : nacl_t) (node : vex_node_t)
    (raw1 : List Nat) (len1 : Nat) (fd1 : Int) (raw2 : List Nat) (len2 : Nat) (fd2 : Int)
    (t1 ta t2 tb : Int) (pktA relA pktB relB : vex_packet_t) (wireA wireB : List Nat)
    (W1 W2 : Nat → write_outcome) (later : List seen_op)
    (r1 r2 : receive_result) (node2 : vex_node_t)
    (hr1 : r1 = vex_mesh_receive P node raw1 len1 fd1 t1 ta pktA relA wireA W1)
    (hnode2 : node2 = { r1.node with seen := seen_run r1.node.seen later })
    (hr2 : r2 = vex_mesh_receive P node2 raw2 len2 fd2 t2 tb pktB relB wireB W2)
    (hinv : seen_inv node.seen) (hraw : len1 ≤ raw1.length)
    (hpA : pktA.packet_id.length = 8)
    (hdec1 : (vex_packet_decode raw1 len1 pktA).1 = 0)
    (hdec2 : (vex_packet_decode raw2 len2 pktB).1 = 0)
    (hsame : (vex_packet_decode raw2 len2 pktB).2.packet_id =
      (vex_packet_decode raw1 len1 pktA).2.packet_id)
    (hfresh : ∀ e ∈ node.seen.entries, e.active ≠ 0 →
      memcmp e.packet_id (vex_packet_decode raw1 len1 pktA).2.packet_id 8 ≠ 0)
    (hlater : ∀ op ∈ later,
      (∀ (pid : List Nat) (now : Int), op ≠ .add pid now) ∧ op.clock ≤ t2)
    (hwin : t2 - ta ≤ VEX_SEEN_TTL_SEC) :
    r1.node.seen =
      vex_seen_add (vex_seen_check node.seen (vex_packet_decode raw1 len1 pktA).2.packet_id
        t1).2 (vex_packet_decode raw1 len1 pktA).2.packet_id ta ∧
    r1.node.packets_received = (node.packets_received + 1) % 2 ^ 64 ∧
    r1.node.packets_dropped = node.packets_dropped ∧
    r2 = { ret := 0
           node := { node2 with
             seen := (vex_seen_check node2.seen
               (vex_packet_decode raw1 len1 pktA).2.packet_id t2).2
             packets_dropped := (node.packets_dropped + 1) % 2 ^ 64 }
           decrypts := [], delivered := [], sends := [] } ∧
    seen_weaker t2 node2.seen r2.node.seen ∧
    r2.node.packets_received = (node.packets_received + 1) % 2 ^ 64 ∧
    r2.node.packets_sent = node.packets_sent ∧
    (node.packets_dropped + 1 < 2 ^ 64 →
      r2.node.packets_dropped = node.packets_dropped + 1) ∧
    (node.relay_enabled ≠ 0 → 2 ≤ (vex_packet_decode raw1 len1 pktA).2.ttl →
      (∃ call, r1.sends = [call] ∧ call.except_fd = fd1) ∧
      r2.node.packets_relayed = (node.packets_relayed + 1) % 2 ^ 64) := by
  have hidl := decoded_id_length raw1 len1 pktA hdec1 hraw hpA
  have hchk1 := check_fresh node.seen _ t1 hfresh
  obtain ⟨f1, f2, f3, f4⟩ :=
    receive_fresh_fields P node raw1 len1 fd1 t1 ta pktA relA wireA W1 hdec1 hchk1
  rw [← hr1] at f1 f2 f3 f4
  have hs2 : node2.seen = seen_run r1.node.seen later := by rw [hnode2]
  have hchk2 : (vex_seen_check node2.seen (vex_packet_decode raw2 len2 pktB).2.packet_id
      t2).1 ≠ 0 := by
    rw [hsame, hs2, f1, check_after_add_run _ _ ta t2 later
      (seen_inv_check node.seen _ t1 hinv) hidl hlater hwin]
    decide
  have hdrop : node2.packets_dropped = node.packets_dropped := by rw [hnode2]; exact f3
  have hrecv : node2.packets_received = (node.packets_received + 1) % 2 ^ 64 := by
    rw [hnode2]; exact f2
  have hsent : node2.packets_sent = node.packets_sent := by rw [hnode2]; exact f4
  have hrel : node2.packets_relayed = r1.node.packets_relayed := by rw [hnode2]
  have hres := receive_seen P node2 raw2 len2 fd2 t2 tb pktB relB wireB W2 hdec2 hchk2
  rw [← hr2, hsame, hdrop] at hres
  refine ⟨f1, f2, f3, hres, ?_, ?_, ?_, ?_, ?_⟩
  · rw [hres]
    exact seen_weaker_step t2 node2.seen
      (seen_op.check (vex_packet_decode raw1 len1 pktA).2.packet_id t2)
      (fun _ _ hne => seen_op.noConfusion hne) (le_refl _)
  · rw [hres]; exact hrecv
  · rw [hres]; exact hsent
  · intro h
    rw [hres]
    exact Nat.mod_eq_of_lt h
  · intro hrelay httl
    obtain ⟨call, hc1, hc2, _, _, _, _, _, hc8⟩ :=
      receive_fresh_relay P node raw1 len1 fd1 t1 ta pktA relA wireA W1 hdec1 hchk1 hrelay httl
    rw [← hr1] at hc1 hc8
    refine ⟨⟨call, hc1, hc2⟩, ?_⟩
    rw [hres]
    show node2.packets_relayed = _
    rw [hrel, hc8]

theorem receive_duplicate_dropped_witness :
    sample_first_receive.node.seen =
      vex_seen_add (vex_seen_check sample_node.seen
        (vex_packet_decode sample_frame 14 zero_packet).2.packet_id 0).2
        (vex_packet_decode sample_frame 14 zero_packet).2.packet_id 0 ∧
    sample_first_receive.node.packets_received = (sample_node.packets_received + 1) % 2 ^ 64 ∧
    sample_first_receive.node.packets_dropped = sample_node.packets_dropped ∧
    sample_second_receive =
        { ret := 0
          node := { sample_node_later with
            seen := (vex_seen_check sample_node_later.seen
              (vex_packet_decode sample_frame 14 zero_packet).2.packet_id 30).2
            packets_dropped := (sample_node.packets_dropped + 1) % 2 ^ 64 }
          decrypts := [], delivered := [], sends := [] } ∧
    seen_weaker 30 sample_node_later.seen sample_second_receive.node.seen ∧
    sample_second_receive.node.packets_received =
      (sample_node.packets_received + 1) % 2 ^ 64 ∧
    sample_second_receive.node.packets_sent = sample_node.packets_sent ∧
    (sample_node.packets_dropped + 1 < 2 ^ 64 →
      sample_second_receive.node.packets_dropped = sample_node.packets_dropped + 1) ∧
    (sample_node.relay_enabled ≠ 0 →
      2 ≤ (vex_packet_decode sample_frame 14 zero_packet).2.ttl →
      (∃ call, sample_first_receive.sends = [call] ∧ call.except_fd = 5) ∧
      sample_second_receive.node.packets_relayed =
        (sample_node.packets_relayed + 1) % 2 ^ 64) :=
  receive_duplicate_dropped sample_nacl sample_node sample_frame 14 5 sample_frame 14 6
    0 0 30 30 zero_packet zero_packet zero_packet zero_packet zero_wire zero_wire
    sample_writes sample_writes [seen_op.check sample_id_b 10, seen_op.prune 20]
    sample_first_receive sample_second_receive sample_node_later rfl rfl rfl
    sample_node_inv (by decide) zero_packet_id_length (by decide) (by decide) rfl
    (sample_node_fresh _) sample_later_clock (by decide)

/-- C15: for a message `vex_mesh_send` accepts (secretbox primitive that does
not fail, 64-byte hash, 24-byte nonce, arrays of the declared sizes, seen
cache satisfying the invariant of reachable states), the frame handed to
`vex_transport_send_to_all` decodes to the packet id that was added to the
seen cache at clock `now`; and when, after check and prune calls only, any
decodable frame with that id is given to `vex_mesh_receive` on the node at a
clock `t2` with `t2 - now ≤ 60`, the call returns 0, increments
`packets_dropped` (modulo 2^64) and nothing else besides the seen-cache
expiry, decrypts nothing, prints nothing and sends nothing. -/
theorem send_echo_dropped (P : nacl_t) (hok : secretbox_ok P) (hh : hash_ok P)
    (node : vex_node_t) (message : List Nat) (now : Int) (nonce salt : List Nat)
    (pkt0 : vex_packet_t) (wire0 : List Nat) (W : Nat → write_outcome)
    (later : List seen_op) (node2 : vex_node_t)
    (raw : List Nat) (len : Nat) (source_fd : Int) (t2 tb : Int)
    (pkt1 relay_pkt1 : vex_packet_t) (wire1 : List Nat) (W2 : Nat → write_outcome)
    (hL : ¬ message.length > VEX_MAX_PAYLOAD - 100) (hn : nonce.length = 24)
    (hpk : pkt0.packet_id.length = 8) (hpp : pkt0.payload.length = 501)
    (hwire : wire0.length = VEX_MAX_PACKET) (hpk1 : pkt1.packet_id.length = 8)
    (hinv : seen_inv node.seen)
    (hnode2 : node2.seen =
      seen_run (vex_mesh_send P node message now nonce salt pkt0 wire0 W).node.seen later)
    (hlater : ∀ op ∈ later,
      (∀ (pid : List Nat) (t : Int), op ≠ .add pid t) ∧ op.clock ≤ t2)
    (hwin : t2 - now ≤ VEX_SEEN_TTL_SEC)
    (hdec : (vex_packet_decode raw len pkt1).1 = 0)
    (hsame : (vex_packet_decode raw len pkt1).2.packet_id =
      (sent_packet P node message nonce salt pkt0).packet_id) :
    (vex_mesh_send P node message now nonce salt pkt0 wire0 W).node.seen =
      vex_seen_add node.seen (sent_packet P node message nonce salt pkt0).packet_id now ∧
    (∃ call q,
      (vex_mesh_send P node message now nonce salt pkt0 wire0 W).sends = [call] ∧
      vex_packet_decode (call.data.take call.len) call.len pkt1 = (0, q) ∧
      q.packet_id = (sent_packet P node message nonce salt pkt0).packet_id) ∧
    vex_mesh_receive P node2 raw len source_fd t2 tb pkt1 relay_pkt1 wire1 W2 =
      { ret := 0
        node := { node2 with
          seen := (vex_seen_check node2.seen
            (sent_packet P node message nonce salt pkt0).packet_id t2).2
          packets_dropped := (node2.packets_dropped + 1) % 2 ^ 64 }
        decrypts := [], delivered := [], sends := [] } ∧
    (node2.packets_dropped + 1 < 2 ^ 64 →
      (vex_mesh_receive P node2 raw len source_fd t2 tb pkt1 relay_pkt1 wire1
        W2).node.packets_dropped = node2.packets_dropped + 1) := by
  have hL1 : message.length ≤ 401 := by
    simp only [VEX_MAX_PAYLOAD, VEX_MAX_PACKET, VEX_HEADER_SIZE] at hL
    omega
  obtain ⟨_, hol, _, hidl, hpl, _⟩ :=
    sent_packet_facts P hok hh node message nonce salt pkt0 hL1 hn hpk hpp
  have hplen : (sent_packet P node message nonce salt pkt0).payload_len =
      message.length + 40 := hol
  obtain ⟨out, q, henc, hdecq, _, hq2, _⟩ :=
    roundtrip_aux (sent_packet P node message nonce salt pkt0) pkt1 wire0 rfl
      (by rw [hplen]; omega) hidl (by rw [hplen, hpl]; omega)
      (by rw [hwire]; rfl) hpk1
  rw [hplen] at henc hdecq
  have hseen : (vex_mesh_send P node message now nonce salt pkt0 wire0 W).node.seen =
      vex_seen_add node.seen (sent_packet P node message nonce salt pkt0).packet_id now := by
    rw [send_forward P hok hh node message now nonce salt pkt0 wire0 W hL1 hn hpk hpp]
  have hchk : (vex_seen_check node2.seen (vex_packet_decode raw len pkt1).2.packet_id
      t2).1 ≠ 0 := by
    rw [hsame, hnode2, hseen, check_after_add_run _ _ now t2 later hinv hidl hlater hwin]
    decide
  have hres := receive_seen P node2 raw len source_fd t2 tb pkt1 relay_pkt1 wire1 W2 hdec hchk
  rw [hsame] at hres
  refine ⟨hseen, ?_, hres, ?_⟩
  · rw [send_forward P hok hh node message now nonce salt pkt0 wire0 W hL1 hn hpk hpp, henc]
    exact ⟨_, q, rfl, hdecq, hq2⟩
  · intro h
    rw [hres]
    exact Nat.mod_eq_of_lt h

theorem send_echo_dropped_witness :
    (vex_mesh_send sample_nacl sample_node sample_message 0 sample_nonce sample_salt
      zero_packet zero_wire sample_writes).node.seen =
      vex_seen_add sample_node.seen
        (sent_packet sample_nacl sample_node sample_message sample_nonce sample_salt
          zero_packet).packet_id 0 ∧
    (∃ call q,
      (vex_mesh_send sample_nacl sample_node sample_message 0 sample_nonce sample_salt
        zero_packet zero_wire sample_writes).sends = [call] ∧
      vex_packet_decode (call.data.take call.len) call.len zero_packet = (0, q) ∧
      q.packet_id = (sent_packet sample_nacl sample_node sample_message sample_nonce
        sample_salt zero_packet).packet_id) ∧
    vex_mesh_receive sample_nacl sample_sender_later sample_cipher_frame 54 5 30 30
      zero_packet zero_packet zero_wire sample_writes =
      { ret := 0
        node := { sample_sender_later with
          seen := (vex_seen_check sample_sender_later.seen
            (sent_packet sample_nacl sample_node sample_message sample_nonce sample_salt
              zero_packet).packet_id 30).2
          packets_dropped := (sample_sender_later.packets_dropped + 1) % 2 ^ 64 }
        decrypts := [], delivered := [], sends := [] } ∧
    (sample_sender_later.packets_dropped + 1 < 2 ^ 64 →
      (vex_mesh_receive sample_nacl sample_sender_later sample_cipher_frame 54 5 30 30
        zero_packet zero_packet zero_wire sample_writes).node.packets_dropped =
        sample_sender_later.packets_dropped + 1) :=
  send_echo_dropped sample_nacl sample_nacl_ok sample_nacl_hash sample_node sample_message 0
    sample_nonce sample_salt zero_packet zero_wire sample_writes
    [seen_op.check sample_id_b 10, seen_op.prune 20] sample_sender_later
    sample_cipher_frame 54 5 30 30 zero_packet zero_packet zero_wire sample_writes
    (by decide) (by decide) zero_packet_id_length (List.length_replicate _ _) zero_wire_length
    zero_packet_id_length sample_node_inv sample_sender_later_seen sample_later_clock
    (by decide) (by decide) sample_cipher_frame_id

/-- C18: on a relay-enabled node, for a decodable frame not seen before, with
the ENCRYPTED flag set and ttl at least 2, `vex_mesh_receive` counts the
packet as received, adds its id to the seen cache, and calls
`vex_transport_send_to_all` once with the re-encoded frame and `source_fd`
excluded, counting one relay; the return value, the node afterwards and the
call are the same whatever the secretbox primitive does, so they do not
depend on the outcome of decryption. Decryption is attempted once; when it
fails nothing is printed, when it returns 0 one line is. -/
theorem receive_relays_undecryptable (P : nacl_t) (node : vex_node_t) (raw : List Nat)
    (len : Nat) (source_fd : Int) (now_check now_add : Int)
    (pkt0 relay_pkt0 : vex_packet_t) (wire0 : List Nat) (W : Nat → write_outcome)
    (hrelay : node.relay_enabled ≠ 0)
    (hdec : (vex_packet_decode raw len pkt0).1 = 0)
    (hchk : (vex_seen_check node.seen (vex_packet_decode raw len pkt0).2.packet_id
      now_check).1 = 0)
    (hflag : (vex_packet_decode raw len pkt0).2.flags &&& VEX_FLAG_ENCRYPTED ≠ 0)
    (httl : 2 ≤ (vex_packet_decode raw len pkt0).2.ttl) :
    (∀ P2 : nacl_t,
      (vex_mesh_receive P2 node raw len source_fd now_check now_add pkt0 relay_pkt0 wire0
        W).ret =
        (vex_mesh_receive P node raw len source_fd now_check now_add pkt0 relay_pkt0 wire0
          W).ret ∧
      (vex_mesh_receive P2 node raw len source_fd now_check now_add pkt0 relay_pkt0 wire0
        W).node =
        (vex_mesh_receive P node raw len source_fd now_check now_add pkt0 relay_pkt0 wire0
          W).node ∧
      (vex_mesh_receive P2 node raw len source_fd now_check now_add pkt0 relay_pkt0 wire0
        W).sends =
        (vex_mesh_receive P node raw len source_fd now_check now_add pkt0 relay_pkt0 wire0
          W).sends) ∧
    (vex_mesh_receive P node raw len source_fd now_check now_add pkt0 relay_pkt0 wire0
      W).node.packets_received = (node.packets_received + 1) % 2 ^ 64 ∧
    (vex_mesh_receive P node raw len source_fd now_check now_add pkt0 relay_pkt0 wire0
      W).node.seen =
      vex_seen_add (vex_seen_check node.seen (vex_packet_decode raw len pkt0).2.packet_id
        now_check).2 (vex_packet_decode raw len pkt0).2.packet_id now_add ∧
    (vex_mesh_receive P node raw len source_fd now_check now_add pkt0 relay_pkt0 wire0
      W).node.packets_dropped = node.packets_dropped ∧
    (∃ call,
      (vex_mesh_receive P node raw len source_fd now_check now_add pkt0 relay_pkt0 wire0
        W).sends = [call] ∧
      call.except_fd = source_fd ∧
      call.data = (vex_packet_encode { (vex_packet_decode raw len relay_pkt0).2 with
        ttl := ((vex_packet_decode raw len relay_pkt0).2.ttl - 1) % 256 } wire0
        VEX_MAX_PACKET).2 ∧
      call.len = VEX_HEADER_SIZE + (vex_packet_decode raw len relay_pkt0).2.payload_len ∧
      (vex_mesh_receive P node raw len source_fd now_check now_add pkt0 relay_pkt0 wire0
        W).ret = call.result.sent ∧
      (vex_mesh_receive P node raw len source_fd now_check now_add pkt0 relay_pkt0 wire0
        W).node.packets_relayed = (node.packets_relayed + 1) % 2 ^ 64) ∧
    (vex_mesh_receive P node raw len source_fd now_check now_add pkt0 relay_pkt0 wire0
      W).decrypts =
      [((vex_packet_decode raw len pkt0).2.payload,
        (vex_packet_decode raw len pkt0).2.payload_len)] ∧
    ((vex_crypto_decrypt_broadcast P node (vex_packet_decode raw len pkt0).2.payload
        (vex_packet_decode raw len pkt0).2.payload_len).ret ≠ 0 →
      (vex_mesh_receive P node raw len source_fd now_check now_add pkt0 relay_pkt0 wire0
        W).delivered = []) ∧
    ((vex_crypto_decrypt_broadcast P node (vex_packet_decode raw len pkt0).2.payload
        (vex_packet_decode raw len pkt0).2.payload_len).ret = 0 →
      (vex_mesh_receive P node raw len source_fd now_check now_add pkt0 relay_pkt0 wire0
        W).delivered.length = 1) := by
  obtain ⟨f1, f2, f3, _⟩ :=
    receive_fresh_fields P node raw len source_fd now_check now_add pkt0 relay_pkt0 wire0 W
      hdec hchk
  obtain ⟨call, hc1, hc2, hc3, hc4, _, hc6, _, hc8⟩ :=
    receive_fresh_relay P node raw len source_fd now_check now_add pkt0 relay_pkt0 wire0 W
      hdec hchk hrelay httl
  have hkey : vex_crypto_decrypt_broadcast P
      (received_node node (vex_packet_decode raw len pkt0).2.packet_id now_check now_add)
      (vex_packet_decode raw len pkt0).2.payload
      (vex_packet_decode raw len pkt0).2.payload_len =
      vex_crypto_decrypt_broadcast P node (vex_packet_decode raw len pkt0).2.payload
        (vex_packet_decode raw len pkt0).2.payload_len :=
    decrypt_mesh_key P _ node _ _ rfl
  refine ⟨fun P2 => ?_, f2, f1, f3, ⟨call, hc1, hc2, hc3, hc4, hc6, hc8⟩, ?_, ?_, ?_⟩
  · rw [receive_fresh P2 node raw len source_fd now_check now_add pkt0 relay_pkt0 wire0 W
      hdec hchk,
      receive_fresh P node raw len source_fd now_check now_add pkt0 relay_pkt0 wire0 W
      hdec hchk]
    exact ⟨rfl, rfl, rfl⟩
  · rw [receive_fresh P node raw len source_fd now_check now_add pkt0 relay_pkt0 wire0 W
      hdec hchk]
    simp only [if_pos hflag]
  · intro hfail
    rw [receive_fresh P node raw len source_fd now_check now_add pkt0 relay_pkt0 wire0 W
      hdec hchk]
    simp only [if_pos hflag, hkey, if_neg hfail]
  · intro hgood
    rw [receive_fresh P node raw len source_fd now_check now_add pkt0 relay_pkt0 wire0 W
      hdec hchk]
    simp only [if_pos hflag, hkey, if_pos hgood, List.length_singleton]

theorem receive_relays_undecryptable_witness :
    (∀ P2 : nacl_t,
      (vex_mesh_receive P2 sample_node sample_frame 14 5 0 0 zero_packet zero_packet zero_wire
        sample_writes).ret =
        (vex_mesh_receive sample_nacl sample_node sample_frame 14 5 0 0 zero_packet zero_packet
          zero_wire sample_writes).ret ∧
      (vex_mesh_receive P2 sample_node sample_frame 14 5 0 0 zero_packet zero_packet zero_wire
        sample_writes).node =
        (vex_mesh_receive sample_nacl sample_node sample_frame 14 5 0 0 zero_packet zero_packet
          zero_wire sample_writes).node ∧
      (vex_mesh_receive P2 sample_node sample_frame 14 5 0 0 zero_packet zero_packet zero_wire
        sample_writes).sends =
        (vex_mesh_receive sample_nacl sample_node sample_frame 14 5 0 0 zero_packet zero_packet
          zero_wire sample_writes).sends) ∧
    (vex_mesh_receive sample_nacl sample_node sample_frame 14 5 0 0 zero_packet zero_packet
      zero_wire sample_writes).node.packets_received =
      (sample_node.packets_received + 1) % 2 ^ 64 ∧
    (vex_mesh_receive sample_nacl sample_node sample_frame 14 5 0 0 zero_packet zero_packet
      zero_wire sample_writes).node.seen =
      vex_seen_add (vex_seen_check sample_node.seen
        (vex_packet_decode sample_frame 14 zero_packet).2.packet_id 0).2
        (vex_packet_decode sample_frame 14 zero_packet).2.packet_id 0 ∧
    (vex_mesh_receive sample_nacl sample_node sample_frame 14 5 0 0 zero_packet zero_packet
      zero_wire sample_writes).node.packets_dropped = sample_node.packets_dropped ∧
    (∃ call,
      (vex_mesh_receive sample_nacl sample_node sample_frame 14 5 0 0 zero_packet zero_packet
        zero_wire sample_writes).sends = [call] ∧
      call.except_fd = 5 ∧
      call.data = (vex_packet_encode { (vex_packet_decode sample_frame 14 zero_packet).2 with
        ttl := ((vex_packet_decode sample_frame 14 zero_packet).2.ttl - 1) % 256 } zero_wire
        VEX_MAX_PACKET).2 ∧
      call.len = VEX_HEADER_SIZE + (vex_packet_decode sample_frame 14 zero_packet).2.payload_len ∧
      (vex_mesh_receive sample_nacl sample_node sample_frame 14 5 0 0 zero_packet zero_packet
        zero_wire sample_writes).ret = call.result.sent ∧
      (vex_mesh_receive sample_nacl sample_node sample_frame 14 5 0 0 zero_packet zero_packet
        zero_wire sample_writes).node.packets_relayed =
        (sample_node.packets_relayed + 1) % 2 ^ 64) ∧
    (vex_mesh_receive sample_nacl sample_node sample_frame 14 5 0 0 zero_packet zero_packet
      zero_wire sample_writes).decrypts =
      [((vex_packet_decode sample_frame 14 zero_packet).2.payload,
        (vex_packet_decode sample_frame 14 zero_packet).2.payload_len)] ∧
    ((vex_crypto_decrypt_broadcast sample_nacl sample_node
        (vex_packet_decode sample_frame 14 zero_packet).2.payload
        (vex_packet_decode sample_frame 14 zero_packet).2.payload_len).ret ≠ 0 →
      (vex_mesh_receive sample_nacl sample_node sample_frame 14 5 0 0 zero_packet zero_packet
        zero_wire sample_writes).delivered = []) ∧
    ((vex_crypto_decrypt_broadcast sample_nacl sample_node
        (vex_packet_decode sample_frame 14 zero_packet).2.payload
        (vex_packet_decode sample_frame 14 zero_packet).2.payload_len).ret = 0 →
      (vex_mesh_receive sample_nacl sample_node sample_frame 14 5 0 0 zero_packet zero_packet
        zero_wire sample_writes).delivered.length = 1) :=
  receive_relays_undecryptable sample_nacl sample_node sample_frame 14 5 0 0 zero_packet
    zero_packet zero_wire sample_writes (by decide) (by decide) (sample_node_check _ 0)
    (by decide) (by decide)

/-- C19 (counterexample): on a node with `default_ttl = 7`, a frame arriving
with ttl 7, as its originator emits it, is printed with `hops = 0`, and the
same frame after one relay (ttl 6) is printed with `hops = 1`; the number of
links crossed is 1 and 2. -/
theorem receive_reports_zero_hops :
    sample_node.default_ttl = 7 ∧
    (vex_packet_decode sample_cipher_frame 54 zero_packet).2.ttl = 7 ∧
    (vex_mesh_receive sample_nacl sample_node sample_cipher_frame 54 5 0 0 zero_packet
      zero_packet zero_wire sample_writes).delivered =
      [{ text := sample_message, ttl := 7, hops := 0 }] ∧
    (vex_packet_decode sample_cipher_frame_relayed 54 zero_packet).2.ttl = 6 ∧
    (vex_mesh_receive sample_nacl sample_node sample_cipher_frame_relayed 54 5 0 0 zero_packet
      zero_packet zero_wire sample_writes).delivered =
      [{ text := sample_message, ttl := 6, hops := 1 }] := by
  refine ⟨rfl, by decide, ?_, by decide, ?_⟩
  · rw [receive_fresh sample_nacl sample_node sample_cipher_frame 54 5 0 0 zero_packet
      zero_packet zero_wire sample_writes (by decide) (sample_node_check _ 0)]
    simp only []
    rw [decrypt_mesh_key sample_nacl (received_node sample_node _ 0 0) sample_node _ _ rfl]
    decide
  · rw [receive_fresh sample_nacl sample_node sample_cipher_frame_relayed 54 5 0 0 zero_packet
      zero_packet zero_wire sample_writes (by decide) (sample_node_check _ 0)]
    simp only []
    rw [decrypt_mesh_key sample_nacl (received_node sample_node _ 0 0) sample_node _ _ rfl]
    decide

/-- C19 (amended): for a decodable frame not seen before, every line
`vex_mesh_receive` prints carries the ttl field of the frame and
`hops = default_ttl - ttl`, the number of relays the frame went through: 0 for
a frame that arrives with ttl `default_ttl`, 1 for a frame that arrives with
ttl `default_ttl - 1`. With the ENCRYPTED flag set and a decryption that
returns 0 exactly one line is printed. -/
theorem receive_reports_ttl_difference (P : nacl_t) (node : vex_node_t) (raw : List Nat)
    (len : Nat) (source_fd : Int) (now_check now_add : Int)
    (pkt0 relay_pkt0 : vex_packet_t) (wire0 : List Nat) (W : Nat → write_outcome)
    (hdec : (vex_packet_decode raw len pkt0).1 = 0)
    (hchk : (vex_seen_check node.seen (vex_packet_decode raw len pkt0).2.packet_id
      now_check).1 = 0) :
    (∀ line ∈ (vex_mesh_receive P node raw len source_fd now_check now_add pkt0 relay_pkt0
        wire0 W).delivered,
      line.ttl = raw.getD 9 0 ∧
      line.hops = (node.default_ttl : Int) - (raw.getD 9 0 : Int) ∧
      (raw.getD 9 0 = node.default_ttl → line.hops = 0) ∧
      (raw.getD 9 0 + 1 = node.default_ttl → line.hops = 1)) ∧
    ((vex_packet_decode raw len pkt0).2.flags &&& VEX_FLAG_ENCRYPTED ≠ 0 →
      (vex_crypto_decrypt_broadcast P node (vex_packet_decode raw len pkt0).2.payload
        (vex_packet_decode raw len pkt0).2.payload_len).ret = 0 →
      (vex_mesh_receive P node raw len source_fd now_check now_add pkt0 relay_pkt0 wire0
        W).delivered.length = 1) := by
  have httl := (decode_other_local raw len pkt0 pkt0 hdec).2.2.2.1
  have hkey : vex_crypto_decrypt_broadcast P
      (received_node node (vex_packet_decode raw len pkt0).2.packet_id now_check now_add)
      (vex_packet_decode raw len pkt0).2.payload
      (vex_packet_decode raw len pkt0).2.payload_len =
      vex_crypto_decrypt_broadcast P node (vex_packet_decode raw len pkt0).2.payload
        (vex_packet_decode raw len pkt0).2.payload_len :=
    decrypt_mesh_key P _ node _ _ rfl
  rw [receive_fresh P node raw len source_fd now_check now_add pkt0 relay_pkt0 wire0 W
    hdec hchk]
  simp only [hkey, httl]
  constructor
  · intro line hline
    by_cases hflag : (vex_packet_decode raw len pkt0).2.flags &&& VEX_FLAG_ENCRYPTED ≠ 0
    · by_cases hgood : (vex_crypto_decrypt_broadcast P node
          (vex_packet_decode raw len pkt0).2.payload
          (vex_packet_decode raw len pkt0).2.payload_len).ret = 0
      · rw [if_pos hflag, if_pos hgood, List.mem_singleton] at hline
        subst hline
        refine ⟨rfl, rfl, fun h => ?_, fun h => ?_⟩
        · show (node.default_ttl : Int) - (raw.getD 9 0 : Int) = 0
          omega
        · show (node.default_ttl : Int) - (raw.getD 9 0 : Int) = 1
          omega
      · rw [if_pos hflag, if_neg hgood] at hline
        exact absurd hline (List.not_mem_nil _)
    · rw [if_neg hflag] at hline
      exact absurd hline (List.not_mem_nil _)
  · intro hflag hgood
    rw [if_pos hflag, if_pos hgood]
    rfl

theorem receive_reports_ttl_difference_witness :
    (∀ line ∈ (vex_mesh_receive sample_nacl sample_node sample_cipher_frame 54 5 0 0
        zero_packet zero_packet zero_wire sample_writes).delivered,
      line.ttl = sample_cipher_frame.getD 9 0 ∧
      line.hops = (sample_node.default_ttl : Int) - (sample_cipher_frame.getD 9 0 : Int) ∧
      (sample_cipher_frame.getD 9 0 = sample_node.default_ttl → line.hops = 0) ∧
      (sample_cipher_frame.getD 9 0 + 1 = sample_node.default_ttl → line.hops = 1)) ∧
    ((vex_packet_decode sample_cipher_frame 54 zero_packet).2.flags &&& VEX_FLAG_ENCRYPTED ≠ 0 →
      (vex_crypto_decrypt_broadcast sample_nacl sample_node
        (vex_packet_decode sample_cipher_frame 54 zero_packet).2.payload
        (vex_packet_decode sample_cipher_frame 54 zero_packet).2.payload_len).ret = 0 →
      (vex_mesh_receive sample_nacl sample_node sample_cipher_frame 54 5 0 0 zero_packet
        zero_packet zero_wire sample_writes).delivered.length = 1) :=
  receive_reports_ttl_difference sample_nacl sample_node sample_cipher_frame 54 5 0 0
    zero_packet zero_packet zero_wire sample_writes (by decide) (sample_node_check _ 0)

theorem receive_malformed_witness :
    (vex_mesh_receive sample_nacl sample_node [1, 2, 3] 3 5 0 0 zero_packet zero_packet
      zero_wire sample_writes).ret = -1 ∧
    (vex_mesh_receive sample_nacl sample_node [1, 2, 3] 3 5 0 0 zero_packet zero_packet
      zero_wire sample_writes).node =
      { sample_node with packets_dropped := (sample_node.packets_dropped + 1) % 2 ^ 64 } ∧
    (sample_node.packets_dropped + 1 < 2 ^ 64 →
      (vex_mesh_receive sample_nacl sample_node [1, 2, 3] 3 5 0 0 zero_packet zero_packet
        zero_wire sample_writes).node.packets_dropped = sample_node.packets_dropped + 1) ∧
    (vex_mesh_receive sample_nacl sample_node [1, 2, 3] 3 5 0 0 zero_packet zero_packet
      zero_wire sample_writes).decrypts = [] ∧
    (vex_mesh_receive sample_nacl sample_node [1, 2, 3] 3 5 0 0 zero_packet zero_packet
      zero_wire sample_writes).delivered = [] ∧
    (vex_mesh_receive sample_nacl sample_node [1, 2, 3] 3 5 0 0 zero_packet zero_packet
      zero_wire sample_writes).sends = [] :=
  receive_malformed sample_nacl sample_node [1, 2, 3] 3 5 0 0 zero_packet zero_packet
    zero_wire sample_writes (by decide)

theorem vex_seen_add_placement_witness :
    ∃ k, k < VEX_SEEN_CAPACITY ∧
      (vex_seen_add (vex_seen_init ⟨[], 0⟩) sample_id_a 0).entries =
        (vex_seen_init ⟨[], 0⟩).entries.set k
          { packet_id := sample_id_a, timestamp := 0, active := 1 } ∧
      (vex_seen_add (vex_seen_init ⟨[], 0⟩) sample_id_a 0).count =
        max (vex_seen_init ⟨[], 0⟩).count ((k : Int) + 1) ∧
      ((∃ (j : Nat) (e : vex_seen_entry_t),
          (vex_seen_init ⟨[], 0⟩).entries[j]? = some e ∧ ¬ entry_live e 0) →
        (∃ e, (vex_seen_init ⟨[], 0⟩).entries[k]? = some e ∧ ¬ entry_live e 0) ∧
        ∀ (j : Nat) (e : vex_seen_entry_t), j < k →
          (vex_seen_init ⟨[], 0⟩).entries[j]? = some e → entry_live e 0) ∧
      ((∀ (j : Nat) (e : vex_seen_entry_t),
          (vex_seen_init ⟨[], 0⟩).entries[j]? = some e → entry_live e 0) →
        ∃ ek, (vex_seen_init ⟨[], 0⟩).entries[k]? = some ek ∧
          ∀ (j : Nat) (e : vex_seen_entry_t), (vex_seen_init ⟨[], 0⟩).entries[j]? = some e →
            ek.timestamp ≤ e.timestamp ∧ (j < k → ek.timestamp < e.timestamp)) :=
  vex_seen_add_placement (vex_seen_init ⟨[], 0⟩) sample_id_a 0 (seen_inv_init ⟨[], 0⟩) rfl
    sample_init_ids

/-- C16: on an active peer slot, `vex_transport_unix_read` returns -1 and leaves
the slot active, its descriptor not closed, when the first `read` delivers one
of the two length bytes, and also when the length header announces 513 bytes
(more than `VEX_MAX_PACKET`): these two error returns do not invalidate the
slot. -/
theorem unix_read_error_leaves_slot_active :
    sample_peer.active ≠ 0 ∧
    (vex_transport_unix_read sample_peer zero_wire 512 partial_header_reads 0).ret = -1 ∧
    (vex_transport_unix_read sample_peer zero_wire 512 partial_header_reads 0).peer.active
      ≠ 0 ∧
    (vex_transport_unix_read sample_peer zero_wire 512 partial_header_reads 0).closed
      = false ∧
    (vex_transport_unix_read sample_peer zero_wire 512 oversize_header_reads 0).ret = -1 ∧
    (vex_transport_unix_read sample_peer zero_wire 512 oversize_header_reads 0).peer.active
      ≠ 0 ∧
    (vex_transport_unix_read sample_peer zero_wire 512 oversize_header_reads 0).closed
      = false := by
  refine ⟨by decide, ?_, ?_, ?_, ?_, ?_, ?_⟩ <;> decide

end Vex
